import Mathlib

/-!
# eglib main loop (`src/eglib/gmain.c`): shallow embedding

The C program is embedded as pure functions over an explicit `World`:

* a `GSList` of object pointers is a Lean `List` of the records pointed to; every record
  keeps the address it was allocated at in its `ptr` field, so that the pointer comparisons
  of the source (`l->data == data`, `ptr_cmp`) are comparisons of `ptr` fields;
* the default context is created before the first registration instead of lazily on first
  use, which no caller can tell apart;
* `g_new` is a bump allocator (`World.brk`): an address is never handed out twice, and the
  null pointer is `0`; addresses are 64 bit wide, and `ptr_cmp` keeps the low 32 bits of
  their difference, as the conversion to its result type `int` does;
* a pointer to an object the loop has read (`w`, `t`) stands for the object as it was read:
  nothing in the source writes to a watch between two polls, and the released memory of an
  object that was freed in between still holds what the object held;
* `g_free(loop->context)` marks the context as released (`GMainContext.released`) and leaves
  in it what it held; the loops of the source that go on to read the context after a
  callback has released it have undefined behaviour, and no result here;
* channels are shared between their creator and the watches, so they live in a heap
  (`World.channels`), `none` standing for released memory;
* `gettimeofday` reads `World.now`; code outside the source (callbacks, `poll`) may move it;
* the other system calls (`read`, `write`, `pipe`, `poll`, `waitpid`) are not modelled: what
  they deliver is an argument of the function that calls them;
* callbacks are function pointers; what a pointer does when called is given by a `Callbacks`
  environment, and every call made by the loop is recorded in `World.trace`; the destroy
  notifier of a watch is recorded as called and taken not to call back into the loop;
* `guint` arithmetic is taken modulo `2^32`, `gint` arithmetic wraps in two's complement
  (what the usual compilers produce for the signed subtraction in `watch_prio_cmp`);
  `glong`, `time_t` and `suseconds_t` are 64 bit wide and are plain integers here.
-/

namespace Eglib

/-! ## Machine integers -/

/-- Two's-complement wrap of an integer into the range of a 32 bit `gint`. -/
def wrap_gint (x : Int) : Int := (x + 2147483648) % 4294967296 - 2147483648

/-- Wrap of a natural number into the range of a 32 bit `guint`. -/
def wrap_guint (x : Nat) : Nat := x % 4294967296

/-- Largest `glong` (LP64). -/
def LONG_MAX : Int := 9223372036854775807

/-- Largest `gssize` (LP64). -/
def SSIZE_MAX : Nat := 9223372036854775807

/-! ## Data model -/

/-- The `struct timeval` of `<sys/time.h>`. -/
structure timeval where
  tv_sec : Int
  tv_usec : Int
deriving DecidableEq, Repr

/-- The `struct _GIOChannel` of the source. -/
structure GIOChannel where
  fd : Int
  ref_count : Int
  closed : Bool
  close_on_unref : Bool
deriving DecidableEq, Repr

/-- The `struct io_watch` of the source. `ptr` is the address of the object; `revents` is the
index of the `ufds` slot the pointer `w->revents` refers to; `destroy` is `none` for `NULL`. -/
structure io_watch where
  ptr : Nat
  id : Nat
  channel : Nat
  priority : Int
  condition : Int
  revents : Nat
  func : Nat
  user_data : Nat
  destroy : Option Nat
deriving DecidableEq, Repr

/-- The `struct timeout` of the source, with the address of the object in `ptr`. -/
structure timeout where
  ptr : Nat
  id : Nat
  interval : Nat
  expiration : timeval
  data : Nat
  function : Nat
deriving DecidableEq, Repr

/-- The `struct child_watch` of the source, with the address of the object in `ptr`. -/
structure child_watch where
  ptr : Nat
  id : Nat
  pid : Int
  function : Nat
  user_data : Nat
deriving DecidableEq, Repr

/-- The `struct _GMainContext` of the source. The field `released` is not a member of the
structure: it records that the object has been released with `g_free`. -/
structure GMainContext where
  released : Bool
  next_id : Nat
  next_timeout : Int
  timeouts : List timeout
  proc_timeouts : List timeout
  timeout_lock : Bool
  io_watches : List io_watch
  proc_io_watches : List io_watch
  io_lock : Bool
  child_watches : List child_watch
  proc_child_watches : List child_watch
  child_lock : Bool
deriving DecidableEq, Repr

/-- The `struct _GMainLoop` of the source; `context` is the address of its context, `0` for
`NULL` (the only context there is, is the default one). -/
structure GMainLoop where
  is_running : Bool
  context : Nat
deriving DecidableEq, Repr

/-- What the loop does to the outside: calls through function pointers, system calls that
release a descriptor, and releases of memory. -/
inductive Event where
  /-- The call `w->func(w->channel, *w->revents, w->user_data)` for the watch at `watch`. -/
  | io_func (watch func channel : Nat) (revents : Int) (user_data : Nat)
  /-- The call `watch->destroy(watch->user_data)` for the watch at `watch`. -/
  | destroy (watch notify user_data : Nat)
  /-- The call `t->function(t->data)` for the timer at `timer`, made when the clock showed
  `fired`. -/
  | source_func (timer function data : Nat) (fired : timeval)
  /-- The call `w->function(w->pid, status, w->user_data)` for the child watch at `watch`. -/
  | child_func (watch function : Nat) (pid status : Int) (user_data : Nat)
  /-- The call `g_io_channel_unref(watch->channel)` made by `watch_free` for the watch at
  `watch`. -/
  | unref (watch channel : Nat)
  /-- The system call `close(fd)`. -/
  | close (fd : Int)
  /-- The call `g_free(channel)` that releases a channel object. -/
  | free_channel (channel : Nat)
  /-- The call `g_free(watch)` that releases a watch object. -/
  | free_watch (watch : Nat)
  /-- The call `g_free(t)` that releases a timer object. -/
  | free_timeout (timer : Nat)
  /-- The call `g_free(w)` that releases a child watch object. -/
  | free_child_watch (watch : Nat)
  /-- The call `g_free(loop->context)` that releases a context object. -/
  | free_context (context : Nat)
deriving DecidableEq, Repr

/-- The state of the process as far as the main loop is concerned. -/
structure World where
  /-- Address of the object `default_context` points to. -/
  default_context : Nat
  /-- The object `default_context` points to. -/
  context : GMainContext
  /-- The loop objects, by address. -/
  loops : Nat → Option GMainLoop
  /-- The channel objects, by address. -/
  channels : Nat → Option GIOChannel
  /-- The static `child_watch_pipe`. -/
  child_watch_pipe : Int × Int
  /-- What `gettimeofday` returns. -/
  now : timeval
  /-- Next address `g_new` hands out. -/
  brk : Nat
  /-- Everything the loop did to the outside so far, oldest first. -/
  trace : List Event

/-- Append an event to the trace. -/
def World.log (W : World) (e : Event) : World :=
  { W with trace := W.trace ++ [e] }

/-- Whether the context, not released in the world `X`, is released in the world `Y`: between
the two `g_main_loop_unref` was called. -/
def context_released (X Y : World) : Bool :=
  !X.context.released && Y.context.released

/-- Store `v` at address `p` of a heap. -/
def heap_set {α : Type} (h : Nat → Option α) (p : Nat) (v : Option α) : Nat → Option α :=
  fun q => if q = p then v else h q

/-- The context `g_main_context_default` creates on first use: `g_new0` followed by the two
assignments of the source. -/
def g_main_context_default : GMainContext :=
  { released := false, next_id := 1, next_timeout := -1,
    timeouts := [], proc_timeouts := [], timeout_lock := false,
    io_watches := [], proc_io_watches := [], io_lock := false,
    child_watches := [], proc_child_watches := [], child_lock := false }

/-- The world of a process right after the default context has been created, before any
source is registered. -/
def World.init (now : timeval) : World :=
  { default_context := 1, context := g_main_context_default, loops := fun _ => none,
    channels := fun _ => none, child_watch_pipe := (-1, -1), now := now, brk := 2, trace := [] }

/-! ## Descriptor channel -/

/-- Values of the status enumeration returned by `g_io_channel_read` and
`g_io_channel_write`. -/
inductive GIOStatus where
  | G_IO_STATUS_ERROR
  | G_IO_STATUS_NORMAL
  | G_IO_STATUS_EOF
  | G_IO_STATUS_AGAIN
deriving DecidableEq, Repr

/-- Outcome of one `read(2)` or `write(2)`: the return value and the `errno` it leaves. -/
structure SysRet where
  result : Int
  errno : Int
deriving DecidableEq, Repr

/-- The constant `EINTR` of `<errno.h>` (Linux). -/
def EINTR : Int := 4

/-- The constant `EAGAIN` of `<errno.h>` (Linux). -/
def EAGAIN : Int := 11

/-- What a call of `g_io_channel_read` or `g_io_channel_write` leaves behind: the returned
status, the value of the out-parameter, and the system calls issued (descriptor and count). -/
structure IoOutcome where
  status : GIOStatus
  bytes : Nat
  calls : List (Int × Nat)
deriving DecidableEq, Repr

/-- The `retry:` loop shared by `g_io_channel_read` and `g_io_channel_write`. The list holds
the outcomes of the successive system calls; `none` when the list ends while the loop still
wants to retry. -/
def io_retry (fd : Int) (count : Nat) (issued : List (Int × Nat)) :
    List SysRet → Option IoOutcome
  | [] => none
  | r :: rest =>
    if r.result < 0 then
      if r.errno = EINTR then io_retry fd count (issued ++ [(fd, count)]) rest
      else if r.errno = EAGAIN then
        some ⟨GIOStatus.G_IO_STATUS_AGAIN, 0, issued ++ [(fd, count)]⟩
      else some ⟨GIOStatus.G_IO_STATUS_ERROR, 0, issued ++ [(fd, count)]⟩
    else
      some ⟨if r.result > 0 then GIOStatus.G_IO_STATUS_NORMAL else GIOStatus.G_IO_STATUS_EOF,
            r.result.toNat, issued ++ [(fd, count)]⟩

/-- The function `g_io_channel_read`; `bytes_read` is the value `*bytes_read` holds on entry and `reads`
the outcomes of the successive `read` calls. -/
def g_io_channel_read (channel : GIOChannel) (count : Nat) (bytes_read : Nat)
    (reads : List SysRet) : Option IoOutcome :=
  if channel.closed then some ⟨GIOStatus.G_IO_STATUS_ERROR, bytes_read, []⟩
  else io_retry channel.fd (if count > SSIZE_MAX then SSIZE_MAX else count) [] reads

/-- The function `g_io_channel_write`; `bytes_written` is the value `*bytes_written` holds on entry and
`writes` the outcomes of the successive `write` calls. -/
def g_io_channel_write (channel : GIOChannel) (count : Nat) (bytes_written : Nat)
    (writes : List SysRet) : Option IoOutcome :=
  if channel.closed then some ⟨GIOStatus.G_IO_STATUS_ERROR, bytes_written, []⟩
  else io_retry channel.fd (if count > SSIZE_MAX then SSIZE_MAX else count) [] writes

/-- The function `g_io_channel_close`. A dangling pointer is left alone. -/
def g_io_channel_close (W : World) (channel : Nat) : World :=
  if channel = 0 then W
  else match W.channels channel with
    | none => W
    | some ch =>
      if ch.closed then W
      else { W with channels := heap_set W.channels channel (some { ch with closed := true }),
                    trace := W.trace ++ [Event.close ch.fd] }

/-- The function `g_io_channel_unref`. A dangling pointer is left alone. -/
def g_io_channel_unref (W : World) (channel : Nat) : World :=
  match W.channels channel with
  | none => W
  | some ch =>
    let ch1 : GIOChannel := { ch with ref_count := ch.ref_count - 1 }
    let W1 : World := { W with channels := heap_set W.channels channel (some ch1) }
    if ch1.ref_count > 0 then W1
    else if channel = 0 then W1
    else
      let W2 := if ch1.close_on_unref ∧ ch1.fd ≥ 0 then g_io_channel_close W1 channel else W1
      { W2 with channels := heap_set W2.channels channel none,
                trace := W2.trace ++ [Event.free_channel channel] }

/-- The function `g_io_channel_ref`. -/
def g_io_channel_ref (W : World) (channel : Nat) : World :=
  match W.channels channel with
  | none => W
  | some ch =>
    { W with channels := heap_set W.channels channel
                (some { ch with ref_count := ch.ref_count + 1 }) }

/-- The function `g_io_channel_unix_new`: returns the new channel's address. -/
def g_io_channel_unix_new (W : World) (fd : Int) : Nat × World :=
  (W.brk, { W with brk := W.brk + 1,
                   channels := heap_set W.channels W.brk
                     (some { fd := fd, ref_count := 1, closed := false,
                             close_on_unref := false }) })

/-- The function `g_io_channel_set_close_on_unref`. -/
def g_io_channel_set_close_on_unref (W : World) (channel : Nat) (do_close : Bool) : World :=
  match W.channels channel with
  | none => W
  | some ch =>
    { W with channels := heap_set W.channels channel (some { ch with close_on_unref := do_close }) }

/-! ## GSList -/

/-- The function `g_slist_append`. -/
def g_slist_append {α : Type} (list : List α) (data : α) : List α :=
  list ++ [data]

/-- The function `g_slist_prepend`. -/
def g_slist_prepend {α : Type} (list : List α) (data : α) : List α :=
  data :: list

/-- The `while` loop of `g_slist_insert_sorted` together with the relinking after it: `tmp` is
the node the loop looks at, the list argument is `tmp->next`, the result is the list from
`tmp` on with the new entry linked in. -/
def g_slist_insert_sorted_loop {α : Type} (data : α) (cmp_func : α → α → Int) :
    α → List α → List α
  | tmp, [] => if cmp_func data tmp > 0 then [tmp, data] else [data, tmp]
  | tmp, next :: rest =>
    if cmp_func data tmp > 0 then tmp :: g_slist_insert_sorted_loop data cmp_func next rest
    else data :: tmp :: next :: rest

/-- The function `g_slist_insert_sorted`. -/
def g_slist_insert_sorted {α : Type} (list : List α) (data : α) (cmp_func : α → α → Int) :
    List α :=
  match list with
  | [] => [data]
  | tmp :: rest => g_slist_insert_sorted_loop data cmp_func tmp rest

/-- The function `g_slist_remove`: unlink the first node whose data pointer is `data`. -/
def g_slist_remove {α : Type} (addr : α → Nat) : List α → Nat → List α
  | [], _ => []
  | x :: rest, data => if addr x = data then rest else x :: g_slist_remove addr rest data

/-- The function `g_slist_find`: the first node whose data pointer is `data`. -/
def g_slist_find {α : Type} (addr : α → Nat) (list : List α) (data : Nat) : Option α :=
  list.find? (fun x => addr x = data)

/-- The function `g_slist_find_custom`: the first node `l` with `cmp_func(l->data, data) == 0`. -/
def g_slist_find_custom {α : Type} (addr : α → Nat) (list : List α) (data : Nat)
    (cmp_func : Nat → Nat → Int) : Option α :=
  list.find? (fun x => cmp_func (addr x) data = 0)

/-- The function `ptr_cmp`: the difference of the two addresses, converted to the `int` the
function returns; the conversion keeps the low 32 bits, so the result is zero also for two
addresses that differ by a multiple of `2^32`. -/
def ptr_cmp (t1 t2 : Nat) : Int :=
  wrap_gint ((t1 : Int) - (t2 : Int))

/-! ## Watch registry -/

/-- The function `watch_free`. The destroy notifier is code outside the source: its call is
recorded. -/
def watch_free (W : World) (watch : io_watch) : World :=
  let W1 := match watch.destroy with
    | some notify => W.log (Event.destroy watch.ptr notify watch.user_data)
    | none => W
  (g_io_channel_unref (W1.log (Event.unref watch.ptr watch.channel)) watch.channel).log
    (Event.free_watch watch.ptr)

/-- The function `g_io_remove_watch`. -/
def g_io_remove_watch (W : World) (id : Nat) : Bool × World :=
  match W.context.io_watches.find? (fun w => w.id = id) with
  | some w =>
    (true, watch_free
      { W with context := { W.context with
          io_watches := g_slist_remove io_watch.ptr W.context.io_watches w.ptr } } w)
  | none =>
    match W.context.proc_io_watches.find? (fun w => w.id = id) with
    | some w =>
      (true, watch_free
        { W with context := { W.context with
            proc_io_watches := g_slist_remove io_watch.ptr W.context.proc_io_watches w.ptr } } w)
    | none => (false, W)

/-- The function `g_timeout_remove`. -/
def g_timeout_remove (W : World) (id : Nat) : Bool × World :=
  match W.context.timeouts.find? (fun t => t.id = id) with
  | some t =>
    (true, World.log
      { W with context := { W.context with
          timeouts := g_slist_remove timeout.ptr W.context.timeouts t.ptr } } (Event.free_timeout t.ptr))
  | none =>
    match W.context.proc_timeouts.find? (fun t => t.id = id) with
    | some t =>
      (true, World.log
        { W with context := { W.context with
            proc_timeouts := g_slist_remove timeout.ptr W.context.proc_timeouts t.ptr } }
        (Event.free_timeout t.ptr))
    | none => (false, W)

/-- The function `watch_prio_cmp`: the `gint` difference of the two priorities. -/
def watch_prio_cmp (w1 w2 : io_watch) : Int :=
  wrap_gint (w1.priority - w2.priority)

/-- The macro `watch_list_add` on a list of watches. -/
def watch_list_add (l : List io_watch) (w : io_watch) : List io_watch :=
  g_slist_insert_sorted l w watch_prio_cmp

/-- The function `g_io_add_watch_full`: returns the id of the new watch. `g_new` leaves `revents` unset
(here: slot 0); it is assigned when the next poll set is built. -/
def g_io_add_watch_full (W : World) (channel : Nat) (priority : Int) (condition : Int)
    (func : Nat) (user_data : Nat) (notify : Option Nat) : Nat × World :=
  let W1 := g_io_channel_ref { W with brk := W.brk + 1 } channel
  let context := W1.context
  let watch : io_watch :=
    { ptr := W.brk, id := context.next_id, channel := channel, priority := priority,
      condition := condition, revents := 0, func := func, user_data := user_data,
      destroy := notify }
  let context := { context with next_id := wrap_guint (context.next_id + 1) }
  if context.io_lock then
    (watch.id, { W1 with context := { context with
        proc_io_watches := watch_list_add context.proc_io_watches watch } })
  else
    (watch.id, { W1 with context := { context with
        io_watches := watch_list_add context.io_watches watch } })

/-- The function `g_io_add_watch`. -/
def g_io_add_watch (W : World) (channel : Nat) (condition : Int) (func : Nat)
    (user_data : Nat) : Nat × World :=
  g_io_add_watch_full W channel 0 condition func user_data none

/-! ## Timer registry -/

/-- Modelled from the spec: the macro `MIN_TIMEOUT` of `gmain.h`, which is not part of the
sources at hand; the timer registry "returns the minimum" of the remaining times. -/
def MIN_TIMEOUT (a b : Int) : Int :=
  if a < b then a else b

/-- The expression `(t->expiration.tv_sec - tv.tv_sec) * 1000 +
(t->expiration.tv_usec - tv.tv_usec) / 1000` of `timeout_handlers_prepare`; the division of C
truncates towards zero. -/
def remaining_msec (tv : timeval) (t : timeout) : Int :=
  (t.expiration.tv_sec - tv.tv_sec) * 1000 +
    Int.tdiv (t.expiration.tv_usec - tv.tv_usec) 1000

/-- The `for` loop of `timeout_handlers_prepare`; the last argument is the local `timeout`. -/
def timeout_handlers_prepare_loop (tv : timeval) : List timeout → Int → Int
  | [], timeout => timeout
  | t :: l, timeout =>
    let msec := remaining_msec tv t
    let msec := if msec < 0 then 0 else msec
    timeout_handlers_prepare_loop tv l (MIN_TIMEOUT timeout msec)

/-- The function `timeout_handlers_prepare`. -/
def timeout_handlers_prepare (W : World) : World :=
  let timeout := timeout_handlers_prepare_loop W.now W.context.timeouts LONG_MAX
  { W with context := { W.context with
      next_timeout := if timeout ≠ LONG_MAX then timeout else -1 } }

/-- The macro `timercmp(a, b, <)` of `<sys/time.h>`. -/
def timercmp_lt (a b : timeval) : Bool :=
  if a.tv_sec = b.tv_sec then decide (a.tv_usec < b.tv_usec) else decide (a.tv_sec < b.tv_sec)

/-- The expiration both `g_timeout_add` and `timeout_handlers_check` compute from a time `tv`
and an interval in milliseconds. -/
def expiration_after (tv : timeval) (interval : Nat) : timeval :=
  let secs : Int := ((interval / 1000 : Nat) : Int)
  let msecs : Int := (interval : Int) - secs * 1000
  let e : timeval := { tv_sec := tv.tv_sec + secs, tv_usec := tv.tv_usec + msecs * 1000 }
  if e.tv_usec ≥ 1000000 then { tv_sec := e.tv_sec + 1, tv_usec := e.tv_usec - 1000000 } else e

/-- The function `g_timeout_add`: returns the id of the new timer. -/
def g_timeout_add (W : World) (interval : Nat) (function : Nat) (data : Nat) : Nat × World :=
  let context := W.context
  let tv := W.now
  let t : timeout :=
    { ptr := W.brk, id := context.next_id, interval := interval,
      expiration := expiration_after tv interval, data := data, function := function }
  let context := { context with next_id := wrap_guint (context.next_id + 1) }
  if context.timeout_lock then
    (t.id, { W with brk := W.brk + 1, context := { context with
        proc_timeouts := g_slist_prepend context.proc_timeouts t } })
  else
    (t.id, { W with brk := W.brk + 1, context := { context with
        timeouts := g_slist_prepend context.timeouts t } })

/-! ## Callbacks -/

/-- What the function pointers stored in the sources do when they are called: each takes the
arguments the loop passes and the world, and returns its result and the new world. -/
structure Callbacks where
  /-- A `GIOFunc`, called as `func(channel, condition, user_data)`. -/
  io_func : Nat → Nat → Int → Nat → World → Bool × World
  /-- A `GSourceFunc`, called as `function(data)`. -/
  source_func : Nat → Nat → World → Bool × World
  /-- A `GChildWatchFunc`, called as `function(pid, status, user_data)`. -/
  child_func : Nat → Int → Int → Nat → World → World

/-! ## Child watches: registration -/

/-- The constant `G_IO_IN` of `gmain.h` (the value of `POLLIN`). -/
def G_IO_IN : Int := 1

/-- Address of the function `child_watch` of the source. -/
def child_watch_addr : Nat := 1

/-- The `gint` that `watch_prio_cmp` reads when it is handed a `struct child_watch`: the
bytes at the offset of `io_watch.priority` (16 on LP64), which in a `child_watch` are the
low half of `user_data` (little endian). -/
def child_watch_priority (w : child_watch) : Int :=
  wrap_gint ((w.user_data % 4294967296 : Nat) : Int)

/-- The function `watch_prio_cmp` applied to two child watches through the cast to `GCompareFunc`. -/
def child_watch_prio_cmp (w1 w2 : child_watch) : Int :=
  wrap_gint (child_watch_priority w1 - child_watch_priority w2)

/-- The macro `watch_list_add` on a list of child watches. -/
def child_watch_list_add (l : List child_watch) (w : child_watch) : List child_watch :=
  g_slist_insert_sorted l w child_watch_prio_cmp

/-- The function `child_watch_remove`. -/
def child_watch_remove (W : World) (id : Nat) : Bool × World :=
  match W.context.child_watches.find? (fun w => w.id = id) with
  | some w =>
    (true, World.log
      { W with context := { W.context with
          child_watches := g_slist_remove child_watch.ptr W.context.child_watches w.ptr } }
      (Event.free_child_watch w.ptr))
  | none =>
    match W.context.proc_child_watches.find? (fun w => w.id = id) with
    | some w =>
      (true, World.log
        { W with context := { W.context with
            proc_child_watches :=
              g_slist_remove child_watch.ptr W.context.proc_child_watches w.ptr } }
        (Event.free_child_watch w.ptr))
    | none => (false, W)

/-- The function `init_child_pipe`; `pipe_ret` is what `pipe(2)` delivers, `none` when it fails, in which
case the process aborts. `fcntl` and `sigaction` leave the modelled state alone. -/
def init_child_pipe (W : World) (pipe_ret : Option (Int × Int)) : Option World :=
  match pipe_ret with
  | none => none
  | some fds =>
    let W1 : World := { W with child_watch_pipe := fds }
    let r := g_io_channel_unix_new W1 fds.1
    let a := g_io_add_watch r.2 r.1 G_IO_IN child_watch_addr 0
    some (g_io_channel_unref a.2 r.1)

/-- The function `g_child_watch_add`: returns the id of the new child watch, `none` when the process
aborts in `init_child_pipe`. -/
def g_child_watch_add (W : World) (pipe_ret : Option (Int × Int)) (pid : Int) (func : Nat)
    (user_data : Nat) : Option (Nat × World) :=
  match (if W.child_watch_pipe.1 < 0 then init_child_pipe W pipe_ret else some W) with
  | none => none
  | some W0 =>
    let context := W0.context
    let w : child_watch :=
      { ptr := W0.brk, id := context.next_id, pid := pid, function := func,
        user_data := user_data }
    let context := { context with next_id := wrap_guint (context.next_id + 1) }
    if context.child_lock then
      some (w.id, { W0 with brk := W0.brk + 1, context := { context with
        proc_child_watches := child_watch_list_add context.proc_child_watches w } })
    else
      some (w.id, { W0 with brk := W0.brk + 1, context := { context with
        child_watches := child_watch_list_add context.child_watches w } })

/-- The function `g_source_remove`. -/
def g_source_remove (W : World) (tag : Nat) : Bool × World :=
  let r1 := g_io_remove_watch W tag
  if r1.1 then (true, r1.2)
  else
    let r2 := g_timeout_remove r1.2 tag
    if r2.1 then (true, r2.2)
    else
      let r3 := child_watch_remove r2.2 tag
      if r3.1 then (true, r3.2) else (false, r3.2)

/-! ## Child watches: dispatch -/

/-- What one call of `waitpid(w->pid, &status, WNOHANG)` delivers: its return value and the
value `status` holds afterwards. -/
structure WaitOutcome where
  ret : Int
  status : Int
deriving DecidableEq, Repr

/-- The `while (context->child_watches)` loop of `child_watch`. The list holds what the
successive calls of `waitpid` deliver; `none` when the list ends while the loop still wants
to call `waitpid`, and when a callback has released the context the loop goes on to read. -/
def child_watch_loop (env : Callbacks) : List WaitOutcome → World → Option World
  | [], W =>
    match W.context.child_watches with
    | [] => some W
    | _ :: _ => none
  | o :: waits, W =>
    match W.context.child_watches with
    | [] => some W
    | w :: _ =>
      if o.ret ≤ 0 then
        child_watch_loop env waits
          { W with context := { W.context with
              child_watches := g_slist_remove child_watch.ptr W.context.child_watches w.ptr,
              proc_child_watches := child_watch_list_add W.context.proc_child_watches w } }
      else
        let W1 := env.child_func w.function w.pid o.status w.user_data
          (W.log (Event.child_func w.ptr w.function w.pid o.status w.user_data))
        if context_released W W1 then none
        else
          match g_slist_find child_watch.ptr W1.context.child_watches w.ptr with
          | none => child_watch_loop env waits W1
          | some _ =>
            child_watch_loop env waits
              (World.log
                { W1 with context := { W1.context with
                    child_watches :=
                      g_slist_remove child_watch.ptr W1.context.child_watches w.ptr } }
                (Event.free_child_watch w.ptr))

/-- The function `child_watch` of the source (here `child_watch_callback`, the name
`child_watch` being taken by the structure), the callback of the watch on the child pipe;
none of its three arguments is used. The `read` that empties the pipe leaves the modelled
state alone. -/
def child_watch_callback (env : Callbacks) (waits : List WaitOutcome) (_channel : Nat) (_cond : Int)
    (_user_data : Nat) (W : World) : Option (Bool × World) :=
  match child_watch_loop env waits
      { W with context := { W.context with child_lock := true } } with
  | none => none
  | some W1 =>
    some (true, { W1 with context := { W1.context with
      child_watches := W1.context.proc_child_watches, proc_child_watches := [],
      child_lock := false } })

/-! ## Loop driver -/

/-- The `struct pollfd` of `<poll.h>`. -/
structure pollfd where
  fd : Int
  events : Int
  revents : Int
deriving DecidableEq, Repr

/-- What one call of `poll(2)` delivers: its return value, the `revents` it writes into the
slots of `ufds`, and the time at which it returns. -/
structure PollOutcome where
  ret : Int
  revents : List Int
  now : timeval
deriving DecidableEq, Repr

/-- The first `for` loop in the body of `g_main_loop_run`: fills `ufds` from slot `nfds` on
and points every watch at its slot. A released channel reads as descriptor `-1`. -/
def poll_setup (channels : Nat → Option GIOChannel) :
    List io_watch → Nat → List io_watch × List pollfd
  | [], _ => ([], [])
  | w :: l, nfds =>
    let fd := match channels w.channel with
      | some ch => ch.fd
      | none => -1
    let r := poll_setup channels l (nfds + 1)
    ({ w with revents := nfds } :: r.1, { fd := fd, events := w.condition, revents := 0 } :: r.2)

/-- The slots of `ufds` after `poll` has written the observed events into them. -/
def poll_write : List pollfd → List Int → List pollfd
  | [], _ => []
  | u :: us, [] => u :: poll_write us []
  | u :: us, r :: rs => { u with revents := r } :: poll_write us rs

/-- The value `*w->revents` for a watch pointing at slot `slot`. -/
def ufds_revents (ufds : List pollfd) (slot : Nat) : Int :=
  match ufds.get? slot with
  | some u => u.revents
  | none => 0

/-- The `while (context->io_watches)` loop of `g_main_loop_run`; one unit of fuel per pass,
`none` when the fuel runs out, and when a callback has released the context the loop goes on
to read. After the callback the loop uses its pointer `w` whether or not the watch is still
allocated. -/
def io_dispatch_loop (env : Callbacks) (ufds : List pollfd) : Nat → World → Option World
  | 0, _ => none
  | fuel + 1, W =>
    match W.context.io_watches with
    | [] => some W
    | w :: _ =>
      let revents := ufds_revents ufds w.revents
      if revents = 0 then
        io_dispatch_loop env ufds fuel
          { W with context := { W.context with
              io_watches := g_slist_remove io_watch.ptr W.context.io_watches w.ptr,
              proc_io_watches := watch_list_add W.context.proc_io_watches w } }
      else
        let r := env.io_func w.func w.channel revents w.user_data
          (W.log (Event.io_func w.ptr w.func w.channel revents w.user_data))
        if context_released W r.2 then none
        else
          match g_slist_find_custom io_watch.ptr r.2.context.io_watches w.ptr ptr_cmp with
          | none => io_dispatch_loop env ufds fuel r.2
          | some _ =>
            let W2 : World := { r.2 with context := { r.2.context with
              io_watches := g_slist_remove io_watch.ptr r.2.context.io_watches w.ptr } }
            if !r.1 then io_dispatch_loop env ufds fuel (watch_free W2 w)
            else
              io_dispatch_loop env ufds fuel
                { W2 with context := { W2.context with
                    proc_io_watches := watch_list_add W2.context.proc_io_watches w } }

/-- The watch dispatch cycle of `g_main_loop_run`: from `context->io_lock = TRUE` to
`context->io_lock = FALSE`. -/
def io_dispatch (env : Callbacks) (ufds : List pollfd) (fuel : Nat) (W : World) :
    Option World :=
  match io_dispatch_loop env ufds fuel
      { W with context := { W.context with io_lock := true } } with
  | none => none
  | some W1 =>
    some { W1 with context := { W1.context with
      io_watches := W1.context.proc_io_watches, proc_io_watches := [], io_lock := false } }

/-- The `while (context->timeouts)` loop of `timeout_handlers_check`; `tv` is the time read
at the start of the function. One unit of fuel per pass, `none` when the fuel runs out, and
when a callback has released the context the loop goes on to read. After the callback the
loop uses its pointer `t` whether or not the timer is still allocated. -/
def timeout_handlers_check_loop (env : Callbacks) (tv : timeval) :
    Nat → World → Option World
  | 0, _ => none
  | fuel + 1, W =>
    match W.context.timeouts with
    | [] => some W
    | t :: _ =>
      if timercmp_lt tv t.expiration then
        timeout_handlers_check_loop env tv fuel
          { W with context := { W.context with
              timeouts := g_slist_remove timeout.ptr W.context.timeouts t.ptr,
              proc_timeouts := g_slist_append W.context.proc_timeouts t } }
      else
        let r := env.source_func t.function t.data
          (W.log (Event.source_func t.ptr t.function t.data W.now))
        if context_released W r.2 then none
        else
          match g_slist_find_custom timeout.ptr r.2.context.timeouts t.ptr ptr_cmp with
          | none => timeout_handlers_check_loop env tv fuel r.2
          | some _ =>
            let W2 : World := { r.2 with context := { r.2.context with
              timeouts := g_slist_remove timeout.ptr r.2.context.timeouts t.ptr } }
            if !r.1 then
              timeout_handlers_check_loop env tv fuel (W2.log (Event.free_timeout t.ptr))
            else
              timeout_handlers_check_loop env tv fuel
                { W2 with context := { W2.context with
                    proc_timeouts := g_slist_append W2.context.proc_timeouts
                      { t with expiration := expiration_after tv t.interval } } }

/-- The function `timeout_handlers_check`. -/
def timeout_handlers_check (env : Callbacks) (fuel : Nat) (W : World) : Option World :=
  match timeout_handlers_check_loop env W.now fuel
      { W with context := { W.context with timeout_lock := true } } with
  | none => none
  | some W1 =>
    some { W1 with context := { W1.context with
      timeouts := W1.context.proc_timeouts, proc_timeouts := [], timeout_lock := false } }

/-- The first part of the body of the `while (loop->is_running)` loop of `g_main_loop_run`:
the poll set is built, `timeout_handlers_prepare` computes the timeout and `poll` is called,
with `p` what it delivers. Returns the world when `poll` has returned and the array `ufds`. -/
def poll_phase (p : PollOutcome) (W : World) : World × List pollfd :=
  let s := poll_setup W.channels W.context.io_watches 0
  let W1 : World := { W with context := { W.context with io_watches := s.1 } }
  let W2 := timeout_handlers_prepare W1
  ({ W2 with now := p.now }, poll_write s.2 p.revents)

/-- One watch dispatch cycle of `g_main_loop_run`: the body of the loop up to and including
`context->io_lock = FALSE`, for a `poll` that did not fail. -/
def watch_dispatch_cycle (env : Callbacks) (p : PollOutcome) (fuel : Nat) (W : World) :
    Option World :=
  io_dispatch env (poll_phase p W).2 fuel (poll_phase p W).1

/-- One pass through the body of the `while (loop->is_running)` loop of `g_main_loop_run`,
with `p` what `poll` delivers in this pass. -/
def g_main_loop_iteration (env : Callbacks) (p : PollOutcome) (fuel : Nat) (W : World) :
    Option World :=
  if p.ret < 0 then some (poll_phase p W).1
  else
    match watch_dispatch_cycle env p fuel W with
    | none => none
    | some W4 => timeout_handlers_check env fuel W4

/-- The function `g_main_loop_quit`. -/
def g_main_loop_quit (W : World) (loop : Nat) : World :=
  match W.loops loop with
  | none => W
  | some l => { W with loops := heap_set W.loops loop (some { l with is_running := false }) }

/-- The `while (loop->is_running)` loop of `g_main_loop_run`; `polls` holds what the
successive calls of `poll` deliver, `none` when they or the fuel run out. -/
def g_main_loop_run_loop (env : Callbacks) (loop : Nat) (fuel : Nat) :
    List PollOutcome → World → Option World
  | [], W =>
    match W.loops loop with
    | none => none
    | some l => if !l.is_running then some W else none
  | p :: rest, W =>
    match W.loops loop with
    | none => none
    | some l =>
      if !l.is_running then some W
      else
        match g_main_loop_iteration env p fuel W with
        | none => none
        | some W1 => g_main_loop_run_loop env loop fuel rest W1

/-- The function `g_main_loop_run`. -/
def g_main_loop_run (env : Callbacks) (loop : Nat) (fuel : Nat) (polls : List PollOutcome)
    (W : World) : Option World :=
  match W.loops loop with
  | none => none
  | some l =>
    g_main_loop_run_loop env loop fuel polls
      { W with loops := heap_set W.loops loop (some { l with is_running := true }) }

/-- The function `g_slist_foreach` with a function that acts on the world. -/
def g_slist_foreach {α : Type} (list : List α) (func : World → α → World) (W : World) :
    World :=
  list.foldl func W

/-- The function `g_main_loop_unref`. The two calls of `g_slist_free` release the nodes of the
two active lists, which the context that is released after them is left pointing to; the
pointer `default_context` is left pointing to the released context. -/
def g_main_loop_unref (W : World) (loop : Nat) : World :=
  match W.loops loop with
  | none => W
  | some l =>
    if l.context = 0 then W
    else
      let W1 := g_slist_foreach W.context.io_watches watch_free W
      let W2 := g_slist_foreach W.context.timeouts
        (fun (X : World) (t : timeout) => X.log (Event.free_timeout t.ptr)) W1
      let W3 := W2.log (Event.free_context l.context)
      { W3 with context := { W3.context with released := true },
                loops := heap_set W3.loops loop (some { l with context := 0 }) }

/-- The function `g_main_loop_new`: returns the address of the new loop. -/
def g_main_loop_new (W : World) (context : Nat) (is_running : Bool) : Nat × World :=
  let context := if context = 0 then W.default_context else context
  (W.brk, { W with brk := W.brk + 1,
                   loops := heap_set W.loops W.brk
                     (some { is_running := is_running, context := context }) })

/-! ## UTF-8 validation -/

/-- The macro `UNICODE_VALID`. -/
def UNICODE_VALID (c : Nat) : Bool :=
  decide (c < 0x110000) && decide (c &&& 0xFFFFF800 ≠ 0xD800) &&
    (decide (c < 0xFDD0) || decide (c > 0xFDEF)) && decide (c &&& 0xFFFE ≠ 0xFFFE)

/-- The macro `CONTINUATION_CHAR` for the byte `c`: `none` stands for `goto failed`, else
the new value of `val`. -/
def CONTINUATION_CHAR (c val : Nat) : Option Nat :=
  if c &&& 0xc0 ≠ 0x80 then none
  else some ((val <<< 6) ||| (c &&& 0x3f))

/-- The test of the macro `INCREMENT_AND_CHECK_MAX`, `i` being the index after the increment
and `c` the byte `p[i]`: `true` stands for `goto failed`. -/
def INCREMENT_AND_CHECK_MAX (c : Nat) (i : Nat) (max_len : Int) : Bool :=
  decide (c = 0) || (decide (max_len ≥ 0) && decide ((i : Int) ≥ max_len))

/-- The body of the `for` loop of `g_utf8_validate` from `last = &p[i]` on, for a byte
`b = p[i]` that is not below 128; `rest` holds the bytes behind `p[i]`, and behind its end
the memory reads as NUL. The result `none` stands for `goto failed`, else it is the number
of bytes `i` has advanced by when the end of the body is reached. -/
def g_utf8_validate_body (max_len : Int) (b : Nat) (rest : List Nat) (i : Nat) :
    Option Nat :=
  if b &&& 0xe0 = 0xc0 then
    if b &&& 0x1e = 0 then none
    else
      match rest with
      | [] => none
      | c1 :: _ =>
        if INCREMENT_AND_CHECK_MAX c1 (i + 1) max_len then none
        else if c1 &&& 0xc0 ≠ 0x80 then none
        else some 1
  else if b &&& 0xf0 = 0xe0 then
    match rest with
    | [] => none
    | c1 :: rest1 =>
      if INCREMENT_AND_CHECK_MAX c1 (i + 1) max_len then none
      else
        match CONTINUATION_CHAR c1 (b &&& 0x0f) with
        | none => none
        | some val1 =>
          match rest1 with
          | [] => none
          | c2 :: _ =>
            if INCREMENT_AND_CHECK_MAX c2 (i + 2) max_len then none
            else
              match CONTINUATION_CHAR c2 val1 with
              | none => none
              | some val =>
                if val < (1 <<< 11) ∨ UNICODE_VALID val = false then none
                else some 2
  else if b &&& 0xf8 = 0xf0 then
    match rest with
    | [] => none
    | c1 :: rest1 =>
      if INCREMENT_AND_CHECK_MAX c1 (i + 1) max_len then none
      else
        match CONTINUATION_CHAR c1 (b &&& 0x07) with
        | none => none
        | some val1 =>
          match rest1 with
          | [] => none
          | c2 :: rest2 =>
            if INCREMENT_AND_CHECK_MAX c2 (i + 2) max_len then none
            else
              match CONTINUATION_CHAR c2 val1 with
              | none => none
              | some val2 =>
                match rest2 with
                | [] => none
                | c3 :: _ =>
                  if INCREMENT_AND_CHECK_MAX c3 (i + 3) max_len then none
                  else
                    match CONTINUATION_CHAR c3 val2 with
                    | none => none
                    | some val =>
                      if val < (1 <<< 16) ∨ UNICODE_VALID val = false then none
                      else some 3
  else none

/-- The `for` loop of `g_utf8_validate` with what follows it. The list holds the bytes from
`p[i]` on; behind its end the memory reads as NUL. Returns the result and the index `*end`
is set to: the index at which the loop ended on success, the index of `last` on failure.
After a body that advanced `i` by `n` the loop goes on behind the `n` bytes passed over (the
body never passes over the end of the string, so the last case is that of `goto failed`
only). -/
def g_utf8_validate_loop (max_len : Int) : List Nat → Nat → Bool × Nat
  | [], i => (true, i)
  | b :: rest, i =>
    if b = 0 then (true, i)
    else if max_len ≥ 0 ∧ (i : Int) ≥ max_len then (true, i)
    else if b < 128 then g_utf8_validate_loop max_len rest (i + 1)
    else
      match g_utf8_validate_body max_len b rest i, rest with
      | some 1, _ :: rest1 => g_utf8_validate_loop max_len rest1 (i + 2)
      | some 2, _ :: _ :: rest2 => g_utf8_validate_loop max_len rest2 (i + 3)
      | some 3, _ :: _ :: _ :: rest3 => g_utf8_validate_loop max_len rest3 (i + 4)
      | _, _ => (false, i)

/-- The function `g_utf8_validate` on the string whose bytes are `str` (behind them the
memory reads as NUL): the result and the index `*end` is set to. -/
def g_utf8_validate (str : List Nat) (max_len : Int) : Bool × Nat :=
  g_utf8_validate_loop max_len str 0

/-! ## Definitions used to state the properties -/

/-- What a finished system call is turned into, in the words of the specification: Normal
with the bytes moved when more than 0 bytes moved, EndOfStream with 0 bytes when 0 bytes
moved, WouldBlock with 0 bytes when it failed with `EAGAIN`, Error with 0 bytes on any other
failure. -/
def classify_syscall (r : SysRet) : GIOStatus × Nat :=
  if r.result > 0 then (GIOStatus.G_IO_STATUS_NORMAL, r.result.toNat)
  else if r.result = 0 then (GIOStatus.G_IO_STATUS_EOF, 0)
  else if r.errno = EAGAIN then (GIOStatus.G_IO_STATUS_AGAIN, 0)
  else (GIOStatus.G_IO_STATUS_ERROR, 0)

/-- A channel that holds no valid descriptor (`fd = -1`), with one reference and
close-on-unref set. -/
def channel_invalid_fd : World :=
  g_io_channel_set_close_on_unref (g_io_channel_unix_new (World.init ⟨0, 0⟩) (-1)).2 2 true

/-- A channel on descriptor 5 with one reference and close-on-unref set. -/
def channel_open : World :=
  g_io_channel_set_close_on_unref (g_io_channel_unix_new (World.init ⟨0, 0⟩) 5).2 2 true

/-- The channel of `channel_open` after an explicit `g_io_channel_close`. -/
def channel_closed_before : World :=
  g_io_channel_close channel_open 2

/-- A time in microseconds. -/
def timeval.usec (tv : timeval) : Int :=
  tv.tv_sec * 1000000 + tv.tv_usec

/-- Two timers registered at 12.9997 s, the first with an interval of 200 ms, the second
with an interval of 50 ms. -/
def two_timers : World :=
  (g_timeout_add (g_timeout_add (World.init ⟨12, 999700⟩) 200 0 0).2 50 0 0).2

/-- A call of one of the three registration functions, with its arguments (and, for a child
watch, what `pipe` delivers should the child pipe have to be set up). -/
inductive Registration where
  | io_watch (channel : Nat) (priority condition : Int) (func user_data : Nat)
      (notify : Option Nat)
  | timeout (interval function data : Nat)
  | child_watch (pipe_ret : Option (Int × Int)) (pid : Int) (func user_data : Nat)
deriving DecidableEq, Repr

/-- Perform one registration: the returned id and the new world, `none` when the process
aborts. -/
def register (W : World) : Registration → Option (Nat × World)
  | Registration.io_watch channel priority condition func user_data notify =>
    some (g_io_add_watch_full W channel priority condition func user_data notify)
  | Registration.timeout interval function data =>
    some (g_timeout_add W interval function data)
  | Registration.child_watch pipe_ret pid func user_data =>
    g_child_watch_add W pipe_ret pid func user_data

/-- Perform a sequence of registrations: the ids returned, in order, and the final world.
The sequence ends early when the process aborts. -/
def register_all : World → List Registration → List Nat × World
  | W, [] => ([], W)
  | W, r :: rs =>
    match register W r with
    | none => ([], W)
    | some x => ((x.1 :: (register_all x.2 rs).1), (register_all x.2 rs).2)


/-- One registration of each kind on the channel of a fresh world, the child watch being the
first one, so that the child pipe is set up on the way, and one more timer. -/
def mixed_registrations : List Registration :=
  [Registration.io_watch 2 0 1 100 0 none, Registration.timeout 100 200 0,
   Registration.child_watch (some (3, 4)) 77 300 0, Registration.timeout 5 201 0]

/-- A channel on descriptor 7 at address 2, nothing registered. -/
def one_channel : World :=
  (g_io_channel_unix_new (World.init ⟨0, 0⟩) 7).2

/-- The ids of all sources in the six lists of a context. -/
def source_ids (c : GMainContext) : List Nat :=
  c.io_watches.map io_watch.id ++ c.proc_io_watches.map io_watch.id ++
  c.timeouts.map timeout.id ++ c.proc_timeouts.map timeout.id ++
  c.child_watches.map child_watch.id ++ c.proc_child_watches.map child_watch.id

/-- A watch, timer or child watch with this id is in an active or pending list. -/
def registered (c : GMainContext) (id : Nat) : Prop :=
  id ∈ source_ids c

instance (c : GMainContext) (id : Nat) : Decidable (registered c id) := by
  unfold registered; infer_instance

/-- No two registered sources share an id, and no list holds an object twice. -/
def distinct_sources (c : GMainContext) : Prop :=
  (source_ids c).Nodup ∧
  (c.io_watches.map io_watch.ptr).Nodup ∧ (c.proc_io_watches.map io_watch.ptr).Nodup ∧
  (c.timeouts.map timeout.ptr).Nodup ∧ (c.proc_timeouts.map timeout.ptr).Nodup ∧
  (c.child_watches.map child_watch.ptr).Nodup ∧
  (c.proc_child_watches.map child_watch.ptr).Nodup

instance (c : GMainContext) : Decidable (distinct_sources c) := by
  unfold distinct_sources; infer_instance

/-- Two watches of priority 0 on the channel of `one_channel`, registered one after the
other (ids 1 and 2). -/
def two_equal_watches : World :=
  (g_io_add_watch_full (g_io_add_watch_full one_channel 2 0 1 100 0 none).2 2 0 1 101 0 none).2

/-- The world after the registrations of `mixed_registrations`. -/
def mixed_sources : World :=
  (register_all one_channel mixed_registrations).2

/-- The watch an event is about, if any. -/
def Event.watch : Event → Option Nat
  | Event.io_func w _ _ _ _ => some w
  | Event.destroy w _ _ => some w
  | Event.unref w _ => some w
  | Event.free_watch w => some w
  | _ => none

/-- The timer an event is about, if any. -/
def Event.timer : Event → Option Nat
  | Event.source_func t _ _ _ => some t
  | Event.free_timeout t => some t
  | _ => none

/-- The events of a trace that are about the watch at address `p`, in order. -/
def watch_trace (p : Nat) (tr : List Event) : List Event :=
  tr.filter (fun e => decide (e.watch = some p))

/-- The events of a trace that are about the timer at address `p`, in order. -/
def timer_trace (p : Nat) (tr : List Event) : List Event :=
  tr.filter (fun e => decide (e.timer = some p))

/-- What the destruction of a watch by `watch_free` shows of the watch: the call of its
destroy notifier if it has one, the release of its channel reference, the release of the
object. -/
def watch_free_events (w : io_watch) : List Event :=
  (match w.destroy with
    | some notify => [Event.destroy w.ptr notify w.user_data]
    | none => []) ++
  [Event.unref w.ptr w.channel, Event.free_watch w.ptr]

/-- Callbacks that do nothing and ask to be called again. -/
def idle_callbacks : Callbacks :=
  { io_func := fun _ _ _ _ W => (true, W),
    source_func := fun _ _ W => (true, W),
    child_func := fun _ _ _ _ W => W }

/-- A loop on the default context (at address 3), two watches with destroy notifiers (id 1 at
address 4, id 2 at address 5) and two timers, with the poll set built and the first watch
observed not ready, the second ready. -/
def before_dispatch : World :=
  let W0 := (g_main_loop_new one_channel 0 true).2
  let W1 := (g_io_add_watch_full W0 2 0 1 100 10 (some 500)).2
  let W2 := (g_io_add_watch_full W1 2 1 1 101 11 (some 501)).2
  let W3 := (g_timeout_add W2 1000 200 0).2
  let W4 := (g_timeout_add W3 1000 201 0).2
  (poll_phase ⟨1, [0, 1], ⟨0, 0⟩⟩ W4).1

/-- The state in which the callback of the second watch of `before_dispatch` is called in
the dispatch cycle: the guard is set, the first watch has been moved to the pending list,
and the call is recorded. -/
def inside_dispatch : World :=
  World.log
    { before_dispatch with context := { before_dispatch.context with
        io_watches := before_dispatch.context.io_watches.drop 1,
        proc_io_watches := before_dispatch.context.io_watches.take 1,
        io_lock := true } }
    (Event.io_func 5 101 2 1 11)

/-- Callbacks under which the watch callback at address 101 calls `g_main_loop_unref` on the
loop at address 3 and asks to be called again, and every other callback does nothing. -/
def unref_callbacks : Callbacks :=
  { io_func := fun func _ _ _ W =>
      if func = 101 then (true, g_main_loop_unref W 3) else (true, W),
    source_func := fun _ _ W => (true, W),
    child_func := fun _ _ _ _ W => W }

/-- Two watches registered in a fresh process, the first with priority -1, the second with
priority 2147483647. -/
def extreme_priorities : World :=
  (g_io_add_watch_full (g_io_add_watch_full one_channel 2 (-1) 1 100 0 none).2
    2 2147483647 1 101 0 none).2

/-- Three watches registered in a fresh process with the priorities 5, 1 and 3, in that
order. -/
def priorities_5_1_3 : World :=
  (g_io_add_watch_full (g_io_add_watch_full (g_io_add_watch_full one_channel
    2 5 1 100 0 none).2 2 1 1 101 0 none).2 2 3 1 102 0 none).2

/-- The child watch an event is about, if any. -/
def Event.child : Event → Option Nat
  | Event.child_func w _ _ _ _ => some w
  | Event.free_child_watch w => some w
  | _ => none

/-- From the world `X` to the world `Y` no source was added or removed, and the loop did
nothing about any watch, timer or child watch. -/
def quiet_step (X Y : World) : Prop :=
  Y.context = X.context ∧
  ∃ ext, Y.trace = X.trace ++ ext ∧ ∀ e ∈ ext, e.watch = none ∧ e.timer = none ∧ e.child = none

/-- The watch callback registered with these arguments neither adds nor removes a source. -/
def quiet_io (env : Callbacks) (func channel user_data : Nat) : Prop :=
  ∀ (rev : Int) (X : World), quiet_step X (env.io_func func channel rev user_data X).2

/-- The timer callback registered with these arguments neither adds nor removes a source. -/
def quiet_source (env : Callbacks) (function data : Nat) : Prop :=
  ∀ (X : World), quiet_step X (env.source_func function data X).2

/-- The callback of the watch `w` calls `g_source_remove` on the id of `w`; its result is
left open. -/
def removes_itself (env : Callbacks) (w : io_watch) : Prop :=
  ∀ (rev : Int) (X : World),
    (env.io_func w.func w.channel rev w.user_data X).2 = (g_source_remove X w.id).2

/-- Successive watch dispatch cycles of `g_main_loop_run`, one for each outcome of `poll`. -/
def watch_dispatch_cycles (env : Callbacks) (fuel : Nat) :
    List PollOutcome → World → Option World
  | [], W => some W
  | p :: ps, W =>
    match watch_dispatch_cycle env p fuel W with
    | none => none
    | some W1 => watch_dispatch_cycles env fuel ps W1

/-- Callbacks under which the watch callback at address 100 removes the source with id 1 and
asks to be called again, and every other callback does nothing. -/
def self_removing_callbacks : Callbacks :=
  { io_func := fun func _ _ _ W =>
      if func = 100 then (true, (g_source_remove W 1).2) else (true, W),
    source_func := fun _ _ W => (true, W),
    child_func := fun _ _ _ _ W => W }

/-- Two watches on the channel of a fresh process: id 1 at address 3 with callback 100 and a
destroy notifier, id 2 at address 4 with callback 101; the poll set has been built. -/
def two_watches_polled : World :=
  (poll_phase ⟨2, [1, 1], ⟨0, 0⟩⟩
    (g_io_add_watch_full (g_io_add_watch_full one_channel 2 0 1 100 10 (some 500)).2
      2 1 1 101 11 none).2).1

/-- What one run of `timeout_handlers_check`, started at the time `tv`, did about the timer
`t`, given the events about `t` before and after the run and the active timer list after
it. A timer that `tv` is before the expiration of was left alone and is still registered as
it was. Any other timer had its callback called once, at a time `fired` with the property
`P`, and then was either re-armed with the expiration `tv` plus its interval, or released
and dropped from the list. -/
def timer_outcome (P : timeval → Prop) (tv : timeval) (t : timeout)
    (before after : List Event) (timeouts : List timeout) : Prop :=
  if timercmp_lt tv t.expiration = true then after = before ∧ t ∈ timeouts
  else ∃ fired, P fired ∧
    ((after = before ++ [Event.source_func t.ptr t.function t.data fired] ∧
        { t with expiration := expiration_after tv t.interval } ∈ timeouts) ∨
     (after = before ++ [Event.source_func t.ptr t.function t.data fired,
          Event.free_timeout t.ptr] ∧
        t.ptr ∉ timeouts.map timeout.ptr))

/-- A time as `gettimeofday` delivers it: the microseconds are below one second. -/
def timeval.normal (tv : timeval) : Prop :=
  0 ≤ tv.tv_usec ∧ tv.tv_usec < 1000000

instance (tv : timeval) : Decidable tv.normal := by
  unfold timeval.normal; infer_instance

/-- Callbacks under which the timer callback at address 200 takes one second as long as the
clock shows less than 101 s, and every callback asks to be called again. -/
def slow_callbacks : Callbacks :=
  { io_func := fun _ _ _ _ W => (true, W),
    source_func := fun function _ W =>
      if function = 200 ∧ W.now.tv_sec < 101
      then (true, { W with now := { W.now with tv_sec := W.now.tv_sec + 1 } })
      else (true, W),
    child_func := fun _ _ _ _ W => W }

/-- The timers of `two_timers`, 100.3 ms after their registration. -/
def two_timers_later : World :=
  { two_timers with now := ⟨13, 100000⟩ }

/-- The arguments of a call of `g_io_add_watch_full`. -/
structure WatchArgs where
  channel : Nat
  priority : Int
  condition : Int
  func : Nat
  user_data : Nat
  notify : Option Nat
deriving DecidableEq, Repr

/-- Register watches with `g_io_add_watch_full`, one after the other. -/
def add_watches : World → List WatchArgs → World
  | W, [] => W
  | W, a :: rest =>
    add_watches (g_io_add_watch_full W a.channel a.priority a.condition a.func a.user_data
      a.notify).2 rest

/-- A priority so small that its difference to any other such priority fits a `gint`. -/
def small_priority (p : Int) : Prop :=
  -1073741824 ≤ p ∧ p < 1073741824

instance (p : Int) : Decidable (small_priority p) := by
  unfold small_priority; infer_instance

/-- The watches whose callbacks a trace shows as called, in the order of the calls. -/
def io_calls (tr : List Event) : List Nat :=
  tr.filterMap (fun e => match e with
    | Event.io_func w _ _ _ _ => some w
    | _ => none)

/-- The child-watch callback registered with these arguments neither adds nor removes a
source. -/
def quiet_child (env : Callbacks) (function user_data : Nat) : Prop :=
  ∀ (pid status : Int) (X : World),
    quiet_step X (env.child_func function pid status user_data X)

/-- The events of a trace that are about a child watch, in order. -/
def child_events (tr : List Event) : List Event :=
  tr.filter (fun e => e.child.isSome)

/-- What a run of `child_watch` shows of a child watch for which `waitpid` delivered `o`:
nothing when the result is not positive, else the call of the callback with the pid of the
watch and the status, and the release of the object. -/
def reaped_events (w : child_watch) (o : WaitOutcome) : List Event :=
  if o.ret ≤ 0 then []
  else [Event.child_func w.ptr w.function w.pid o.status w.user_data,
        Event.free_child_watch w.ptr]

/-- The child watches of a list for which `waitpid`, called for one after the other,
delivers a result that is not positive. -/
def not_reaped (ws : List child_watch) (waits : List WaitOutcome) : List child_watch :=
  ((ws.zip waits).filter (fun x => decide (x.2.ret ≤ 0))).map Prod.fst

/-- Three child watches registered in a fresh process, for the processes 71, 72 and 73 (the
child pipe is set up by the first registration); the active list holds them in the order
73, 72, 71. -/
def three_children : World :=
  (register_all (World.init ⟨0, 0⟩)
    [Registration.child_watch (some (3, 4)) 71 300 0,
     Registration.child_watch none 72 301 0,
     Registration.child_watch none 73 302 0]).2

/-- In a list of objects an address stands for one object: two entries with the same address
are the same object. -/
def by_address {α : Type} (addr : α → Nat) (l : List α) : Prop :=
  ∀ a ∈ l, ∀ b ∈ l, addr a = addr b → a = b

instance {α : Type} [DecidableEq α] (addr : α → Nat) (l : List α) :
    Decidable (by_address addr l) := by
  unfold by_address; infer_instance

/-- In each of the six lists of a context an address stands for one object. -/
def well_addressed (c : GMainContext) : Prop :=
  by_address io_watch.ptr c.io_watches ∧ by_address io_watch.ptr c.proc_io_watches ∧
  by_address timeout.ptr c.timeouts ∧ by_address timeout.ptr c.proc_timeouts ∧
  by_address child_watch.ptr c.child_watches ∧
  by_address child_watch.ptr c.proc_child_watches

instance (c : GMainContext) : Decidable (well_addressed c) := by
  unfold well_addressed; infer_instance

/-- The list `l1` is the list `l` without its first entry of the id `tag`: exactly one entry
is gone, the first one with that id, and the others are in the order they were in. -/
def removed_one {α : Type} (id_of : α → Nat) (tag : Nat) (l l1 : List α) : Prop :=
  ∃ pre x post, id_of x = tag ∧ tag ∉ pre.map id_of ∧ l = pre ++ x :: post ∧ l1 = pre ++ post

/-- The context `c1` is the context `c` without one source of the id `tag`: the first entry
with that id of the first list that has one, the lists being tried in the order active
watches, pending watches, active timers, pending timers, active child watches, pending
child watches; everything else is as in `c`. -/
def removed_source (c c1 : GMainContext) (tag : Nat) : Prop :=
  (removed_one io_watch.id tag c.io_watches c1.io_watches ∧
    c1 = { c with io_watches := c1.io_watches }) ∨
  (tag ∉ c.io_watches.map io_watch.id ∧
    removed_one io_watch.id tag c.proc_io_watches c1.proc_io_watches ∧
    c1 = { c with proc_io_watches := c1.proc_io_watches }) ∨
  (tag ∉ c.io_watches.map io_watch.id ++ c.proc_io_watches.map io_watch.id ∧
    removed_one timeout.id tag c.timeouts c1.timeouts ∧
    c1 = { c with timeouts := c1.timeouts }) ∨
  (tag ∉ c.io_watches.map io_watch.id ++ c.proc_io_watches.map io_watch.id ∧
    tag ∉ c.timeouts.map timeout.id ∧
    removed_one timeout.id tag c.proc_timeouts c1.proc_timeouts ∧
    c1 = { c with proc_timeouts := c1.proc_timeouts }) ∨
  (tag ∉ c.io_watches.map io_watch.id ++ c.proc_io_watches.map io_watch.id ∧
    tag ∉ c.timeouts.map timeout.id ++ c.proc_timeouts.map timeout.id ∧
    removed_one child_watch.id tag c.child_watches c1.child_watches ∧
    c1 = { c with child_watches := c1.child_watches }) ∨
  (tag ∉ c.io_watches.map io_watch.id ++ c.proc_io_watches.map io_watch.id ∧
    tag ∉ c.timeouts.map timeout.id ++ c.proc_timeouts.map timeout.id ∧
    tag ∉ c.child_watches.map child_watch.id ∧
    removed_one child_watch.id tag c.proc_child_watches c1.proc_child_watches ∧
    c1 = { c with proc_child_watches := c1.proc_child_watches })

/-- A watch at the address `p` with the priority `prio`, on the channel at address 2. -/
def watch_of_priority (p : Nat) (prio : Int) : io_watch :=
  { ptr := p, id := p, channel := 2, priority := prio, condition := 1, revents := 0,
    func := 100, user_data := 0, destroy := none }

/-- The watch object `g_io_add_watch_full` creates when it is called with the arguments `a`
in the state `W`. -/
def new_watch (W : World) (a : WatchArgs) : io_watch :=
  { ptr := W.brk, id := W.context.next_id, channel := a.channel, priority := a.priority,
    condition := a.condition, revents := 0, func := a.func, user_data := a.user_data,
    destroy := a.notify }

/-- Two timers registered at 100.0 s, the first with an interval of 500 ms and the callback
at address 201 (timer at address 2), the second with an interval of 100 ms and the callback
at address 200 (timer at address 3, the head of the list), at the time 100.1 s, when the
second has expired and the first has not. -/
def two_timers_staggered : World :=
  { (g_timeout_add (g_timeout_add (World.init ⟨100, 0⟩) 500 201 0).2 100 200 0).2 with
    now := ⟨100, 100000⟩ }

/-- One timer with an interval of 1 ms registered at 0.0005 s, at the time 0.001 s: the
timer expires in 500 microseconds. -/
def one_timer_soon : World :=
  { (g_timeout_add (World.init ⟨0, 500⟩) 1 200 0).2 with now := ⟨0, 1000⟩ }

/-- The expiration `e` is in an earlier second than the time `tv`, or in the same second and
less than 1000 microseconds ahead. -/
def within_a_millisecond (tv e : timeval) : Prop :=
  e.tv_sec < tv.tv_sec ∨ (e.tv_sec = tv.tv_sec ∧ e.tv_usec < tv.tv_usec + 1000)

instance (tv e : timeval) : Decidable (within_a_millisecond tv e) := by
  unfold within_a_millisecond; infer_instance

/-- Register a watch with `g_io_add_watch_full` and remove it again with `g_source_remove`
of the id that was returned: the result of the removal and the state after it. -/
def add_then_remove (W : World) (a : WatchArgs) : Bool × World :=
  g_source_remove
    (g_io_add_watch_full W a.channel a.priority a.condition a.func a.user_data a.notify).2
    (g_io_add_watch_full W a.channel a.priority a.condition a.func a.user_data a.notify).1

/-- The shortest UTF-8 encoding of the code point `c` (below `0x200000`): one byte below
`0x80`, two bytes below `0x800`, three bytes below `0x10000`, four bytes from there on. -/
def utf8_encode (c : Nat) : List Nat :=
  if c < 0x80 then [c]
  else if c < 0x800 then [0xC0 + c / 64, 0x80 + c % 64]
  else if c < 0x10000 then [0xE0 + c / 4096, 0x80 + c / 64 % 64, 0x80 + c % 64]
  else [0xF0 + c / 262144, 0x80 + c / 4096 % 64, 0x80 + c / 64 % 64, 0x80 + c % 64]

/-- A code point below `0x110000` that is not a surrogate (`0xD800..0xDFFF`), not in
`0xFDD0..0xFDEF`, and whose low 16 bits are not `0xFFFE` or `0xFFFF`. -/
def valid_code_point (c : Nat) : Prop :=
  c < 0x110000 ∧ ¬ (0xD800 ≤ c ∧ c ≤ 0xDFFF) ∧ ¬ (0xFDD0 ≤ c ∧ c ≤ 0xFDEF) ∧
    c % 65536 ≠ 0xFFFE ∧ c % 65536 ≠ 0xFFFF

instance (c : Nat) : Decidable (valid_code_point c) := by
  unfold valid_code_point; infer_instance

/-- The bytes of a NUL-terminated string: none of them is NUL, and each is a byte. -/
def string_bytes (s : List Nat) : Prop :=
  ∀ b ∈ s, 0 < b ∧ b < 256

instance (s : List Nat) : Decidable (string_bytes s) := by
  unfold string_bytes; infer_instance

/-- Decode the sequence at the start of a list of bytes by arithmetic: the code point, the
number of bytes of the sequence and the bytes behind it, when the list starts with the
shortest encoding of a valid code point, and `none` otherwise. -/
def utf8_decode : List Nat → Option (Nat × Nat × List Nat)
  | [] => none
  | b :: rest =>
    if b < 128 then some (b, 1, rest)
    else if b < 194 then none
    else if b < 224 then
      match rest with
      | c1 :: rest1 =>
        if 128 ≤ c1 ∧ c1 < 192 then some ((b - 192) * 64 + (c1 - 128), 2, rest1) else none
      | _ => none
    else if b < 240 then
      match rest with
      | c1 :: c2 :: rest2 =>
        if 128 ≤ c1 ∧ c1 < 192 ∧ 128 ≤ c2 ∧ c2 < 192 ∧
            2048 ≤ (b - 224) * 4096 + (c1 - 128) * 64 + (c2 - 128) ∧
            valid_code_point ((b - 224) * 4096 + (c1 - 128) * 64 + (c2 - 128))
        then some ((b - 224) * 4096 + (c1 - 128) * 64 + (c2 - 128), 3, rest2) else none
      | _ => none
    else if b < 248 then
      match rest with
      | c1 :: c2 :: c3 :: rest3 =>
        if 128 ≤ c1 ∧ c1 < 192 ∧ 128 ≤ c2 ∧ c2 < 192 ∧ 128 ≤ c3 ∧ c3 < 192 ∧
            65536 ≤ (b - 240) * 262144 + (c1 - 128) * 4096 + (c2 - 128) * 64 + (c3 - 128) ∧
            valid_code_point
              ((b - 240) * 262144 + (c1 - 128) * 4096 + (c2 - 128) * 64 + (c3 - 128))
        then some ((b - 240) * 262144 + (c1 - 128) * 4096 + (c2 - 128) * 64 + (c3 - 128), 4,
          rest3)
        else none
      | _ => none
    else none

/-- As `two_watches_polled`, but with the second watch allocated `2^32` bytes behind the
first one: id 1 at address 3 with callback 100 and a destroy notifier, id 2 at address
4294967299 with callback 101. -/
def far_apart : World :=
  { two_watches_polled with
    brk := 4294967300,
    context := { two_watches_polled.context with
      io_watches := [⟨3, 1, 2, 0, 1, 0, 100, 10, some 500⟩,
        ⟨4294967299, 2, 2, 1, 1, 1, 101, 11, none⟩] } }

/-- Callbacks under which the watch callback at address 100 removes the source with id 1 and
asks not to be called again, and every other callback does nothing. -/
def self_removing_stop_callbacks : Callbacks :=
  { io_func := fun func _ _ _ W =>
      if func = 100 then (false, (g_source_remove W 1).2) else (true, W),
    source_func := fun _ _ W => (true, W),
    child_func := fun _ _ _ _ W => W }

/-! ## Theorems -/

/-! ### Descriptor channel: read and write -/

/-- The retry loop skips every interrupted call and classifies the first call that is not
interrupted; the calls issued are one per outcome consumed. -/
theorem io_retry_interrupted (fd : Int) (count : Nat) (intr : List SysRet) (r : SysRet)
    (rest : List SysRet) (hintr : ∀ x ∈ intr, x.result < 0 ∧ x.errno = EINTR)
    (hr : ¬ (r.result < 0 ∧ r.errno = EINTR)) (issued : List (Int × Nat)) :
    io_retry fd count issued (intr ++ r :: rest) =
      some ⟨(classify_syscall r).1, (classify_syscall r).2,
            issued ++ List.replicate (intr.length + 1) (fd, count)⟩ := by
  induction intr generalizing issued with
  | nil =>
    rw [List.nil_append, io_retry]
    simp only [classify_syscall, List.length_nil, Nat.zero_add, List.replicate_one]
    by_cases h1 : r.result < 0
    · have h2 : ¬ r.errno = EINTR := fun h => hr ⟨h1, h⟩
      have h3 : ¬ r.result > 0 := by omega
      have h4 : ¬ r.result = 0 := by omega
      rw [if_pos h1, if_neg h2, if_neg h3, if_neg h4]
      by_cases h5 : r.errno = EAGAIN
      · rw [if_pos h5, if_pos h5]
      · rw [if_neg h5, if_neg h5]
    · rw [if_neg h1]
      by_cases h3 : r.result > 0
      · rw [if_pos h3, if_pos h3]
      · have h4 : r.result = 0 := by omega
        rw [if_neg h3, if_neg h3, if_pos h4]
        simp [h4]
  | cons x xs ih =>
    have hx := hintr x (List.mem_cons_self _ _)
    have hxs : ∀ y ∈ xs, y.result < 0 ∧ y.errno = EINTR :=
      fun y hy => hintr y (List.mem_cons_of_mem _ hy)
    rw [List.cons_append, io_retry, if_pos hx.1, if_pos hx.2, ih hxs]
    simp [List.replicate_succ, List.append_assoc]

/-- C8: on a closed channel `g_io_channel_read` and `g_io_channel_write` return Error, leave
the byte count alone and issue no system call, whatever the system would have answered. On
an open channel, when the system call fails `intr.length` times with `EINTR` and then ends
with the outcome `r`, both functions issue `intr.length + 1` calls on the channel's
descriptor with the count clamped to `SSIZE_MAX` and return the classification of `r`:
Normal with the bytes moved, EndOfStream with 0 bytes, WouldBlock with 0 bytes on `EAGAIN`,
Error with 0 bytes on any other failure. -/
theorem g_io_channel_read_write_status (channel : GIOChannel) (count bytes : Nat)
    (results intr : List SysRet) (r : SysRet) (rest : List SysRet)
    (hintr : ∀ x ∈ intr, x.result < 0 ∧ x.errno = EINTR)
    (hr : ¬ (r.result < 0 ∧ r.errno = EINTR)) :
    (channel.closed = true →
      g_io_channel_read channel count bytes results =
        some ⟨GIOStatus.G_IO_STATUS_ERROR, bytes, []⟩ ∧
      g_io_channel_write channel count bytes results =
        some ⟨GIOStatus.G_IO_STATUS_ERROR, bytes, []⟩) ∧
    (channel.closed = false →
      g_io_channel_read channel count bytes (intr ++ r :: rest) =
        some ⟨(classify_syscall r).1, (classify_syscall r).2,
              List.replicate (intr.length + 1) (channel.fd, min count SSIZE_MAX)⟩ ∧
      g_io_channel_write channel count bytes (intr ++ r :: rest) =
        some ⟨(classify_syscall r).1, (classify_syscall r).2,
              List.replicate (intr.length + 1) (channel.fd, min count SSIZE_MAX)⟩) := by
  have hmin : (if count > SSIZE_MAX then SSIZE_MAX else count) = min count SSIZE_MAX := by
    by_cases h : count > SSIZE_MAX
    · simp [h, Nat.min_eq_right (Nat.le_of_lt h)]
    · simp only [h, if_false]; exact (Nat.min_eq_left (Nat.le_of_not_lt h)).symm
  constructor
  · intro hc
    simp [g_io_channel_read, g_io_channel_write, hc]
  · intro hc
    simp only [g_io_channel_read, g_io_channel_write, hc, Bool.false_eq_true, if_false, hmin]
    rw [io_retry_interrupted _ _ intr r rest hintr hr []]
    simp

/-- C8 at a concrete input: a read of 16 bytes on descriptor 3 that is interrupted twice and
then meets the end of the stream. -/
theorem g_io_channel_read_write_status_witness :
    g_io_channel_read ⟨3, 1, false, false⟩ 16 7 ([⟨-1, 4⟩, ⟨-1, 4⟩] ++ ⟨0, 0⟩ :: [⟨5, 0⟩]) =
      some ⟨GIOStatus.G_IO_STATUS_EOF, 0, [(3, 16), (3, 16), (3, 16)]⟩ :=
  ((g_io_channel_read_write_status ⟨3, 1, false, false⟩ 16 7 [] [⟨-1, 4⟩, ⟨-1, 4⟩] ⟨0, 0⟩
    [⟨5, 0⟩] (by decide) (by decide)).2 rfl).1

/-! ### Descriptor channel: release -/

/-- C7 as stated fails: a channel with close-on-unref set whose last reference is dropped is
released without any `close` when it holds no valid descriptor, and when it was closed
before. -/
theorem g_io_channel_unref_close_on_unref_without_close :
    (channel_invalid_fd.channels 2 =
        some { fd := -1, ref_count := 1, closed := false, close_on_unref := true } ∧
      (g_io_channel_unref channel_invalid_fd 2).channels 2 = none ∧
      (g_io_channel_unref channel_invalid_fd 2).trace = [Event.free_channel 2]) ∧
    (channel_closed_before.channels 2 =
        some { fd := 5, ref_count := 1, closed := true, close_on_unref := true } ∧
      channel_closed_before.trace = [Event.close 5] ∧
      (g_io_channel_unref channel_closed_before 2).channels 2 = none ∧
      (g_io_channel_unref channel_closed_before 2).trace = [Event.close 5, Event.free_channel 2]) := by
  decide

/-- C7, amended: when `g_io_channel_unref` brings the reference count of a channel to zero
(or below), the channel is released, and `close` is called on its descriptor exactly when
close-on-unref is set, the descriptor is valid (`fd >= 0`) and the channel has not been
closed before. When the count stays above zero the channel only has its count lowered and
nothing is closed or released. No other channel and nothing of the context changes. -/
theorem g_io_channel_unref_releases (W : World) (c : Nat) (ch : GIOChannel) (hc : c ≠ 0)
    (h : W.channels c = some ch) :
    (ch.ref_count - 1 ≤ 0 →
      (g_io_channel_unref W c).channels c = none ∧
      (g_io_channel_unref W c).trace =
        W.trace ++ (if ch.close_on_unref = true ∧ 0 ≤ ch.fd ∧ ch.closed = false
                    then [Event.close ch.fd] else []) ++ [Event.free_channel c] ∧
      (Event.close ch.fd ∈ (g_io_channel_unref W c).trace.drop W.trace.length ↔
        ch.close_on_unref = true ∧ 0 ≤ ch.fd ∧ ch.closed = false)) ∧
    (0 < ch.ref_count - 1 →
      (g_io_channel_unref W c).channels c =
        some { ch with ref_count := ch.ref_count - 1 } ∧
      (g_io_channel_unref W c).trace = W.trace) ∧
    (∀ q, q ≠ c → (g_io_channel_unref W c).channels q = W.channels q) ∧
    (g_io_channel_unref W c).context = W.context := by
  refine ⟨?_, ?_, ?_, ?_⟩
  · intro hz
    have hz' : ¬ (ch.ref_count - 1 > 0) := by omega
    by_cases h1 : ch.close_on_unref = true ∧ 0 ≤ ch.fd
    · by_cases h2 : ch.closed = true
      · simp [g_io_channel_unref, h, hz', hc, h1, g_io_channel_close, heap_set, h2]
      · simp [g_io_channel_unref, h, hz', hc, h1, g_io_channel_close, heap_set, h2]
    · have h3 : ¬ (ch.close_on_unref = true ∧ 0 ≤ ch.fd ∧ ch.closed = false) :=
        fun h' => h1 ⟨h'.1, h'.2.1⟩
      simp [g_io_channel_unref, h, hz', hc, h1, heap_set, h3]
  · intro hp
    simp [g_io_channel_unref, h, hp, heap_set]
  · intro q hq
    by_cases hp : ch.ref_count - 1 > 0
    · simp [g_io_channel_unref, h, hp, heap_set, hq]
    · by_cases h1 : ch.close_on_unref = true ∧ 0 ≤ ch.fd
      · by_cases h2 : ch.closed = true
        · simp [g_io_channel_unref, h, hp, hc, h1, g_io_channel_close, heap_set, h2, hq]
        · simp [g_io_channel_unref, h, hp, hc, h1, g_io_channel_close, heap_set, h2, hq]
      · simp [g_io_channel_unref, h, hp, hc, h1, heap_set, hq]
  · by_cases hp : ch.ref_count - 1 > 0
    · simp [g_io_channel_unref, h, hp]
    · by_cases h1 : ch.close_on_unref = true ∧ 0 ≤ ch.fd
      · by_cases h2 : ch.closed = true
        · simp [g_io_channel_unref, h, hp, hc, h1, g_io_channel_close, heap_set, h2]
        · simp [g_io_channel_unref, h, hp, hc, h1, g_io_channel_close, heap_set, h2]
      · simp [g_io_channel_unref, h, hp, hc, h1, heap_set]

/-- C7, amended, at a concrete input: the last reference to an open channel on descriptor 5
with close-on-unref set. -/
theorem g_io_channel_unref_releases_witness :
    channel_open.channels 2 =
      some { fd := 5, ref_count := 1, closed := false, close_on_unref := true } ∧
    (g_io_channel_unref channel_open 2).channels 2 = none ∧
    (g_io_channel_unref channel_open 2).trace = [Event.close 5, Event.free_channel 2] :=
  ⟨rfl,
   ((g_io_channel_unref_releases channel_open 2
      { fd := 5, ref_count := 1, closed := false, close_on_unref := true }
      (by decide) rfl).1 (by decide)).1,
   ((g_io_channel_unref_releases channel_open 2
      { fd := 5, ref_count := 1, closed := false, close_on_unref := true }
      (by decide) rfl).1 (by decide)).2.1⟩

/-! ### Timer registry: the next deadline -/

/-- Division by 1000 as C does it, in terms of the flooring division. -/
theorem tdiv_thousand (x : Int) :
    (0 ≤ x → x.tdiv 1000 = x / 1000) ∧ (x < 0 → x.tdiv 1000 = -((-x) / 1000)) := by
  constructor
  · intro h
    exact Int.tdiv_eq_ediv h (by decide)
  · intro h
    have h1 : (-x).tdiv 1000 = (-x) / 1000 := Int.tdiv_eq_ediv (by omega) (by decide)
    have h2 : (-x).tdiv 1000 = -(x.tdiv 1000) := Int.neg_tdiv x 1000
    omega

/-- The loop of `timeout_handlers_prepare` returns a lower bound of the start value and of
every clamped remaining time, and it is one of them. -/
theorem timeout_handlers_prepare_loop_min (tv : timeval) (l : List timeout) (acc : Int) :
    timeout_handlers_prepare_loop tv l acc ≤ acc ∧
    (∀ t ∈ l, timeout_handlers_prepare_loop tv l acc ≤ max 0 (remaining_msec tv t)) ∧
    (timeout_handlers_prepare_loop tv l acc = acc ∨
      ∃ t ∈ l, timeout_handlers_prepare_loop tv l acc = max 0 (remaining_msec tv t)) := by
  induction l generalizing acc with
  | nil => simp [timeout_handlers_prepare_loop]
  | cons t l ih =>
    have hm : (if remaining_msec tv t < 0 then 0 else remaining_msec tv t) =
        max 0 (remaining_msec tv t) := by
      by_cases h : remaining_msec tv t < 0
      · rw [if_pos h, max_eq_left (le_of_lt h)]
      · rw [if_neg h, max_eq_right (not_lt.mp h)]
    obtain ⟨h1, h2, h3⟩ := ih (MIN_TIMEOUT acc (max 0 (remaining_msec tv t)))
    have hmin1 : MIN_TIMEOUT acc (max 0 (remaining_msec tv t)) ≤ acc := by
      unfold MIN_TIMEOUT; split <;> omega
    have hmin2 : MIN_TIMEOUT acc (max 0 (remaining_msec tv t)) ≤
        max 0 (remaining_msec tv t) := by
      unfold MIN_TIMEOUT; split <;> omega
    have hmin3 : MIN_TIMEOUT acc (max 0 (remaining_msec tv t)) = acc ∨
        MIN_TIMEOUT acc (max 0 (remaining_msec tv t)) = max 0 (remaining_msec tv t) := by
      unfold MIN_TIMEOUT; split <;> simp
    simp only [timeout_handlers_prepare_loop, hm]
    refine ⟨le_trans h1 hmin1, ?_, ?_⟩
    · intro u hu
      rcases List.mem_cons.mp hu with rfl | hu
      · exact le_trans h1 hmin2
      · exact h2 u hu
    · rcases h3 with h3 | ⟨u, hu, h3⟩
      · rcases hmin3 with h4 | h4
        · left; rw [h3, h4]
        · right; exact ⟨t, List.mem_cons_self _ _, by rw [h3, h4]⟩
      · right; exact ⟨u, List.mem_cons_of_mem _ hu, h3⟩

/-- A timer whose expiration was computed from the time `tv` and the interval `ms` has, at
the time `tv`, exactly `ms` milliseconds remaining. -/
theorem remaining_msec_after (tv : timeval) (t : timeout) (ms : Nat)
    (he : t.expiration = expiration_after tv ms) : remaining_msec tv t = ms := by
  unfold remaining_msec
  rw [he]
  unfold expiration_after
  by_cases hc : tv.tv_usec + ((ms : Int) - ((ms / 1000 : Nat) : Int) * 1000) * 1000 ≥ 1000000
  · rw [if_pos hc]
    simp only
    have hx := (tdiv_thousand (tv.tv_usec + ((ms : Int) - ((ms / 1000 : Nat) : Int) * 1000) * 1000
      - 1000000 - tv.tv_usec)).2 (by push_cast; omega)
    rw [hx]; push_cast; omega
  · rw [if_neg hc]
    simp only
    have hx := (tdiv_thousand (tv.tv_usec + ((ms : Int) - ((ms / 1000 : Nat) : Int) * 1000) * 1000
      - tv.tv_usec)).1 (by push_cast; omega)
    rw [hx]; push_cast; omega

/-- C5: for every active timer list whose remaining times fit a `glong` (are below
`LONG_MAX`), `timeout_handlers_prepare` sets `next_timeout` to `-1` when the list is empty
and otherwise to the minimum over the active timers of the remaining milliseconds floored at
zero: the value is attained by a timer and is a lower bound for all of them. The remaining
milliseconds of a timer differ from the exact distance to its expiration by less than one
millisecond, and with timers due in 50 ms and 200 ms the result is 50. -/
theorem timeout_handlers_prepare_minimum (W : World)
    (hb : ∀ t ∈ W.context.timeouts, remaining_msec W.now t < LONG_MAX) :
    (W.context.timeouts = [] → (timeout_handlers_prepare W).context.next_timeout = -1) ∧
    (W.context.timeouts ≠ [] →
      (∃ t ∈ W.context.timeouts,
        (timeout_handlers_prepare W).context.next_timeout = max 0 (remaining_msec W.now t)) ∧
      (∀ t ∈ W.context.timeouts,
        (timeout_handlers_prepare W).context.next_timeout ≤ max 0 (remaining_msec W.now t))) ∧
    (∀ t ∈ W.context.timeouts,
      |(t.expiration.usec - W.now.usec) - 1000 * remaining_msec W.now t| < 1000) ∧
    (∀ t1 t2, W.context.timeouts = [t1, t2] ∨ W.context.timeouts = [t2, t1] →
      t1.expiration = expiration_after W.now 50 →
      t2.expiration = expiration_after W.now 200 →
      (timeout_handlers_prepare W).context.next_timeout = 50) := by
  have hgen : W.context.timeouts ≠ [] →
      (∃ t ∈ W.context.timeouts,
        (timeout_handlers_prepare W).context.next_timeout = max 0 (remaining_msec W.now t)) ∧
      (∀ t ∈ W.context.timeouts,
        (timeout_handlers_prepare W).context.next_timeout ≤
          max 0 (remaining_msec W.now t)) := by
    intro hne
    obtain ⟨_, h2, h3⟩ := timeout_handlers_prepare_loop_min W.now W.context.timeouts LONG_MAX
    obtain ⟨t0, ht0⟩ := List.exists_mem_of_ne_nil _ hne
    have hlt : timeout_handlers_prepare_loop W.now W.context.timeouts LONG_MAX ≠ LONG_MAX := by
      have := h2 t0 ht0
      have hb0 := hb t0 ht0
      have hpos : (0 : Int) < LONG_MAX := by decide
      omega
    have hnext : (timeout_handlers_prepare W).context.next_timeout =
        timeout_handlers_prepare_loop W.now W.context.timeouts LONG_MAX := by
      simp [timeout_handlers_prepare, hlt]
    rw [hnext]
    refine ⟨?_, h2⟩
    rcases h3 with h3 | h3
    · exact absurd h3 hlt
    · exact h3
  refine ⟨?_, hgen, ?_, ?_⟩
  · intro he
    simp [timeout_handlers_prepare, he, timeout_handlers_prepare_loop]
  · intro t _
    have hd := Int.tdiv_add_tmod (t.expiration.tv_usec - W.now.tv_usec) 1000
    have hlt := Int.tmod_lt_of_pos (t.expiration.tv_usec - W.now.tv_usec)
      (show (0 : Int) < 1000 by decide)
    have hgt : -1000 < (t.expiration.tv_usec - W.now.tv_usec).tmod 1000 := by
      rcases tdiv_thousand (t.expiration.tv_usec - W.now.tv_usec) with ⟨ha, hb'⟩
      by_cases hs : 0 ≤ t.expiration.tv_usec - W.now.tv_usec
      · have := ha hs; omega
      · have := hb' (by omega); omega
    unfold remaining_msec timeval.usec
    rw [abs_lt]
    constructor <;> omega
  · intro t1 t2 hl e1 e2
    have hmem : ∀ t, t ∈ W.context.timeouts ↔ t = t1 ∨ t = t2 := by
      intro t
      rcases hl with hl | hl <;> (rw [hl]; simp only [List.mem_cons, List.mem_singleton,
        List.not_mem_nil, or_false])
      exact or_comm
    obtain ⟨⟨t, ht, heq⟩, hle⟩ := hgen (by rcases hl with hl | hl <;> (rw [hl]; simp))
    have r1 := remaining_msec_after W.now t1 50 e1
    have r2 := remaining_msec_after W.now t2 200 e2
    have hle1 := hle t1 ((hmem t1).mpr (Or.inl rfl))
    rw [r1] at hle1
    rcases (hmem t).mp ht with rfl | rfl
    · rw [heq, r1]; simp
    · rw [heq, r2] at hle1; simp at hle1

/-- C5 at a concrete input: two timers registered at the current time with intervals of
200 ms and 50 ms. -/
theorem timeout_handlers_prepare_minimum_witness :
    (∀ t ∈ two_timers.context.timeouts, remaining_msec two_timers.now t < LONG_MAX) ∧
    (timeout_handlers_prepare two_timers).context.next_timeout = 50 :=
  ⟨by decide,
   (timeout_handlers_prepare_minimum two_timers (by decide)).2.2.2 _ _ (Or.inl rfl) rfl rfl⟩

/-! ### Source ids -/

/-- The function `g_io_channel_ref` leaves the context alone. -/
theorem g_io_channel_ref_context (W : World) (c : Nat) :
    (g_io_channel_ref W c).context = W.context := by
  unfold g_io_channel_ref
  split <;> rfl

/-- The function `g_io_channel_unref` leaves the context alone. -/
theorem g_io_channel_unref_context (W : World) (c : Nat) :
    (g_io_channel_unref W c).context = W.context := by
  unfold g_io_channel_unref
  split
  · rfl
  · simp only
    split
    · rfl
    · split
      · rfl
      · split
        · unfold g_io_channel_close
          split
          · rfl
          · split
            · rfl
            · split <;> rfl
        · rfl

/-- Below `2^32` the increment of a `guint` does not wrap. -/
theorem wrap_guint_succ (n : Nat) (h : n + 1 < 4294967296) : wrap_guint (n + 1) = n + 1 :=
  Nat.mod_eq_of_lt h

/-- The function `g_io_add_watch_full` returns the value of `next_id` and increments the counter. -/
theorem g_io_add_watch_full_id (W : World) (channel : Nat) (priority condition : Int)
    (func user_data : Nat) (notify : Option Nat) :
    (g_io_add_watch_full W channel priority condition func user_data notify).1 =
      W.context.next_id ∧
    (g_io_add_watch_full W channel priority condition func user_data notify).2.context.next_id =
      wrap_guint (W.context.next_id + 1) := by
  unfold g_io_add_watch_full
  simp only [g_io_channel_ref_context]
  split <;> exact ⟨rfl, rfl⟩

/-- The function `g_timeout_add` returns the value of `next_id` and increments the counter. -/
theorem g_timeout_add_id (W : World) (interval function data : Nat) :
    (g_timeout_add W interval function data).1 = W.context.next_id ∧
    (g_timeout_add W interval function data).2.context.next_id =
      wrap_guint (W.context.next_id + 1) := by
  unfold g_timeout_add
  simp only
  split <;> exact ⟨rfl, rfl⟩

/-- The function `init_child_pipe` takes one id from the counter for the watch on the pipe. -/
theorem init_child_pipe_next_id (W W0 : World) (pipe_ret : Option (Int × Int))
    (h : init_child_pipe W pipe_ret = some W0) :
    W0.context.next_id = wrap_guint (W.context.next_id + 1) := by
  unfold init_child_pipe at h
  cases pipe_ret with
  | none => simp at h
  | some fds =>
    simp only [Option.some.injEq] at h
    rw [← h, g_io_channel_unref_context]
    unfold g_io_add_watch
    rw [(g_io_add_watch_full_id _ _ _ _ _ _ _).2]
    rfl

/-- The function `g_child_watch_add` returns the value of `next_id`, after the one id `init_child_pipe`
takes when it runs, and increments the counter. -/
theorem g_child_watch_add_id (W : World) (pipe_ret : Option (Int × Int)) (pid : Int)
    (func user_data : Nat) (x : Nat × World)
    (h : g_child_watch_add W pipe_ret pid func user_data = some x) :
    (x.1 = W.context.next_id ∧ x.2.context.next_id = wrap_guint (W.context.next_id + 1)) ∨
    (x.1 = wrap_guint (W.context.next_id + 1) ∧
      x.2.context.next_id = wrap_guint (wrap_guint (W.context.next_id + 1) + 1)) := by
  unfold g_child_watch_add at h
  by_cases hp : W.child_watch_pipe.1 < 0
  · rw [if_pos hp] at h
    cases hi : init_child_pipe W pipe_ret with
    | none => rw [hi] at h; simp at h
    | some W0 =>
      rw [hi] at h
      have hn := init_child_pipe_next_id W W0 pipe_ret hi
      right
      simp only at h
      split at h <;>
        (simp only [Option.some.injEq] at h; rw [← h]; simp only; rw [hn]; exact ⟨rfl, rfl⟩)
  · rw [if_neg hp] at h
    left
    simp only at h
    split at h <;> (simp only [Option.some.injEq] at h; rw [← h]; exact ⟨rfl, rfl⟩)

/-- While the counter stays below `2^32`, a registration returns an id at or above the old
counter and below the new one, and takes at most two ids. -/
theorem register_id (W : World) (r : Registration) (x : Nat × World)
    (h : register W r = some x) (hb : W.context.next_id + 2 < 4294967296) :
    W.context.next_id ≤ x.1 ∧ x.1 < x.2.context.next_id ∧
      x.2.context.next_id ≤ W.context.next_id + 2 := by
  have w1 := wrap_guint_succ W.context.next_id (by omega)
  have w2 := wrap_guint_succ (W.context.next_id + 1) (by omega)
  cases r with
  | io_watch channel priority condition func user_data notify =>
    simp only [register, Option.some.injEq] at h
    have := g_io_add_watch_full_id W channel priority condition func user_data notify
    rw [h] at this
    omega
  | timeout interval function data =>
    simp only [register, Option.some.injEq] at h
    have := g_timeout_add_id W interval function data
    rw [h] at this
    omega
  | child_watch pipe_ret pid func user_data =>
    simp only [register] at h
    rcases g_child_watch_add_id W pipe_ret pid func user_data x h with ⟨h1, h2⟩ | ⟨h1, h2⟩
    · omega
    · rw [w1] at h1 h2
      rw [w2] at h2
      omega

/-- C10, amended: for every sequence of registrations through `g_io_add_watch_full`,
`g_timeout_add` and `g_child_watch_add` during which the 32 bit counter `next_id` does not
wrap (each registration takes at most two ids, so `next_id + 2 * n < 2^32` suffices for `n`
registrations), each returned id is strictly greater than every id returned before it, and
each lies between the counter at the start and the counter at the end, which never
decreases: the ids are taken from the one shared counter and none is handed out twice. -/
theorem next_id_strictly_increasing (regs : List Registration) (W : World)
    (hb : W.context.next_id + 2 * regs.length < 4294967296) :
    (register_all W regs).1.Pairwise (· < ·) ∧
    (∀ id ∈ (register_all W regs).1,
      W.context.next_id ≤ id ∧ id < (register_all W regs).2.context.next_id) ∧
    W.context.next_id ≤ (register_all W regs).2.context.next_id ∧
    (register_all W regs).2.context.next_id ≤ W.context.next_id + 2 * regs.length := by
  induction regs generalizing W with
  | nil => simp [register_all]
  | cons r rs ih =>
    simp only [List.length_cons] at hb
    cases hr : register W r with
    | none => simp [register_all, hr]
    | some x =>
      obtain ⟨h1, h2, h3⟩ := register_id W r x hr (by omega)
      obtain ⟨i1, i2, i3, i4⟩ := ih x.2 (by omega)
      simp only [register_all, hr, List.pairwise_cons, List.mem_cons, List.length_cons]
      refine ⟨⟨?_, i1⟩, ?_, by omega, by omega⟩
      · intro id hid
        have := i2 id hid
        omega
      · intro id hid
        rcases hid with rfl | hid
        · omega
        · have := i2 id hid
          omega

/-- The ids a run of timer registrations returns: the counter values modulo `2^32`. -/
theorem register_all_timeouts (n : Nat) (W : World) (interval function data : Nat)
    (hb : W.context.next_id < 4294967296) :
    (register_all W (List.replicate n (Registration.timeout interval function data))).1 =
      (List.range n).map (fun k => (W.context.next_id + k) % 4294967296) := by
  induction n generalizing W with
  | zero => simp [register_all]
  | succ n ih =>
    have hid := g_timeout_add_id W interval function data
    simp only [List.replicate_succ, register_all, register]
    rw [ih _ (by rw [hid.2]; exact Nat.mod_lt _ (by decide)), hid.1, hid.2,
      List.range_succ_eq_map, List.map_cons, List.map_map]
    congr 1
    · simp [Nat.mod_eq_of_lt hb]
    · apply List.map_congr_left
      intro k _
      simp only [Function.comp, wrap_guint]
      omega

/-- C10 as stated fails: of 4294967297 timers registered one after the other in a fresh
process, the first gets id 1, the 4294967295th gets id 4294967295, the next one gets id 0,
which is smaller, and the last one gets id 1 again, while the first timer is still
registered. -/
theorem next_id_wraps_around :
    ((register_all (World.init ⟨0, 0⟩)
        (List.replicate 4294967297 (Registration.timeout 0 0 0))).1[0]? = some 1 ∧
     (register_all (World.init ⟨0, 0⟩)
        (List.replicate 4294967297 (Registration.timeout 0 0 0))).1[4294967294]? =
          some 4294967295 ∧
     (register_all (World.init ⟨0, 0⟩)
        (List.replicate 4294967297 (Registration.timeout 0 0 0))).1[4294967295]? = some 0 ∧
     (register_all (World.init ⟨0, 0⟩)
        (List.replicate 4294967297 (Registration.timeout 0 0 0))).1[4294967296]? = some 1) := by
  rw [register_all_timeouts 4294967297 (World.init ⟨0, 0⟩) 0 0 0 (by decide)]
  have h0 : (List.range 4294967297)[0]? = some 0 := List.getElem?_range (by decide)
  have h1 : (List.range 4294967297)[4294967294]? = some 4294967294 :=
    List.getElem?_range (by decide)
  have h2 : (List.range 4294967297)[4294967295]? = some 4294967295 :=
    List.getElem?_range (by decide)
  have h3 : (List.range 4294967297)[4294967296]? = some 4294967296 :=
    List.getElem?_range (by decide)
  simp only [List.getElem?_map, h0, h1, h2, h3, Option.map_some']
  decide


/-- C10, amended, at a concrete input: a watch, a timer, the first child watch and another
timer get the ids 1, 2, 4 and 5 (id 3 goes to the watch on the child pipe). -/
theorem next_id_strictly_increasing_witness :
    (register_all one_channel mixed_registrations).1 = [1, 2, 4, 5] ∧
    (register_all one_channel mixed_registrations).1.Pairwise (· < ·) :=
  ⟨by decide, (next_id_strictly_increasing mixed_registrations one_channel (by decide)).1⟩

/-! ### Sorted insertion -/

/-- The loop of `g_slist_insert_sorted` walks past the entries the new one compares greater
than and links the new entry in front of the first other entry. -/
theorem g_slist_insert_sorted_loop_split {α : Type} (data : α) (cmp_func : α → α → Int)
    (rest : List α) (tmp : α) :
    ∃ pre post, tmp :: rest = pre ++ post ∧
      g_slist_insert_sorted_loop data cmp_func tmp rest = pre ++ data :: post ∧
      (∀ x ∈ pre, cmp_func data x > 0) ∧ (∀ x, post.head? = some x → cmp_func data x ≤ 0) := by
  induction rest generalizing tmp with
  | nil =>
    by_cases h : cmp_func data tmp > 0
    · refine ⟨[tmp], [], rfl, by simp [g_slist_insert_sorted_loop, h], ?_, by simp⟩
      intro x hx
      rw [List.mem_singleton.mp hx]; exact h
    · refine ⟨[], [tmp], rfl, by simp [g_slist_insert_sorted_loop, h], by simp, ?_⟩
      intro x hx
      simp only [List.head?_cons, Option.some.injEq] at hx
      rw [← hx]; omega
  | cons next rest ih =>
    by_cases h : cmp_func data tmp > 0
    · obtain ⟨pre, post, h1, h2, h3, h4⟩ := ih next
      refine ⟨tmp :: pre, post, by rw [h1]; rfl, by simp [g_slist_insert_sorted_loop, h, h2],
        ?_, h4⟩
      intro x hx
      rcases List.mem_cons.mp hx with rfl | hx
      · exact h
      · exact h3 x hx
    · refine ⟨[], tmp :: next :: rest, rfl, by simp [g_slist_insert_sorted_loop, h], by simp, ?_⟩
      intro x hx
      simp only [List.head?_cons, Option.some.injEq] at hx
      rw [← hx]; omega

/-- The function `g_slist_insert_sorted` keeps the old entries in their order and puts the new entry
behind the leading entries it compares greater than. -/
theorem g_slist_insert_sorted_split {α : Type} (list : List α) (data : α)
    (cmp_func : α → α → Int) :
    ∃ pre post, list = pre ++ post ∧
      g_slist_insert_sorted list data cmp_func = pre ++ data :: post ∧
      (∀ x ∈ pre, cmp_func data x > 0) ∧ (∀ x, post.head? = some x → cmp_func data x ≤ 0) := by
  cases list with
  | nil => exact ⟨[], [], rfl, rfl, by simp, by simp⟩
  | cons tmp rest => exact g_slist_insert_sorted_loop_split data cmp_func rest tmp

/-- C2 as stated fails: of two watches of priority 0 registered one after the other outside
a dispatch cycle, the second one (id 2) stands in the active list before the first one
(id 1). -/
theorem g_io_add_watch_full_ties_reversed :
    two_equal_watches.context.io_lock = false ∧
    two_equal_watches.context.io_watches.map (fun w => (w.id, w.priority)) =
      [(2, 0), (1, 0)] := by
  decide

/-- C2, amended: for every active watch list and every watch newly registered with
`g_io_add_watch_full` outside a dispatch cycle, the old entries keep their order and the new
watch is inserted behind the leading entries it compares greater than, right in front of the
first entry it does not compare greater than; hence before every already-registered watch of
equal priority: ties are broken against insertion order. -/
theorem g_io_add_watch_full_position (W : World) (channel : Nat) (priority condition : Int)
    (func user_data : Nat) (notify : Option Nat) (hl : W.context.io_lock = false) :
    ∃ pre post new,
      W.context.io_watches = pre ++ post ∧
      (g_io_add_watch_full W channel priority condition func user_data notify).2.context.io_watches
        = pre ++ new :: post ∧
      new.id = (g_io_add_watch_full W channel priority condition func user_data notify).1 ∧
      new.priority = priority ∧
      (∀ x ∈ pre, watch_prio_cmp new x > 0) ∧
      (∀ x, post.head? = some x → watch_prio_cmp new x ≤ 0) ∧
      (∀ x ∈ pre, x.priority ≠ priority) ∧
      (∀ x ∈ W.context.io_watches, x.priority = priority → x ∈ post) := by
  have hctx := g_io_channel_ref_context { W with brk := W.brk + 1 } channel
  obtain ⟨pre, post, h1, h2, h3, h4⟩ := g_slist_insert_sorted_split W.context.io_watches
    { ptr := W.brk, id := W.context.next_id, channel := channel, priority := priority,
      condition := condition, revents := 0, func := func, user_data := user_data,
      destroy := notify } watch_prio_cmp
  have hne : ∀ x ∈ pre, x.priority ≠ priority := by
    intro x hx he
    have := h3 x hx
    simp only [watch_prio_cmp, he, sub_self] at this
    exact absurd this (by decide)
  refine ⟨pre, post,
    { ptr := W.brk, id := W.context.next_id, channel := channel, priority := priority,
      condition := condition, revents := 0, func := func, user_data := user_data,
      destroy := notify }, h1, ?_, ?_, rfl, h3, h4, hne, ?_⟩
  · unfold g_io_add_watch_full
    simp only [hctx, hl, Bool.false_eq_true, if_false, watch_list_add]
    exact h2
  · unfold g_io_add_watch_full
    simp only [hctx, hl, Bool.false_eq_true, if_false]
  · intro x hx he
    rw [h1] at hx
    rcases List.mem_append.mp hx with hp | hp
    · exact absurd he (hne x hp)
    · exact hp

/-- C2, amended, at a concrete input: to the watches of the priorities 1, 3 and 5 (ids 2, 3
and 1) a watch of priority 3 is added outside a dispatch cycle; it gets the id 4 and is
linked behind the watch of priority 1 and in front of the watch of priority 3 that was
registered before it. -/
theorem g_io_add_watch_full_position_witness :
    priorities_5_1_3.context.io_lock = false ∧
    priorities_5_1_3.context.io_watches.map (fun w => (w.id, w.priority)) =
      [(2, 1), (3, 3), (1, 5)] ∧
    (g_io_add_watch_full priorities_5_1_3 2 3 1 103 0 none).2.context.io_watches.map
        (fun w => (w.id, w.priority)) = [(2, 1), (4, 3), (3, 3), (1, 5)] := by
  obtain ⟨pre, post, new, h1, h2, h3, h4, h5, h6, h7, h8⟩ :=
    g_io_add_watch_full_position priorities_5_1_3 2 3 1 103 0 none (by decide)
  refine ⟨by decide, by decide, ?_⟩
  have hid : new.id = 4 := by
    rw [h3]
    decide
  have hl : priorities_5_1_3.context.io_watches =
      [⟨4, 2, 2, 1, 1, 0, 101, 0, none⟩, ⟨5, 3, 2, 3, 1, 0, 102, 0, none⟩,
        ⟨3, 1, 2, 5, 1, 0, 100, 0, none⟩] := by decide
  rw [h2]
  rw [hl] at h1 h8
  have hmem : (⟨5, 3, 2, 3, 1, 0, 102, 0, none⟩ : io_watch) ∈ post :=
    h8 _ (by simp) rfl
  rcases pre with _ | ⟨p1, _ | ⟨p2, pre2⟩⟩
  · -- nothing in front: the watch of priority 1 would not compare smaller
    simp only [List.nil_append] at h1
    have := h6 ⟨4, 2, 2, 1, 1, 0, 101, 0, none⟩ (by rw [← h1]; rfl)
    simp only [watch_prio_cmp, h4] at this
    exact absurd this (by decide)
  · simp only [List.cons_append, List.nil_append, List.cons.injEq] at h1
    obtain ⟨rfl, rfl⟩ := h1
    simp [hid, h4]
  · simp only [List.cons_append, List.cons.injEq] at h1
    obtain ⟨rfl, rfl, h1⟩ := h1
    have := h7 ⟨5, 3, 2, 3, 1, 0, 102, 0, none⟩ (by simp)
    exact absurd rfl this

/-! ### Removal by id -/

/-- The function `watch_free` leaves the context alone. -/
theorem watch_free_context (W : World) (w : io_watch) : (watch_free W w).context = W.context := by
  unfold watch_free
  simp only [World.log, g_io_channel_unref_context]
  split <;> rfl

/-- The search for an id fails exactly when no entry has the id. -/
theorem find_id_none {α : Type} (f : α → Nat) (l : List α) (tag : Nat) :
    l.find? (fun x => decide (f x = tag)) = none ↔ tag ∉ l.map f := by
  induction l with
  | nil => simp
  | cons x l ih =>
    by_cases h : f x = tag
    · simp [List.find?_cons, h]
    · simp only [List.find?_cons, h, decide_False, ih, List.map_cons, List.mem_cons, not_or]
      constructor
      · intro h1; exact ⟨fun h2 => h h2.symm, h1⟩
      · intro h1; exact h1.2

/-- When the search for an id succeeds, an entry has the id. -/
theorem find_id_some {α : Type} (f : α → Nat) (l : List α) (tag : Nat) (w : α)
    (h : l.find? (fun x => decide (f x = tag)) = some w) : tag ∈ l.map f := by
  by_contra hn
  rw [(find_id_none f l tag).mpr hn] at h
  exact Option.noConfusion h

/-- In a list that holds no object twice, removing the entry found for an id takes away
exactly one occurrence of that id. -/
theorem g_slist_remove_found {α : Type} (f addr : α → Nat) (l : List α) (tag : Nat) (w : α)
    (h : l.find? (fun x => decide (f x = tag)) = some w) (hp : (l.map addr).Nodup) :
    ((g_slist_remove addr l (addr w)).map f).count tag + 1 = (l.map f).count tag := by
  induction l with
  | nil => simp at h
  | cons x l ih =>
    by_cases hx : f x = tag
    · simp only [List.find?_cons, hx, decide_True, Option.some.injEq] at h
      subst h
      simp [g_slist_remove, hx]
    · simp only [List.find?_cons, hx, decide_False] at h
      have hw : w ∈ l := List.mem_of_find?_eq_some h
      simp only [List.map_cons, List.nodup_cons] at hp
      have hne : addr x ≠ addr w := by
        intro he
        exact hp.1 (he ▸ List.mem_map_of_mem addr hw)
      have := ih h hp.2
      simp only [g_slist_remove, hne, if_false, List.map_cons]
      rw [List.count_cons_of_ne (fun h' => hx h'.symm), List.count_cons_of_ne (fun h' => hx h'.symm)]
      exact this

/-- The function `g_io_remove_watch` succeeds exactly when a watch of the active or pending list has the
id; when it fails the world is unchanged. -/
theorem g_io_remove_watch_spec (W : World) (id : Nat) :
    ((g_io_remove_watch W id).1 = true ↔
      id ∈ W.context.io_watches.map io_watch.id ++ W.context.proc_io_watches.map io_watch.id) ∧
    ((g_io_remove_watch W id).1 = false → (g_io_remove_watch W id).2 = W) := by
  unfold g_io_remove_watch
  cases h1 : W.context.io_watches.find? (fun w => decide (w.id = id)) with
  | some w =>
    have := find_id_some io_watch.id _ _ _ h1
    simp [this]
  | none =>
    have n1 := (find_id_none io_watch.id _ _).mp h1
    cases h2 : W.context.proc_io_watches.find? (fun w => decide (w.id = id)) with
    | some w =>
      have := find_id_some io_watch.id _ _ _ h2
      simp [this]
    | none =>
      have n2 := (find_id_none io_watch.id _ _).mp h2
      simp [n1, n2]

/-- The function `g_timeout_remove` succeeds exactly when a timer of the active or pending list has the
id; when it fails the world is unchanged. -/
theorem g_timeout_remove_spec (W : World) (id : Nat) :
    ((g_timeout_remove W id).1 = true ↔
      id ∈ W.context.timeouts.map timeout.id ++ W.context.proc_timeouts.map timeout.id) ∧
    ((g_timeout_remove W id).1 = false → (g_timeout_remove W id).2 = W) := by
  unfold g_timeout_remove
  cases h1 : W.context.timeouts.find? (fun w => decide (w.id = id)) with
  | some w =>
    have := find_id_some timeout.id _ _ _ h1
    simp [this]
  | none =>
    have n1 := (find_id_none timeout.id _ _).mp h1
    cases h2 : W.context.proc_timeouts.find? (fun w => decide (w.id = id)) with
    | some w =>
      have := find_id_some timeout.id _ _ _ h2
      simp [this]
    | none =>
      have n2 := (find_id_none timeout.id _ _).mp h2
      simp [n1, n2]

/-- The function `child_watch_remove` succeeds exactly when a child watch of the active or pending list
has the id; when it fails the world is unchanged. -/
theorem child_watch_remove_spec (W : World) (id : Nat) :
    ((child_watch_remove W id).1 = true ↔
      id ∈ W.context.child_watches.map child_watch.id ++
        W.context.proc_child_watches.map child_watch.id) ∧
    ((child_watch_remove W id).1 = false → (child_watch_remove W id).2 = W) := by
  unfold child_watch_remove
  cases h1 : W.context.child_watches.find? (fun w => decide (w.id = id)) with
  | some w =>
    have := find_id_some child_watch.id _ _ _ h1
    simp [this]
  | none =>
    have n1 := (find_id_none child_watch.id _ _).mp h1
    cases h2 : W.context.proc_child_watches.find? (fun w => decide (w.id = id)) with
    | some w =>
      have := find_id_some child_watch.id _ _ _ h2
      simp [this]
    | none =>
      have n2 := (find_id_none child_watch.id _ _).mp h2
      simp [n1, n2]

/-- The function `g_source_remove` succeeds exactly when one of the three removals succeeds. -/
theorem g_source_remove_fst (W : World) (tag : Nat) :
    (g_source_remove W tag).1 = true ↔
      ((g_io_remove_watch W tag).1 = true ∨ (g_timeout_remove W tag).1 = true ∨
        (child_watch_remove W tag).1 = true) := by
  have a2 := (g_io_remove_watch_spec W tag).2
  have b2 := (g_timeout_remove_spec W tag).2
  unfold g_source_remove
  cases h1 : (g_io_remove_watch W tag).1 with
  | true => simp [h1]
  | false =>
    have e1 := a2 h1
    simp only [e1, h1, Bool.false_eq_true, if_false, false_or]
    cases h2 : (g_timeout_remove W tag).1 with
    | true => simp [h2]
    | false =>
      have e2 := b2 h2
      simp only [e2, h2, Bool.false_eq_true, if_false, false_or]
      cases h3 : (child_watch_remove W tag).1 <;> simp [h3]

/-- The function `g_source_remove` succeeds exactly when the id is registered. -/
theorem g_source_remove_iff (W : World) (tag : Nat) :
    (g_source_remove W tag).1 = true ↔ registered W.context tag := by
  rw [g_source_remove_fst, (g_io_remove_watch_spec W tag).1, (g_timeout_remove_spec W tag).1,
    (child_watch_remove_spec W tag).1]
  unfold registered source_ids
  simp only [List.mem_append]
  tauto

/-- A successful `g_io_remove_watch` takes away one occurrence of the id. -/
theorem g_io_remove_watch_count (W : World) (id : Nat) (hd : distinct_sources W.context)
    (h : (g_io_remove_watch W id).1 = true) :
    (source_ids (g_io_remove_watch W id).2.context).count id + 1 =
      (source_ids W.context).count id := by
  obtain ⟨_, p1, p2, _⟩ := hd
  unfold g_io_remove_watch at h ⊢
  cases h1 : W.context.io_watches.find? (fun w => decide (w.id = id)) with
  | some w =>
    have := g_slist_remove_found io_watch.id io_watch.ptr _ _ _ h1 p1
    simp only [watch_free_context, source_ids, List.count_append]
    omega
  | none =>
    cases h2 : W.context.proc_io_watches.find? (fun w => decide (w.id = id)) with
    | some w =>
      have := g_slist_remove_found io_watch.id io_watch.ptr _ _ _ h2 p2
      simp only [watch_free_context, source_ids, List.count_append]
      omega
    | none => simp [h1, h2] at h

/-- A successful `g_timeout_remove` takes away one occurrence of the id. -/
theorem g_timeout_remove_count (W : World) (id : Nat) (hd : distinct_sources W.context)
    (h : (g_timeout_remove W id).1 = true) :
    (source_ids (g_timeout_remove W id).2.context).count id + 1 =
      (source_ids W.context).count id := by
  obtain ⟨_, _, _, p1, p2, _⟩ := hd
  unfold g_timeout_remove at h ⊢
  cases h1 : W.context.timeouts.find? (fun w => decide (w.id = id)) with
  | some w =>
    have := g_slist_remove_found timeout.id timeout.ptr _ _ _ h1 p1
    simp only [World.log, source_ids, List.count_append]
    omega
  | none =>
    cases h2 : W.context.proc_timeouts.find? (fun w => decide (w.id = id)) with
    | some w =>
      have := g_slist_remove_found timeout.id timeout.ptr _ _ _ h2 p2
      simp only [World.log, source_ids, List.count_append]
      omega
    | none => simp [h1, h2] at h

/-- A successful `child_watch_remove` takes away one occurrence of the id. -/
theorem child_watch_remove_count (W : World) (id : Nat) (hd : distinct_sources W.context)
    (h : (child_watch_remove W id).1 = true) :
    (source_ids (child_watch_remove W id).2.context).count id + 1 =
      (source_ids W.context).count id := by
  obtain ⟨_, _, _, _, _, p1, p2⟩ := hd
  unfold child_watch_remove at h ⊢
  cases h1 : W.context.child_watches.find? (fun w => decide (w.id = id)) with
  | some w =>
    have := g_slist_remove_found child_watch.id child_watch.ptr _ _ _ h1 p1
    simp only [World.log, source_ids, List.count_append]
    omega
  | none =>
    cases h2 : W.context.proc_child_watches.find? (fun w => decide (w.id = id)) with
    | some w =>
      have := g_slist_remove_found child_watch.id child_watch.ptr _ _ _ h2 p2
      simp only [World.log, source_ids, List.count_append]
      omega
    | none => simp [h1, h2] at h

/-- A successful `g_source_remove` takes away one occurrence of the id. -/
theorem g_source_remove_count (W : World) (tag : Nat) (hd : distinct_sources W.context)
    (h : (g_source_remove W tag).1 = true) :
    (source_ids (g_source_remove W tag).2.context).count tag + 1 =
      (source_ids W.context).count tag := by
  have a2 := (g_io_remove_watch_spec W tag).2
  have b2 := (g_timeout_remove_spec W tag).2
  unfold g_source_remove at h ⊢
  cases h1 : (g_io_remove_watch W tag).1 with
  | true =>
    simp only [h1, if_true]
    exact g_io_remove_watch_count W tag hd h1
  | false =>
    have e1 := a2 h1
    simp only [e1, h1, Bool.false_eq_true, if_false] at h ⊢
    cases h2 : (g_timeout_remove W tag).1 with
    | true =>
      simp only [h2, if_true]
      exact g_timeout_remove_count W tag hd h2
    | false =>
      have e2 := b2 h2
      simp only [e2, h2, Bool.false_eq_true, if_false] at h ⊢
      cases h3 : (child_watch_remove W tag).1 with
      | true =>
        simp only [h3, if_true]
        exact child_watch_remove_count W tag hd h3
      | false => simp [h3] at h

/-- C4, amended: for every context state and every id, `g_source_remove` returns TRUE if and
only if a watch, timer or child watch with that id is in an active or pending list; on an id
that is not registered it returns FALSE; and where no two registered sources share an id
(and no list holds an object twice), a successful removal leaves the id unregistered, so
that removing it a second time returns FALSE. -/
theorem g_source_remove_found_iff_registered (W : World) (tag : Nat) :
    ((g_source_remove W tag).1 = true ↔ registered W.context tag) ∧
    (¬ registered W.context tag → (g_source_remove W tag).1 = false) ∧
    (distinct_sources W.context → (g_source_remove W tag).1 = true →
      ¬ registered (g_source_remove W tag).2.context tag ∧
      (g_source_remove (g_source_remove W tag).2 tag).1 = false) := by
  refine ⟨g_source_remove_iff W tag, ?_, ?_⟩
  · intro hn
    have := mt (g_source_remove_iff W tag).mp hn
    simpa using this
  · intro hd h
    have hc := g_source_remove_count W tag hd h
    have h1 := List.nodup_iff_count_le_one.mp hd.1 tag
    have hnot : ¬ registered (g_source_remove W tag).2.context tag := by
      unfold registered
      intro hm
      have := List.count_pos_iff.mpr hm
      omega
    refine ⟨hnot, ?_⟩
    have := mt (g_source_remove_iff (g_source_remove W tag).2 tag).mp hnot
    simpa using this

/-- C4, amended, at a concrete input: the timer with id 2 among four registered sources is removed by
the first call and not found by the second. -/
theorem g_source_remove_found_iff_registered_witness :
    distinct_sources mixed_sources.context ∧
    (g_source_remove mixed_sources 2).1 = true ∧
    (g_source_remove (g_source_remove mixed_sources 2).2 2).1 = false :=
  ⟨by decide, by decide,
   ((g_source_remove_found_iff_registered mixed_sources 2).2.2 (by decide) (by decide)).2⟩

/-! ### Traces -/

/-- The events about a watch in a concatenation. -/
theorem watch_trace_append (p : Nat) (a b : List Event) :
    watch_trace p (a ++ b) = watch_trace p a ++ watch_trace p b := by
  simp [watch_trace]

/-- The events about a timer in a concatenation. -/
theorem timer_trace_append (p : Nat) (a b : List Event) :
    timer_trace p (a ++ b) = timer_trace p a ++ timer_trace p b := by
  simp [timer_trace]

/-- The function `g_io_channel_close` adds no event about a watch or a timer. -/
theorem g_io_channel_close_trace (W : World) (c : Nat) :
    ∃ ext, (g_io_channel_close W c).trace = W.trace ++ ext ∧
      ∀ e ∈ ext, e.watch = none ∧ e.timer = none := by
  unfold g_io_channel_close
  split
  · exact ⟨[], by simp, by simp⟩
  · split
    · exact ⟨[], by simp, by simp⟩
    · rename_i ch _
      split
      · exact ⟨[], by simp, by simp⟩
      · exact ⟨[Event.close ch.fd], rfl, by simp [Event.watch, Event.timer]⟩

/-- The function `g_io_channel_unref` adds no event about a watch or a timer. -/
theorem g_io_channel_unref_trace (W : World) (c : Nat) :
    ∃ ext, (g_io_channel_unref W c).trace = W.trace ++ ext ∧
      ∀ e ∈ ext, e.watch = none ∧ e.timer = none := by
  unfold g_io_channel_unref
  split
  · exact ⟨[], by simp, by simp⟩
  · rename_i ch _
    simp only
    split
    · exact ⟨[], by simp, by simp⟩
    · split
      · exact ⟨[], by simp, by simp⟩
      · split
        · obtain ⟨ext, h1, h2⟩ := g_io_channel_close_trace
            ⟨W.default_context, W.context, W.loops,
              heap_set W.channels c (some { ch with ref_count := ch.ref_count - 1 }),
              W.child_watch_pipe, W.now, W.brk, W.trace⟩ c
          refine ⟨ext ++ [Event.free_channel c], ?_, ?_⟩
          · simp only [h1, List.append_assoc]
          · intro e he
            rcases List.mem_append.mp he with he | he
            · exact h2 e he
            · rw [List.mem_singleton.mp he]; exact ⟨rfl, rfl⟩
        · exact ⟨[Event.free_channel c], by simp, by simp [Event.watch, Event.timer]⟩

/-- The function `g_io_channel_unref` adds no event about a watch. -/
theorem g_io_channel_unref_watch_trace (W : World) (c p : Nat) :
    watch_trace p (g_io_channel_unref W c).trace = watch_trace p W.trace := by
  obtain ⟨ext, h1, h2⟩ := g_io_channel_unref_trace W c
  rw [h1, watch_trace_append]
  have : watch_trace p ext = [] := by
    unfold watch_trace
    rw [List.filter_eq_nil_iff]
    intro e he
    simp [(h2 e he).1]
  rw [this, List.append_nil]

/-- The function `g_io_channel_unref` adds no event about a timer. -/
theorem g_io_channel_unref_timer_trace (W : World) (c p : Nat) :
    timer_trace p (g_io_channel_unref W c).trace = timer_trace p W.trace := by
  obtain ⟨ext, h1, h2⟩ := g_io_channel_unref_trace W c
  rw [h1, timer_trace_append]
  have : timer_trace p ext = [] := by
    unfold timer_trace
    rw [List.filter_eq_nil_iff]
    intro e he
    simp [(h2 e he).2]
  rw [this, List.append_nil]

/-- The function `watch_free` adds the destruction events of the watch it is given, and nothing about any
other watch. -/
theorem watch_free_watch_trace (W : World) (w : io_watch) (p : Nat) :
    watch_trace p (watch_free W w).trace =
      watch_trace p W.trace ++ (if w.ptr = p then watch_free_events w else []) := by
  unfold watch_free watch_free_events
  simp only [World.log, watch_trace_append, g_io_channel_unref_watch_trace]
  by_cases h : w.ptr = p
  · cases hd : w.destroy <;> simp [watch_trace, Event.watch, h]
  · cases hd : w.destroy <;> simp [watch_trace, Event.watch, h]

/-- In a list that holds no object twice, the entries at the address of a member are that
member alone. -/
theorem filter_ptr_of_nodup {α : Type} (addr : α → Nat) (l : List α) (w : α) (hw : w ∈ l)
    (hn : (l.map addr).Nodup) : l.filter (fun v => decide (addr v = addr w)) = [w] := by
  induction l with
  | nil => simp at hw
  | cons x l ih =>
    simp only [List.map_cons, List.nodup_cons] at hn
    rcases List.mem_cons.mp hw with rfl | hw
    · have : l.filter (fun v => decide (addr v = addr w)) = [] := by
        rw [List.filter_eq_nil_iff]
        intro v hv hd
        exact hn.1 ((of_decide_eq_true hd) ▸ List.mem_map_of_mem addr hv)
      simp [List.filter_cons, this]
    · have hne : addr x ≠ addr w := fun he => hn.1 (he ▸ List.mem_map_of_mem addr hw)
      simp [List.filter_cons, hne, ih hw hn.2]

/-- No entry is at an address that is not in the list. -/
theorem filter_ptr_of_not_mem {α : Type} (addr : α → Nat) (l : List α) (p : Nat)
    (hp : p ∉ l.map addr) : l.filter (fun v => decide (addr v = p)) = [] := by
  rw [List.filter_eq_nil_iff]
  intro v hv hd
  exact hp ((of_decide_eq_true hd) ▸ List.mem_map_of_mem addr hv)

/-- The function `g_slist_foreach` with `watch_free` adds, for a watch, the destruction events of the
entries at its address. -/
theorem foreach_watch_free_watch_trace (l : List io_watch) (W : World) (p : Nat) :
    watch_trace p (g_slist_foreach l watch_free W).trace =
      watch_trace p W.trace ++
        ((l.filter (fun v => decide (v.ptr = p))).map watch_free_events).flatten := by
  induction l generalizing W with
  | nil => simp [g_slist_foreach]
  | cons x l ih =>
    have := ih (watch_free W x)
    simp only [g_slist_foreach, List.foldl_cons] at this ⊢
    rw [this, watch_free_watch_trace]
    by_cases h : x.ptr = p <;> simp [List.filter_cons, h]

/-- The function `watch_free` adds no event about a timer. -/
theorem watch_free_timer_trace (W : World) (w : io_watch) (p : Nat) :
    timer_trace p (watch_free W w).trace = timer_trace p W.trace := by
  unfold watch_free
  simp only [World.log, timer_trace_append, g_io_channel_unref_timer_trace]
  cases hd : w.destroy <;> simp [timer_trace, Event.timer]

/-- The function `g_slist_foreach` with `watch_free` adds no event about a timer. -/
theorem foreach_watch_free_timer_trace (l : List io_watch) (W : World) (p : Nat) :
    timer_trace p (g_slist_foreach l watch_free W).trace = timer_trace p W.trace := by
  induction l generalizing W with
  | nil => simp [g_slist_foreach]
  | cons x l ih =>
    have := ih (watch_free W x)
    simp only [g_slist_foreach, List.foldl_cons] at this ⊢
    rw [this, watch_free_timer_trace]

/-- The function `g_slist_foreach` with `g_free` on a list of timers releases them in order. -/
theorem foreach_free_timeout_trace (l : List timeout) (W : World) :
    (g_slist_foreach l (fun (X : World) (t : timeout) => X.log (Event.free_timeout t.ptr))
      W).trace = W.trace ++ l.map (fun t => Event.free_timeout t.ptr) := by
  induction l generalizing W with
  | nil => simp [g_slist_foreach]
  | cons x l ih =>
    have := ih (W.log (Event.free_timeout x.ptr))
    simp only [g_slist_foreach, List.foldl_cons] at this ⊢
    rw [this]
    simp [World.log]

/-! ### Destroying a loop -/

/-- The trace of `g_main_loop_unref`: the active watches are destroyed, then the active
timers are released, then the context. -/
theorem g_main_loop_unref_trace (W : World) (loop : Nat) (l : GMainLoop)
    (h : W.loops loop = some l) (hc : l.context ≠ 0) :
    (g_main_loop_unref W loop).trace =
      (g_slist_foreach W.context.io_watches watch_free W).trace ++
        W.context.timeouts.map (fun t => Event.free_timeout t.ptr) ++
        [Event.free_context l.context] := by
  unfold g_main_loop_unref
  simp only [h, if_neg hc]
  exact congrArg (fun x => x ++ [Event.free_context l.context])
    (foreach_free_timeout_trace _ _)

/-- The part of the property of `g_main_loop_unref` that holds: for every context state,
`g_main_loop_unref` on a loop that has a context
destroys every watch of the active list, running its destructor exactly once (when it has
one) and releasing its channel reference exactly once, and frees every timer of the active
list exactly once; it does nothing to any other watch or timer, those of the pending lists
included. -/
theorem g_main_loop_unref_destroys_active (W : World) (loop : Nat) (l : GMainLoop)
    (h : W.loops loop = some l) (hc : l.context ≠ 0)
    (hw : (W.context.io_watches.map io_watch.ptr).Nodup)
    (ht : (W.context.timeouts.map timeout.ptr).Nodup) :
    (∀ w ∈ W.context.io_watches,
      watch_trace w.ptr (g_main_loop_unref W loop).trace =
        watch_trace w.ptr W.trace ++ watch_free_events w) ∧
    (∀ t ∈ W.context.timeouts,
      timer_trace t.ptr (g_main_loop_unref W loop).trace =
        timer_trace t.ptr W.trace ++ [Event.free_timeout t.ptr]) ∧
    (∀ p, p ∉ W.context.io_watches.map io_watch.ptr →
      watch_trace p (g_main_loop_unref W loop).trace = watch_trace p W.trace) ∧
    (∀ p, p ∉ W.context.timeouts.map timeout.ptr →
      timer_trace p (g_main_loop_unref W loop).trace = timer_trace p W.trace) := by
  have hT := g_main_loop_unref_trace W loop l h hc
  have hwt : ∀ p, watch_trace p (g_main_loop_unref W loop).trace =
      watch_trace p W.trace ++
        ((W.context.io_watches.filter (fun v => decide (v.ptr = p))).map
          watch_free_events).flatten := by
    intro p
    rw [hT, watch_trace_append, watch_trace_append, foreach_watch_free_watch_trace]
    have e1 : watch_trace p (W.context.timeouts.map (fun t => Event.free_timeout t.ptr)) = [] := by
      unfold watch_trace
      rw [List.filter_eq_nil_iff]
      intro e he
      obtain ⟨t, _, rfl⟩ := List.mem_map.mp he
      simp [Event.watch]
    have e2 : watch_trace p [Event.free_context l.context] = [] := by
      simp [watch_trace, Event.watch]
    rw [e1, e2, List.append_nil, List.append_nil]
  have htt : ∀ p, timer_trace p (g_main_loop_unref W loop).trace =
      timer_trace p W.trace ++
        (W.context.timeouts.filter (fun v => decide (v.ptr = p))).map
          (fun t => Event.free_timeout t.ptr) := by
    intro p
    rw [hT, timer_trace_append, timer_trace_append, foreach_watch_free_timer_trace]
    have e2 : timer_trace p [Event.free_context l.context] = [] := by
      simp [timer_trace, Event.timer]
    have e1 : timer_trace p (W.context.timeouts.map (fun t => Event.free_timeout t.ptr)) =
        (W.context.timeouts.filter (fun v => decide (v.ptr = p))).map
          (fun t => Event.free_timeout t.ptr) := by
      unfold timer_trace
      rw [List.filter_map]
      congr 1
      apply List.filter_congr
      intro t _
      simp [Event.timer]
    rw [e1, e2, List.append_nil]
  refine ⟨?_, ?_, ?_, ?_⟩
  · intro w hmem
    rw [hwt, filter_ptr_of_nodup io_watch.ptr _ w hmem hw]
    simp
  · intro t hmem
    rw [htt, filter_ptr_of_nodup timeout.ptr _ t hmem ht]
    simp
  · intro p hp
    rw [hwt, filter_ptr_of_not_mem io_watch.ptr _ p hp]
    simp
  · intro p hp
    rw [htt, filter_ptr_of_not_mem timeout.ptr _ p hp]
    simp

/-- C9 at the failing input: `g_main_loop_unref` is called from the callback of a watch
(id 2, at address 5) while another watch (id 1, at address 4, with the destroy notifier 500)
is registered and sits in the pending list, where the dispatch cycle has moved it. The call
destroys the watch at address 5 and releases the two timers and the context, but none of
its events is about the watch at address 4: its destroy notifier is not called, its channel
reference is not released and the object is not freed, although the released context still
lists it. -/
theorem g_main_loop_unref_skips_pending :
    inside_dispatch.context.io_lock = true ∧
    inside_dispatch.context.released = false ∧
    inside_dispatch.context.proc_io_watches.map (fun w => (w.ptr, w.id, w.destroy)) =
      [(4, 1, some 500)] ∧
    registered inside_dispatch.context 1 ∧
    inside_dispatch.trace = [Event.io_func 5 101 2 1 11] ∧
    (g_main_loop_unref inside_dispatch 3).trace =
      [Event.io_func 5 101 2 1 11, Event.destroy 5 501 11, Event.unref 5 2,
       Event.free_watch 5, Event.free_timeout 7, Event.free_timeout 6,
       Event.free_context 1] ∧
    watch_trace 4 (g_main_loop_unref inside_dispatch 3).trace = [] ∧
    (g_main_loop_unref inside_dispatch 3).context.released = true ∧
    (g_main_loop_unref inside_dispatch 3).context.proc_io_watches.map io_watch.ptr = [4] := by
  decide

/-- What `g_main_loop_unref` destroys at a concrete input: the state of `inside_dispatch`,
where the watch at address 5 and the timers at addresses 7 and 6 are active. -/
theorem g_main_loop_unref_destroys_active_witness :
    (∀ w ∈ inside_dispatch.context.io_watches,
      watch_trace w.ptr (g_main_loop_unref inside_dispatch 3).trace =
        watch_trace w.ptr inside_dispatch.trace ++ watch_free_events w) ∧
    (∀ t ∈ inside_dispatch.context.timeouts,
      timer_trace t.ptr (g_main_loop_unref inside_dispatch 3).trace =
        timer_trace t.ptr inside_dispatch.trace ++ [Event.free_timeout t.ptr]) :=
  ⟨(g_main_loop_unref_destroys_active inside_dispatch 3 ⟨true, 1⟩ rfl (by decide)
      (by decide) (by decide)).1,
   (g_main_loop_unref_destroys_active inside_dispatch 3 ⟨true, 1⟩ rfl (by decide)
      (by decide) (by decide)).2.1⟩

/-! ### Dispatch order -/

/-- C1 at the failing input: a watch of priority -1 and then a watch of priority 2147483647
are registered in a fresh process; the difference of the priorities does not fit a `gint`,
the second watch is put in front of the first, and in the dispatch cycle in which both are
ready the callback of the watch of priority 2147483647 (at address 4) is invoked before the
callback of the watch of priority -1 (at address 3). -/
theorem dispatch_order_priority_overflow :
    extreme_priorities.context.io_watches.map (fun w => (w.ptr, w.priority)) =
      [(4, 2147483647), (3, -1)] ∧
    (watch_dispatch_cycle idle_callbacks ⟨2, [1, 1], ⟨0, 0⟩⟩ 3 extreme_priorities).map
        World.trace =
      some [Event.io_func 4 101 2 1 0, Event.io_func 3 100 2 1 0] := by
  decide

/-- The example of C1: watches registered with the priorities 5, 1, 3 (at the addresses 3, 4,
5) and all ready are dispatched in the order 1, 3, 5. -/
theorem dispatch_order_5_1_3 :
    priorities_5_1_3.context.io_watches.map (fun w => (w.ptr, w.priority)) =
      [(4, 1), (5, 3), (3, 5)] ∧
    (watch_dispatch_cycle idle_callbacks ⟨3, [1, 1, 1], ⟨0, 0⟩⟩ 4 priorities_5_1_3).map
        World.trace =
      some [Event.io_func 4 101 2 1 0, Event.io_func 5 102 2 1 0,
            Event.io_func 3 100 2 1 0] := by
  decide

/-! ### The watch dispatch cycle -/

/-- A quiet step adds no event about a watch. -/
theorem quiet_step_watch_trace (X Y : World) (h : quiet_step X Y) (p : Nat) :
    watch_trace p Y.trace = watch_trace p X.trace := by
  obtain ⟨_, ext, h1, h2⟩ := h
  rw [h1, watch_trace_append]
  have : watch_trace p ext = [] := by
    unfold watch_trace
    rw [List.filter_eq_nil_iff]
    intro e he
    simp [(h2 e he).1]
  rw [this, List.append_nil]

/-- A quiet step adds no event about a timer. -/
theorem quiet_step_timer_trace (X Y : World) (h : quiet_step X Y) (p : Nat) :
    timer_trace p Y.trace = timer_trace p X.trace := by
  obtain ⟨_, ext, h1, h2⟩ := h
  rw [h1, timer_trace_append]
  have : timer_trace p ext = [] := by
    unfold timer_trace
    rw [List.filter_eq_nil_iff]
    intro e he
    simp [(h2 e he).2.1]
  rw [this, List.append_nil]

/-- The function `g_slist_remove` of the head's address unlinks the head. -/
theorem g_slist_remove_head {α : Type} (addr : α → Nat) (x : α) (rest : List α) :
    g_slist_remove addr (x :: rest) (addr x) = rest := by
  simp [g_slist_remove]

/-- The function `g_slist_find_custom` with `ptr_cmp` finds the head when asked for its address. -/
theorem g_slist_find_custom_head {α : Type} (addr : α → Nat) (x : α) (rest : List α) :
    g_slist_find_custom addr (x :: rest) (addr x) ptr_cmp = some x := by
  simp [g_slist_find_custom, ptr_cmp, wrap_gint]

/-- The function `ptr_cmp` returns zero for the addresses that agree in their low 32 bits. -/
theorem ptr_cmp_eq_zero_iff (a b : Nat) :
    ptr_cmp a b = 0 ↔ a % 4294967296 = b % 4294967296 := by
  unfold ptr_cmp wrap_gint
  omega

/-- The function `g_slist_find_custom` with `ptr_cmp` finds nothing at an address when no
address in the list agrees with it in the low 32 bits. -/
theorem g_slist_find_custom_none {α : Type} (addr : α → Nat) (l : List α) (p : Nat)
    (h : ∀ x ∈ l, addr x % 4294967296 ≠ p % 4294967296) :
    g_slist_find_custom addr l p ptr_cmp = none := by
  unfold g_slist_find_custom
  rw [List.find?_eq_none]
  intro x hx hd
  have h0 : ptr_cmp (addr x) p = 0 := of_decide_eq_true hd
  exact h x hx ((ptr_cmp_eq_zero_iff _ _).mp h0)

/-- The function `g_slist_find_custom` with `ptr_cmp` finds the first entry whose address
agrees with the given one in the low 32 bits, whether or not it is the given address. -/
theorem g_slist_find_custom_alias {α : Type} (addr : α → Nat) (x : α) (rest : List α)
    (p : Nat) (h : addr x % 4294967296 = p % 4294967296) :
    g_slist_find_custom addr (x :: rest) p ptr_cmp = some x := by
  have h0 := (ptr_cmp_eq_zero_iff (addr x) p).mpr h
  simp [g_slist_find_custom, h0]

/-- A world whose context is as released as that of another one has not had it released
in between. -/
theorem context_released_of_eq (X Y : World)
    (h : Y.context.released = X.context.released) : context_released X Y = false := by
  unfold context_released
  rw [h]
  cases X.context.released <;> rfl

/-- The entries of a list after `watch_list_add`. -/
theorem mem_watch_list_add (l : List io_watch) (w x : io_watch) :
    x ∈ watch_list_add l w ↔ x = w ∨ x ∈ l := by
  obtain ⟨pre, post, h1, h2, _, _⟩ := g_slist_insert_sorted_split l w watch_prio_cmp
  unfold watch_list_add
  rw [h2, h1]
  simp only [List.mem_append, List.mem_cons]
  tauto

/-- The macro `watch_list_add` makes the list one entry longer. -/
theorem length_watch_list_add (l : List io_watch) (w : io_watch) :
    (watch_list_add l w).length = l.length + 1 := by
  obtain ⟨pre, post, h1, h2, _, _⟩ := g_slist_insert_sorted_split l w watch_prio_cmp
  unfold watch_list_add
  rw [h2, h1]
  simp only [List.length_append, List.length_cons]
  omega

/-- One pass of the dispatch loop over a watch that was not observed ready: the watch moves
to the pending list. -/
theorem io_dispatch_loop_not_ready (env : Callbacks) (ufds : List pollfd) (n : Nat)
    (X : World) (v : io_watch) (rest : List io_watch)
    (hl : X.context.io_watches = v :: rest) (hr : ufds_revents ufds v.revents = 0) :
    io_dispatch_loop env ufds (n + 1) X =
      io_dispatch_loop env ufds n
        { X with context := { X.context with
            io_watches := rest,
            proc_io_watches := watch_list_add X.context.proc_io_watches v } } := by
  rw [io_dispatch_loop]
  simp only [hl, hr, if_true, g_slist_remove_head]

/-- One pass of the dispatch loop over a ready watch whose callback left the active list as
it was: the watch is unlinked, and destroyed when the callback returned stop, moved to the
pending list otherwise. -/
theorem io_dispatch_loop_ready (env : Callbacks) (ufds : List pollfd) (n : Nat)
    (X : World) (v : io_watch) (rest : List io_watch)
    (hl : X.context.io_watches = v :: rest) (hr : ufds_revents ufds v.revents ≠ 0)
    (hk : (env.io_func v.func v.channel (ufds_revents ufds v.revents) v.user_data
      (X.log (Event.io_func v.ptr v.func v.channel (ufds_revents ufds v.revents)
        v.user_data))).2.context.io_watches = v :: rest)
    (hrel : (env.io_func v.func v.channel (ufds_revents ufds v.revents) v.user_data
      (X.log (Event.io_func v.ptr v.func v.channel (ufds_revents ufds v.revents)
        v.user_data))).2.context.released = X.context.released) :
    io_dispatch_loop env ufds (n + 1) X =
      io_dispatch_loop env ufds n
        (let r := env.io_func v.func v.channel (ufds_revents ufds v.revents) v.user_data
            (X.log (Event.io_func v.ptr v.func v.channel (ufds_revents ufds v.revents)
              v.user_data))
         if r.1 then
           { r.2 with context := { r.2.context with
               io_watches := rest,
               proc_io_watches := watch_list_add r.2.context.proc_io_watches v } }
         else watch_free { r.2 with context := { r.2.context with io_watches := rest } } v) := by
  rw [io_dispatch_loop]
  simp only [hl, hr, if_false, hk, context_released_of_eq _ _ hrel, Bool.false_eq_true,
    g_slist_find_custom_head, g_slist_remove_head]
  cases h : (env.io_func v.func v.channel (ufds_revents ufds v.revents) v.user_data
      (X.log (Event.io_func v.ptr v.func v.channel (ufds_revents ufds v.revents)
        v.user_data))).1 <;> simp

/-- One pass of the dispatch loop over a ready watch when its callback returns with no watch
in the active list whose address agrees with its own in the low 32 bits: nothing more is
done about it. -/
theorem io_dispatch_loop_removed (env : Callbacks) (ufds : List pollfd) (n : Nat)
    (X : World) (v : io_watch) (rest : List io_watch)
    (hl : X.context.io_watches = v :: rest) (hr : ufds_revents ufds v.revents ≠ 0)
    (hk : ∀ x ∈ (env.io_func v.func v.channel (ufds_revents ufds v.revents) v.user_data
      (X.log (Event.io_func v.ptr v.func v.channel (ufds_revents ufds v.revents)
        v.user_data))).2.context.io_watches, x.ptr % 4294967296 ≠ v.ptr % 4294967296)
    (hrel : (env.io_func v.func v.channel (ufds_revents ufds v.revents) v.user_data
      (X.log (Event.io_func v.ptr v.func v.channel (ufds_revents ufds v.revents)
        v.user_data))).2.context.released = X.context.released) :
    io_dispatch_loop env ufds (n + 1) X =
      io_dispatch_loop env ufds n
        (env.io_func v.func v.channel (ufds_revents ufds v.revents) v.user_data
          (X.log (Event.io_func v.ptr v.func v.channel (ufds_revents ufds v.revents)
            v.user_data))).2 := by
  rw [io_dispatch_loop]
  simp only [hl, hr, if_false, context_released_of_eq _ _ hrel, Bool.false_eq_true,
    g_slist_find_custom_none _ _ _ hk]

/-- Logging leaves the context alone. -/
theorem world_log_context (X : World) (e : Event) : (X.log e).context = X.context := rfl

/-- Logging appends to the trace. -/
theorem world_log_trace (X : World) (e : Event) : (X.log e).trace = X.trace ++ [e] := rfl

/-- The dispatch loop over watches with quiet callbacks ends with an empty active list, puts
into the pending list only what it found in the two lists, and does nothing about a watch
that is not in the active list. -/
theorem io_dispatch_loop_quiet (env : Callbacks) (ufds : List pollfd) (p : Nat)
    (cur : List io_watch) :
    ∀ (X : World) (k : Nat), X.context.io_watches = cur →
      (∀ v ∈ cur, quiet_io env v.func v.channel v.user_data) →
      ∃ X', io_dispatch_loop env ufds (cur.length + 1 + k) X = some X' ∧
        X'.context.io_watches = [] ∧
        (∀ v ∈ X'.context.proc_io_watches, v ∈ X.context.proc_io_watches ∨ v ∈ cur) ∧
        X'.context.proc_io_watches.length ≤ X.context.proc_io_watches.length + cur.length ∧
        (p ∉ cur.map io_watch.ptr → watch_trace p X'.trace = watch_trace p X.trace) := by
  induction cur with
  | nil =>
    intro X k hl _
    refine ⟨X, ?_, hl, fun v hv => Or.inl hv, by simp, fun _ => rfl⟩
    rw [show ([] : List io_watch).length + 1 + k = k + 1 by simp; omega, io_dispatch_loop]
    simp [hl]
  | cons v rest ih =>
    intro X k hl hq
    have hf : (v :: rest).length + 1 + k = (rest.length + 1 + k) + 1 := by
      simp only [List.length_cons]; omega
    have hqr : ∀ u ∈ rest, quiet_io env u.func u.channel u.user_data :=
      fun u hu => hq u (List.mem_cons_of_mem _ hu)
    rw [hf]
    by_cases hr : ufds_revents ufds v.revents = 0
    · rw [io_dispatch_loop_not_ready env ufds _ X v rest hl hr]
      obtain ⟨X', h1, h2, h3, h5, h4⟩ := ih
        { X with context := { X.context with
            io_watches := rest,
            proc_io_watches := watch_list_add X.context.proc_io_watches v } } k rfl hqr
      refine ⟨X', h1, h2, ?_, ?_, ?_⟩
      pick_goal 2
      · simp only [length_watch_list_add, List.length_cons] at h5 ⊢; omega
      · intro u hu
        rcases h3 u hu with h | h
        · rcases (mem_watch_list_add _ _ _).mp h with h | h
          · right; rw [h]; exact List.mem_cons_self _ _
          · left; exact h
        · right; exact List.mem_cons_of_mem _ h
      · intro hp
        simp only [List.map_cons, List.mem_cons, not_or] at hp
        exact h4 hp.2
    · have hqv := hq v (List.mem_cons_self _ _) (ufds_revents ufds v.revents)
        (X.log (Event.io_func v.ptr v.func v.channel (ufds_revents ufds v.revents) v.user_data))
      have hk : (env.io_func v.func v.channel (ufds_revents ufds v.revents) v.user_data
          (X.log (Event.io_func v.ptr v.func v.channel (ufds_revents ufds v.revents)
            v.user_data))).2.context.io_watches = v :: rest := by
        rw [hqv.1, world_log_context, hl]
      rw [io_dispatch_loop_ready env ufds _ X v rest hl hr hk
        (by rw [hqv.1, world_log_context])]
      have hc := hqv.1
      have ht := quiet_step_watch_trace _ _ hqv p
      rw [world_log_context] at hc
      rw [world_log_trace, watch_trace_append] at ht
      clear hqv hk
      generalize env.io_func v.func v.channel (ufds_revents ufds v.revents) v.user_data
          (X.log (Event.io_func v.ptr v.func v.channel (ufds_revents ufds v.revents)
            v.user_data)) = R at hc ht ⊢
      have hcall : p ∉ List.map io_watch.ptr (v :: rest) →
          watch_trace p [Event.io_func v.ptr v.func v.channel
              (ufds_revents ufds v.revents) v.user_data] = [] := by
        intro hp
        simp only [List.map_cons, List.mem_cons, not_or] at hp
        have hne : ¬ v.ptr = p := fun h => hp.1 h.symm
        simp [watch_trace, Event.watch, hne]
      cases hret : R.1
      · simp only [hret, Bool.false_eq_true, if_false]
        obtain ⟨X', h1, h2, h3, h5, h4⟩ := ih
          (watch_free { R.2 with context := { R.2.context with io_watches := rest } } v) k
          (by rw [watch_free_context]) hqr
        refine ⟨X', h1, h2, ?_, ?_, ?_⟩
        pick_goal 2
        · rw [watch_free_context] at h5
          simp only [List.length_cons] at h5 ⊢
          rw [hc] at h5; omega
        · intro u hu
          rcases h3 u hu with h | h
          · left
            rw [watch_free_context] at h
            simp only at h
            rw [hc] at h
            exact h
          · right; exact List.mem_cons_of_mem _ h
        · intro hp
          have hp' := hp
          simp only [List.map_cons, List.mem_cons, not_or] at hp'
          rw [h4 hp'.2, watch_free_watch_trace, if_neg (fun h => hp'.1 h.symm), List.append_nil]
          simp only
          rw [ht, hcall hp, List.append_nil]
      · simp only [hret, if_true]
        obtain ⟨X', h1, h2, h3, h5, h4⟩ := ih
          { R.2 with context := { R.2.context with
               io_watches := rest,
               proc_io_watches := watch_list_add R.2.context.proc_io_watches v } } k rfl hqr
        refine ⟨X', h1, h2, ?_, ?_, ?_⟩
        pick_goal 2
        · simp only [length_watch_list_add, List.length_cons] at h5 ⊢
          rw [hc] at h5; omega
        · intro u hu
          rcases h3 u hu with h | h
          · simp only at h
            rcases (mem_watch_list_add _ _ _).mp h with h | h
            · right; rw [h]; exact List.mem_cons_self _ _
            · left; rw [hc] at h; exact h
          · right; exact List.mem_cons_of_mem _ h
        · intro hp
          have hp' := hp
          simp only [List.map_cons, List.mem_cons, not_or] at hp'
          rw [h4 hp'.2]
          simp only
          rw [ht, hcall hp, List.append_nil]

/-- The function `g_source_remove` on the id of the head of the active watch list unlinks and destroys
the head. -/
theorem g_source_remove_head (X : World) (w : io_watch) (rest : List io_watch)
    (hl : X.context.io_watches = w :: rest) :
    g_source_remove X w.id =
      (true, watch_free { X with context := { X.context with io_watches := rest } } w) := by
  have h1 : g_io_remove_watch X w.id =
      (true, watch_free { X with context := { X.context with io_watches := rest } } w) := by
    unfold g_io_remove_watch
    simp [hl, g_slist_remove_head]
  unfold g_source_remove
  simp [h1]

/-- The dispatch loop over a list in which one ready watch removes itself from its callback,
the other callbacks are quiet, and no other watch stands at an address that agrees with
that of the watch in the low 32 bits: the events about that watch are its callback and one
destruction, and it does not reach the pending list. -/
theorem io_dispatch_loop_self_removal (env : Callbacks) (ufds : List pollfd) (w : io_watch)
    (hready : ufds_revents ufds w.revents ≠ 0) (hself : removes_itself env w)
    (cur : List io_watch) :
    ∀ (X : World) (k : Nat), X.context.io_watches = cur →
      (cur.map io_watch.ptr).Nodup → w ∈ cur →
      (∀ v ∈ cur, v.ptr % 4294967296 = w.ptr % 4294967296 → v.ptr = w.ptr) →
      (∀ v ∈ cur, v.ptr ≠ w.ptr → quiet_io env v.func v.channel v.user_data) →
      ∃ X', io_dispatch_loop env ufds (cur.length + 1 + k) X = some X' ∧
        X'.context.io_watches = [] ∧
        (∀ v ∈ X'.context.proc_io_watches,
          v ∈ X.context.proc_io_watches ∨ (v ∈ cur ∧ v.ptr ≠ w.ptr)) ∧
        X'.context.proc_io_watches.length ≤ X.context.proc_io_watches.length + cur.length ∧
        watch_trace w.ptr X'.trace =
          watch_trace w.ptr X.trace ++
            Event.io_func w.ptr w.func w.channel (ufds_revents ufds w.revents) w.user_data ::
              watch_free_events w := by
  induction cur with
  | nil => intro X k _ _ hm; simp at hm
  | cons v rest ih =>
    intro X k hl hn hm hfar hq
    have hfarr : ∀ u ∈ rest, u.ptr % 4294967296 = w.ptr % 4294967296 → u.ptr = w.ptr :=
      fun u hu => hfar u (List.mem_cons_of_mem _ hu)
    have hf : (v :: rest).length + 1 + k = (rest.length + 1 + k) + 1 := by
      simp only [List.length_cons]; omega
    rw [hf]
    simp only [List.map_cons, List.nodup_cons] at hn
    by_cases hv : v.ptr = w.ptr
    · -- the watch that removes itself is at the head
      have hwv : w = v := by
        rcases List.mem_cons.mp hm with h | h
        · exact h
        · exact absurd (hv ▸ List.mem_map_of_mem io_watch.ptr h) hn.1
      subst hwv
      have hrest : ∀ u ∈ rest, quiet_io env u.func u.channel u.user_data := by
        intro u hu
        apply hq u (List.mem_cons_of_mem _ hu)
        intro he
        exact hn.1 (he ▸ List.mem_map_of_mem io_watch.ptr hu)
      have hR := hself (ufds_revents ufds w.revents)
        (X.log (Event.io_func w.ptr w.func w.channel (ufds_revents ufds w.revents) w.user_data))
      rw [g_source_remove_head _ w rest (by rw [world_log_context]; exact hl)] at hR
      simp only at hR
      have hk : ∀ x ∈ (env.io_func w.func w.channel (ufds_revents ufds w.revents) w.user_data
          (X.log (Event.io_func w.ptr w.func w.channel (ufds_revents ufds w.revents)
            w.user_data))).2.context.io_watches,
          x.ptr % 4294967296 ≠ w.ptr % 4294967296 := by
        rw [hR, watch_free_context]
        intro x hx he
        exact hn.1 (hfarr x hx he ▸ List.mem_map_of_mem io_watch.ptr hx)
      have hrel : (env.io_func w.func w.channel (ufds_revents ufds w.revents) w.user_data
          (X.log (Event.io_func w.ptr w.func w.channel (ufds_revents ufds w.revents)
            w.user_data))).2.context.released = X.context.released := by
        rw [hR, watch_free_context]
        rfl
      rw [io_dispatch_loop_removed env ufds _ X w rest hl hready hk hrel, hR]
      obtain ⟨X', h1, h2, h3, h5, h4⟩ := io_dispatch_loop_quiet env ufds w.ptr rest
        (watch_free { X.log (Event.io_func w.ptr w.func w.channel (ufds_revents ufds w.revents)
          w.user_data) with context := { X.context with io_watches := rest } } w) k
        (by rw [watch_free_context]) hrest
      refine ⟨X', h1, h2, ?_, ?_, ?_⟩
      pick_goal 2
      · rw [watch_free_context] at h5
        simp only [List.length_cons] at h5 ⊢
        omega
      · intro u hu
        rcases h3 u hu with h | h
        · left; rw [watch_free_context] at h; exact h
        · right
          refine ⟨List.mem_cons_of_mem _ h, ?_⟩
          intro he
          exact hn.1 (he ▸ List.mem_map_of_mem io_watch.ptr h)
      · rw [h4 hn.1, watch_free_watch_trace, if_pos rfl]
        simp only [world_log_trace, watch_trace_append]
        simp [watch_trace, Event.watch]
    · -- another watch is at the head
      have hmr : w ∈ rest := by
        rcases List.mem_cons.mp hm with h | h
        · exact absurd (h ▸ rfl) hv
        · exact h
      have hqr : ∀ u ∈ rest, u.ptr ≠ w.ptr → quiet_io env u.func u.channel u.user_data :=
        fun u hu => hq u (List.mem_cons_of_mem _ hu)
      by_cases hr : ufds_revents ufds v.revents = 0
      · rw [io_dispatch_loop_not_ready env ufds _ X v rest hl hr]
        obtain ⟨X', h1, h2, h3, h5, h4⟩ := ih
          { X with context := { X.context with
              io_watches := rest,
              proc_io_watches := watch_list_add X.context.proc_io_watches v } } k rfl hn.2 hmr
          hfarr hqr
        refine ⟨X', h1, h2, ?_, ?_, h4⟩
        pick_goal 2
        · simp only [length_watch_list_add, List.length_cons] at h5 ⊢; omega
        intro u hu
        rcases h3 u hu with h | h
        · rcases (mem_watch_list_add _ _ _).mp h with h | h
          · right; rw [h]; exact ⟨List.mem_cons_self _ _, hv⟩
          · left; exact h
        · right; exact ⟨List.mem_cons_of_mem _ h.1, h.2⟩
      · have hqv := hq v (List.mem_cons_self _ _) hv (ufds_revents ufds v.revents)
          (X.log (Event.io_func v.ptr v.func v.channel (ufds_revents ufds v.revents)
            v.user_data))
        have hk : (env.io_func v.func v.channel (ufds_revents ufds v.revents) v.user_data
            (X.log (Event.io_func v.ptr v.func v.channel (ufds_revents ufds v.revents)
              v.user_data))).2.context.io_watches = v :: rest := by
          rw [hqv.1, world_log_context, hl]
        rw [io_dispatch_loop_ready env ufds _ X v rest hl hr hk
        (by rw [hqv.1, world_log_context])]
        have hc := hqv.1
        have ht := quiet_step_watch_trace _ _ hqv w.ptr
        rw [world_log_context] at hc
        rw [world_log_trace, watch_trace_append] at ht
        have hcall : watch_trace w.ptr [Event.io_func v.ptr v.func v.channel
            (ufds_revents ufds v.revents) v.user_data] = [] := by
          simp [watch_trace, Event.watch, hv]
        rw [hcall, List.append_nil] at ht
        clear hqv hk
        generalize env.io_func v.func v.channel (ufds_revents ufds v.revents) v.user_data
            (X.log (Event.io_func v.ptr v.func v.channel (ufds_revents ufds v.revents)
              v.user_data)) = R at hc ht ⊢
        cases hret : R.1
        · simp only [hret, Bool.false_eq_true, if_false]
          obtain ⟨X', h1, h2, h3, h5, h4⟩ := ih
            (watch_free { R.2 with context := { R.2.context with io_watches := rest } } v) k
            (by rw [watch_free_context]) hn.2 hmr hfarr hqr
          refine ⟨X', h1, h2, ?_, ?_, ?_⟩
          pick_goal 2
          · rw [watch_free_context] at h5
            simp only [List.length_cons] at h5 ⊢
            rw [hc] at h5; omega
          · intro u hu
            rcases h3 u hu with h | h
            · left
              rw [watch_free_context] at h
              simp only at h
              rw [hc] at h
              exact h
            · right; exact ⟨List.mem_cons_of_mem _ h.1, h.2⟩
          · rw [h4, watch_free_watch_trace, if_neg hv, List.append_nil]
            simp only
            rw [ht]
        · simp only [hret, if_true]
          obtain ⟨X', h1, h2, h3, h5, h4⟩ := ih
            { R.2 with context := { R.2.context with
                 io_watches := rest,
                 proc_io_watches := watch_list_add R.2.context.proc_io_watches v } } k rfl
            hn.2 hmr hfarr hqr
          refine ⟨X', h1, h2, ?_, ?_, ?_⟩
          pick_goal 2
          · simp only [length_watch_list_add, List.length_cons] at h5 ⊢
            rw [hc] at h5; omega
          · intro u hu
            rcases h3 u hu with h | h
            · simp only at h
              rcases (mem_watch_list_add _ _ _).mp h with h | h
              · right; rw [h]; exact ⟨List.mem_cons_self _ _, hv⟩
              · left; rw [hc] at h; exact h
            · right; exact ⟨List.mem_cons_of_mem _ h.1, h.2⟩
          · rw [h4]
            simp only
            rw [ht]

/-- Building the poll set keeps the watches and changes nothing but their slots. -/
theorem poll_setup_fst (channels : Nat → Option GIOChannel) (l : List io_watch) :
    ∀ n, (poll_setup channels l n).1.length = l.length ∧
      ∀ v ∈ (poll_setup channels l n).1, ∃ u ∈ l, ∃ s, v = { u with revents := s } := by
  induction l with
  | nil => intro n; simp [poll_setup]
  | cons x l ih =>
    intro n
    obtain ⟨h1, h2⟩ := ih (n + 1)
    simp only [poll_setup, List.length_cons, h1, List.mem_cons, true_and]
    intro v hv
    rcases hv with hv | hv
    · exact ⟨x, Or.inl rfl, n, hv⟩
    · obtain ⟨u, hu, s, hs⟩ := h2 v hv
      exact ⟨u, Or.inr hu, s, hs⟩

/-- The function `timeout_handlers_prepare` leaves the watch lists and the trace alone. -/
theorem timeout_handlers_prepare_frame (W : World) :
    (timeout_handlers_prepare W).context.io_watches = W.context.io_watches ∧
    (timeout_handlers_prepare W).context.proc_io_watches = W.context.proc_io_watches ∧
    (timeout_handlers_prepare W).trace = W.trace :=
  ⟨rfl, rfl, rfl⟩

/-- The first part of the loop body changes the watches only by pointing them at their
slots. -/
theorem poll_phase_frame (p : PollOutcome) (W : World) :
    (poll_phase p W).1.context.io_watches = (poll_setup W.channels W.context.io_watches 0).1 ∧
    (poll_phase p W).1.context.proc_io_watches = W.context.proc_io_watches ∧
    (poll_phase p W).1.trace = W.trace :=
  ⟨rfl, rfl, rfl⟩

/-- The dispatch cycle is the dispatch loop under `io_lock` followed by the swap of the
lists. -/
theorem io_dispatch_some (env : Callbacks) (ufds : List pollfd) (fuel : Nat) (W X : World)
    (h : io_dispatch_loop env ufds fuel
      { W with context := { W.context with io_lock := true } } = some X) :
    io_dispatch env ufds fuel W = some { X with context := { X.context with
      io_watches := X.context.proc_io_watches, proc_io_watches := [], io_lock := false } } := by
  unfold io_dispatch
  rw [h]

/-- Any number of dispatch cycles over watches with quiet callbacks, none of them at the
address of `w`, do nothing about `w`. -/
theorem watch_dispatch_cycles_quiet (env : Callbacks) (w : io_watch) (L : List io_watch)
    (N : Nat)
    (hq : ∀ v ∈ L, v.ptr ≠ w.ptr → quiet_io env v.func v.channel v.user_data)
    (polls : List PollOutcome) :
    ∀ (Y : World) (k : Nat), Y.context.proc_io_watches = [] →
      (∀ v ∈ Y.context.io_watches, ∃ u ∈ L, u.ptr ≠ w.ptr ∧ ∃ s, v = { u with revents := s }) →
      Y.context.io_watches.length ≤ N →
      ∃ Y', watch_dispatch_cycles env (N + 1 + k) polls Y = some Y' ∧
        watch_trace w.ptr Y'.trace = watch_trace w.ptr Y.trace ∧
        w.ptr ∉ Y'.context.io_watches.map io_watch.ptr ∧
        Y'.context.proc_io_watches = [] := by
  induction polls with
  | nil =>
    intro Y k hp hm _
    refine ⟨Y, rfl, rfl, ?_, hp⟩
    intro hmem
    obtain ⟨v, hv, hptr⟩ := List.mem_map.mp hmem
    obtain ⟨u, _, hne, s, hs⟩ := hm v hv
    rw [hs] at hptr
    exact hne hptr
  | cons p ps ih =>
    intro Y k hp hm hlen
    obtain ⟨f1, f2, f3⟩ := poll_phase_frame p Y
    obtain ⟨s1, s2⟩ := poll_setup_fst Y.channels Y.context.io_watches 0
    have hm1 : ∀ v ∈ (poll_phase p Y).1.context.io_watches,
        ∃ u ∈ L, u.ptr ≠ w.ptr ∧ ∃ s, v = { u with revents := s } := by
      intro v hv
      rw [f1] at hv
      obtain ⟨u, hu, s, hs⟩ := s2 v hv
      obtain ⟨u0, hu0, hne, s0, hs0⟩ := hm u hu
      exact ⟨u0, hu0, hne, s, by rw [hs, hs0]⟩
    have hquiet : ∀ v ∈ (poll_phase p Y).1.context.io_watches,
        quiet_io env v.func v.channel v.user_data := by
      intro v hv
      obtain ⟨u, hu, hne, s, hs⟩ := hm1 v hv
      rw [hs]
      exact hq u hu hne
    have hptr : w.ptr ∉ (poll_phase p Y).1.context.io_watches.map io_watch.ptr := by
      intro hmem
      obtain ⟨v, hv, hpv⟩ := List.mem_map.mp hmem
      obtain ⟨u, _, hne, s, hs⟩ := hm1 v hv
      rw [hs] at hpv
      exact hne hpv
    have hlen1 : (poll_phase p Y).1.context.io_watches.length ≤ N := by
      rw [f1, s1]; exact hlen
    obtain ⟨X, h1, h2, h3, h4, h5⟩ := io_dispatch_loop_quiet env (poll_phase p Y).2 w.ptr
      (poll_phase p Y).1.context.io_watches
      { (poll_phase p Y).1 with context := { (poll_phase p Y).1.context with io_lock := true } }
      (N + k - (poll_phase p Y).1.context.io_watches.length) rfl hquiet
    have hfuel : (poll_phase p Y).1.context.io_watches.length + 1 +
        (N + k - (poll_phase p Y).1.context.io_watches.length) = N + 1 + k := by omega
    rw [hfuel] at h1
    have hcyc := io_dispatch_some env (poll_phase p Y).2 (N + 1 + k) (poll_phase p Y).1 X h1
    have hproc : ∀ v ∈ X.context.proc_io_watches,
        v ∈ (poll_phase p Y).1.context.io_watches := by
      intro v hv
      rcases h3 v hv with h | h
      · simp only [f2, hp] at h
        simp at h
      · exact h
    obtain ⟨Y', i1, i2, i3, i4⟩ := ih
      { X with context := { X.context with
          io_watches := X.context.proc_io_watches, proc_io_watches := [], io_lock := false } }
      k rfl (fun v hv => hm1 v (hproc v hv))
      (by
        have := h4
        simp only [f2, hp, List.length_nil, Nat.zero_add] at this
        exact le_trans this hlen1)
    refine ⟨Y', ?_, ?_, i3, i4⟩
    · simp only [watch_dispatch_cycles, watch_dispatch_cycle, hcyc]
      exact i1
    · rw [i2]
      simp only
      rw [h5 hptr]
      exact congrArg (watch_trace w.ptr) f3

/-- The part of the property of self-removal that holds: in every watch dispatch cycle,
started with an empty pending list and no object twice in the active list, in which no other
watch of the active list stands at an address that agrees with the address of the ready
watch `w` in the low 32 bits, the callback of `w` calls `g_source_remove` on the id of `w`
(whatever it then returns) and the callbacks of the other watches neither add nor remove a
source, the cycle ends, the events about `w` are exactly the one call of its callback
followed by one run of its destructor (when it has one), one release of its channel
reference and the release of the object, `w` is in neither the active nor the pending list
afterwards, and no later cycle does anything about `w`: its callback is not invoked
again. -/
theorem io_dispatch_self_removal (env : Callbacks) (ufds : List pollfd) (W : World) (w : io_watch) (k : Nat)
    (hp : W.context.proc_io_watches = [])
    (hn : (W.context.io_watches.map io_watch.ptr).Nodup)
    (hm : w ∈ W.context.io_watches)
    (hfar : ∀ v ∈ W.context.io_watches,
      v.ptr % 4294967296 = w.ptr % 4294967296 → v.ptr = w.ptr)
    (hready : ufds_revents ufds w.revents ≠ 0)
    (hself : removes_itself env w)
    (hq : ∀ v ∈ W.context.io_watches, v.ptr ≠ w.ptr →
      quiet_io env v.func v.channel v.user_data) :
    ∃ W', io_dispatch env ufds (W.context.io_watches.length + 1 + k) W = some W' ∧
      watch_trace w.ptr W'.trace =
        watch_trace w.ptr W.trace ++
          Event.io_func w.ptr w.func w.channel (ufds_revents ufds w.revents) w.user_data ::
            watch_free_events w ∧
      w.ptr ∉ W'.context.io_watches.map io_watch.ptr ∧
      W'.context.proc_io_watches = [] ∧
      ∀ polls, ∃ W'',
        watch_dispatch_cycles env (W.context.io_watches.length + 1 + k) polls W' = some W'' ∧
        watch_trace w.ptr W''.trace = watch_trace w.ptr W'.trace ∧
        w.ptr ∉ W''.context.io_watches.map io_watch.ptr ∧
        W''.context.proc_io_watches = [] := by
  obtain ⟨X, h1, _, h3, h5, h4⟩ := io_dispatch_loop_self_removal env ufds w hready hself
    W.context.io_watches
    { W with context := { W.context with io_lock := true } } k rfl hn hm hfar hq
  have hcyc := io_dispatch_some env ufds _ W X h1
  have hproc : ∀ v ∈ X.context.proc_io_watches, v ∈ W.context.io_watches ∧ v.ptr ≠ w.ptr := by
    intro v hv
    rcases h3 v hv with h | h
    · simp only [hp] at h
      simp at h
    · exact h
  refine ⟨_, hcyc, h4, ?_, rfl, ?_⟩
  · intro hmem
    obtain ⟨v, hv, hpv⟩ := List.mem_map.mp hmem
    exact (hproc v hv).2 hpv
  · intro polls
    exact watch_dispatch_cycles_quiet env w W.context.io_watches W.context.io_watches.length
      hq polls _ k rfl
      (fun v hv => ⟨v, (hproc v hv).1, (hproc v hv).2, v.revents, rfl⟩)
      (by
        have := h5
        simp only [hp, List.length_nil, Nat.zero_add] at this
        exact this)

/-- Self-removal at a concrete input: the watch at address 3 (id 1) removes itself from its
callback while the watch at address 4 is quiet. -/
theorem io_dispatch_self_removal_witness :
    ∃ W', io_dispatch self_removing_callbacks [⟨7, 1, 1⟩, ⟨7, 1, 1⟩] 3 two_watches_polled =
        some W' ∧
      watch_trace 3 W'.trace =
        [Event.io_func 3 100 2 1 10, Event.destroy 3 500 10, Event.unref 3 2,
         Event.free_watch 3] ∧
      3 ∉ W'.context.io_watches.map io_watch.ptr ∧
      W'.context.proc_io_watches = [] ∧
      ∀ polls, ∃ W'',
        watch_dispatch_cycles self_removing_callbacks 3 polls W' = some W'' ∧
        watch_trace 3 W''.trace = watch_trace 3 W'.trace ∧
        3 ∉ W''.context.io_watches.map io_watch.ptr ∧
        W''.context.proc_io_watches = [] :=
  io_dispatch_self_removal self_removing_callbacks [⟨7, 1, 1⟩, ⟨7, 1, 1⟩] two_watches_polled
    ⟨3, 1, 2, 0, 1, 0, 100, 10, some 500⟩ 0 rfl (by decide) (by decide) (by decide)
    (by decide) (fun _ _ => rfl)
    (by
      intro v hv hne
      have hv2 : v = ⟨3, 1, 2, 0, 1, 0, 100, 10, some 500⟩ ∨
          v = ⟨4, 2, 2, 1, 1, 1, 101, 11, none⟩ := by
        have : two_watches_polled.context.io_watches =
            [⟨3, 1, 2, 0, 1, 0, 100, 10, some 500⟩, ⟨4, 2, 2, 1, 1, 1, 101, 11, none⟩] := by
          decide
        rw [this] at hv
        simpa using hv
      rcases hv2 with h | h
      · exact absurd (by rw [h]) hne
      · rw [h]
        intro rev X
        exact ⟨rfl, [], (List.append_nil _).symm, by simp⟩)

/-! ### Timer dispatch -/

/-- One pass of the timer loop over a timer that the start time is before the expiration
of: the timer moves to the pending list as it is. -/
theorem timeout_handlers_check_loop_not_due (env : Callbacks) (tv : timeval) (n : Nat)
    (X : World) (t : timeout) (rest : List timeout)
    (hl : X.context.timeouts = t :: rest) (hd : timercmp_lt tv t.expiration = true) :
    timeout_handlers_check_loop env tv (n + 1) X =
      timeout_handlers_check_loop env tv n
        { X with context := { X.context with
            timeouts := rest,
            proc_timeouts := X.context.proc_timeouts ++ [t] } } := by
  rw [timeout_handlers_check_loop]
  simp only [hl, hd, if_true, g_slist_remove_head, g_slist_append]

/-- One pass of the timer loop over an expired timer whose callback left the active list as
it was: the timer is unlinked, and released when the callback returned stop, re-armed from
the start time and moved to the pending list otherwise. -/
theorem timeout_handlers_check_loop_due (env : Callbacks) (tv : timeval) (n : Nat)
    (X : World) (t : timeout) (rest : List timeout)
    (hl : X.context.timeouts = t :: rest) (hd : timercmp_lt tv t.expiration = false)
    (hk : (env.source_func t.function t.data
      (X.log (Event.source_func t.ptr t.function t.data X.now))).2.context.timeouts =
        t :: rest)
    (hrel : (env.source_func t.function t.data
      (X.log (Event.source_func t.ptr t.function t.data X.now))).2.context.released =
        X.context.released) :
    timeout_handlers_check_loop env tv (n + 1) X =
      timeout_handlers_check_loop env tv n
        (let r := env.source_func t.function t.data
            (X.log (Event.source_func t.ptr t.function t.data X.now))
         if r.1 then
           { r.2 with context := { r.2.context with
               timeouts := rest,
               proc_timeouts := r.2.context.proc_timeouts ++
                 [{ t with expiration := expiration_after tv t.interval }] } }
         else World.log { r.2 with context := { r.2.context with timeouts := rest } }
           (Event.free_timeout t.ptr)) := by
  rw [timeout_handlers_check_loop]
  simp only [hl, hd, Bool.false_eq_true, if_false, hk, context_released_of_eq _ _ hrel,
    g_slist_find_custom_head, g_slist_remove_head, g_slist_append]
  cases h : (env.source_func t.function t.data
      (X.log (Event.source_func t.ptr t.function t.data X.now))).1 <;> simp

/-- What was done about a timer stays true when another timer joins the list. -/
theorem timer_outcome_cons (P : timeval → Prop) (tv : timeval) (t x : timeout)
    (before after : List Event) (timeouts : List timeout) (hne : t.ptr ≠ x.ptr)
    (h : timer_outcome P tv t before after timeouts) :
    timer_outcome P tv t before after (x :: timeouts) := by
  unfold timer_outcome at h ⊢
  split
  · rename_i hd
    rw [if_pos hd] at h
    exact ⟨h.1, List.mem_cons_of_mem _ h.2⟩
  · rename_i hd
    rw [if_neg hd] at h
    obtain ⟨fired, hP, h⟩ := h
    refine ⟨fired, hP, ?_⟩
    rcases h with h | h
    · left; exact ⟨h.1, List.mem_cons_of_mem _ h.2⟩
    · right
      refine ⟨h.1, ?_⟩
      simp only [List.map_cons, List.mem_cons, not_or]
      exact ⟨hne, h.2⟩

/-- The timer loop over timers with quiet callbacks ends with an empty active list, appends
to the pending list at most one entry for each timer, does nothing about a timer that is
not in the active list, and treats each timer of the active list as `timer_outcome` says. -/
theorem timeout_handlers_check_loop_quiet (env : Callbacks) (tv : timeval)
    (P : timeval → Prop) (cur : List timeout) :
    ∀ (X : World) (k : Nat), X.context.timeouts = cur →
      (cur.map timeout.ptr).Nodup →
      (∀ t ∈ cur, quiet_source env t.function t.data) →
      P X.now →
      (∀ t ∈ cur, ∀ Y : World, P Y.now → P (env.source_func t.function t.data Y).2.now) →
      ∃ X' tail, timeout_handlers_check_loop env tv (cur.length + 1 + k) X = some X' ∧
        X'.context.timeouts = [] ∧
        X'.context.proc_timeouts = X.context.proc_timeouts ++ tail ∧
        tail.length ≤ cur.length ∧
        (∀ u ∈ tail, u.ptr ∈ cur.map timeout.ptr) ∧
        (∀ p, p ∉ cur.map timeout.ptr → timer_trace p X'.trace = timer_trace p X.trace) ∧
        (∀ t ∈ cur, timer_outcome P tv t (timer_trace t.ptr X.trace)
          (timer_trace t.ptr X'.trace) tail) := by
  induction cur with
  | nil =>
    intro X k hl _ _ _ _
    refine ⟨X, [], ?_, hl, by simp, by simp, by simp, fun _ _ => rfl, by simp⟩
    rw [show ([] : List timeout).length + 1 + k = k + 1 by simp; omega,
      timeout_handlers_check_loop]
    simp [hl]
  | cons t rest ih =>
    intro X k hl hn hq hP hPs
    have hf : (t :: rest).length + 1 + k = (rest.length + 1 + k) + 1 := by
      simp only [List.length_cons]; omega
    have hqr : ∀ u ∈ rest, quiet_source env u.function u.data :=
      fun u hu => hq u (List.mem_cons_of_mem _ hu)
    have hPr : ∀ u ∈ rest, ∀ Y : World, P Y.now →
        P (env.source_func u.function u.data Y).2.now :=
      fun u hu => hPs u (List.mem_cons_of_mem _ hu)
    simp only [List.map_cons, List.nodup_cons] at hn
    have hne : ∀ u ∈ rest, u.ptr ≠ t.ptr := by
      intro u hu he
      exact hn.1 (he ▸ List.mem_map_of_mem timeout.ptr hu)
    rw [hf]
    cases hd : timercmp_lt tv t.expiration
    · -- due: the callback is called
      have hqt := hq t (List.mem_cons_self _ _)
        (X.log (Event.source_func t.ptr t.function t.data X.now))
      have hk : (env.source_func t.function t.data
          (X.log (Event.source_func t.ptr t.function t.data X.now))).2.context.timeouts =
            t :: rest := by
        rw [hqt.1, world_log_context, hl]
      rw [timeout_handlers_check_loop_due env tv _ X t rest hl hd hk
        (by rw [hqt.1, world_log_context])]
      have hc := hqt.1
      have ht := fun p => quiet_step_timer_trace _ _ hqt p
      have hPR := hPs t (List.mem_cons_self _ _)
        (X.log (Event.source_func t.ptr t.function t.data X.now)) hP
      rw [world_log_context] at hc
      simp only [world_log_trace, timer_trace_append] at ht
      clear hqt hk
      generalize env.source_func t.function t.data
          (X.log (Event.source_func t.ptr t.function t.data X.now)) = R at hc ht hPR ⊢
      have hcall : ∀ p, p ≠ t.ptr →
          timer_trace p [Event.source_func t.ptr t.function t.data X.now] = [] := by
        intro p hp
        have hne' : ¬ t.ptr = p := fun h => hp h.symm
        simp [timer_trace, Event.timer, hne']
      have hown : timer_trace t.ptr [Event.source_func t.ptr t.function t.data X.now] =
          [Event.source_func t.ptr t.function t.data X.now] := by
        simp [timer_trace, Event.timer]
      cases hret : R.1
      · -- the callback returned stop
        simp only [hret, Bool.false_eq_true, if_false]
        obtain ⟨X', tail, h1, h2, h3, h4, h5, h6, h7⟩ := ih
          (World.log { R.2 with context := { R.2.context with timeouts := rest } }
            (Event.free_timeout t.ptr)) k rfl hn.2 hqr hPR hPr
        refine ⟨X', tail, h1, h2, ?_, ?_, ?_, ?_, ?_⟩
        · rw [h3]; simp only [world_log_context]; rw [hc]
        · simp only [List.length_cons]; omega
        · intro u hu
          exact List.mem_cons_of_mem _ (h5 u hu)
        · intro p hp
          simp only [List.map_cons, List.mem_cons, not_or] at hp
          rw [h6 p hp.2]
          simp only [world_log_trace, timer_trace_append]
          rw [ht p, hcall p hp.1]
          have hne' : ¬ t.ptr = p := fun h => hp.1 h.symm
          simp [timer_trace, Event.timer, hne']
        · intro u hu
          rcases List.mem_cons.mp hu with rfl | hu
          · unfold timer_outcome
            rw [if_neg (by rw [hd]; simp)]
            refine ⟨X.now, hP, Or.inr ⟨?_, ?_⟩⟩
            · rw [h6 u.ptr hn.1]
              simp only [world_log_trace, timer_trace_append]
              rw [ht u.ptr, hown]
              simp [timer_trace, Event.timer]
            · intro hm
              obtain ⟨v, hv, hpv⟩ := List.mem_map.mp hm
              exact hn.1 (hpv ▸ h5 v hv)
          · have := h7 u hu
            simp only [world_log_trace, timer_trace_append] at this
            rw [ht u.ptr, hcall u.ptr (hne u hu)] at this
            have hne' : ¬ t.ptr = u.ptr := fun h => hne u hu h.symm
            simpa [timer_trace, Event.timer, hne'] using this
      · -- the callback returned continue
        simp only [hret, if_true]
        obtain ⟨X', tail, h1, h2, h3, h4, h5, h6, h7⟩ := ih
          { R.2 with context := { R.2.context with
               timeouts := rest,
               proc_timeouts := R.2.context.proc_timeouts ++
                 [{ t with expiration := expiration_after tv t.interval }] } }
          k rfl hn.2 hqr hPR hPr
        refine ⟨X', { t with expiration := expiration_after tv t.interval } :: tail, h1, h2,
          ?_, ?_, ?_, ?_, ?_⟩
        · rw [h3]; simp only [List.append_assoc, List.singleton_append]; rw [hc]
        · simp only [List.length_cons]; omega
        · intro u hu
          rcases List.mem_cons.mp hu with rfl | hu
          · exact List.mem_cons_self _ _
          · exact List.mem_cons_of_mem _ (h5 u hu)
        · intro p hp
          simp only [List.map_cons, List.mem_cons, not_or] at hp
          rw [h6 p hp.2]
          simp only
          rw [ht p, hcall p hp.1, List.append_nil]
        · intro u hu
          rcases List.mem_cons.mp hu with rfl | hu
          · unfold timer_outcome
            rw [if_neg (by rw [hd]; simp)]
            refine ⟨X.now, hP, Or.inl ⟨?_, List.mem_cons_self _ _⟩⟩
            rw [h6 u.ptr hn.1]
            simp only
            rw [ht u.ptr, hown]
          · refine timer_outcome_cons P tv u
              { t with expiration := expiration_after tv t.interval } _ _ tail (hne u hu) ?_
            have := h7 u hu
            simp only at this
            rw [ht u.ptr, hcall u.ptr (hne u hu), List.append_nil] at this
            exact this
    · -- not due: the timer is moved to the pending list as it is
      rw [timeout_handlers_check_loop_not_due env tv _ X t rest hl hd]
      obtain ⟨X', tail, h1, h2, h3, h4, h5, h6, h7⟩ := ih
        { X with context := { X.context with
            timeouts := rest,
            proc_timeouts := X.context.proc_timeouts ++ [t] } } k rfl hn.2 hqr hP hPr
      refine ⟨X', t :: tail, h1, h2, ?_, ?_, ?_, ?_, ?_⟩
      · rw [h3]; simp only [List.append_assoc, List.singleton_append]
      · simp only [List.length_cons]; omega
      · intro u hu
        rcases List.mem_cons.mp hu with rfl | hu
        · exact List.mem_cons_self _ _
        · exact List.mem_cons_of_mem _ (h5 u hu)
      · intro p hp
        simp only [List.map_cons, List.mem_cons, not_or] at hp
        exact h6 p hp.2
      · intro u hu
        rcases List.mem_cons.mp hu with rfl | hu
        · unfold timer_outcome
          rw [if_pos hd]
          exact ⟨h6 u.ptr hn.1, List.mem_cons_self _ _⟩
        · exact timer_outcome_cons _ _ _ _ _ _ _ (hne u hu) (h7 u hu)

/-- The expiration computed from a time and an interval is that time plus the interval,
exactly. -/
theorem expiration_after_usec (tv : timeval) (interval : Nat) :
    (expiration_after tv interval).usec = tv.usec + 1000 * interval := by
  unfold expiration_after timeval.usec
  simp only
  split <;> (simp only; push_cast; omega)

/-- The expiration computed from a normal time is normal. -/
theorem expiration_after_normal (tv : timeval) (interval : Nat) (h : tv.normal) :
    (expiration_after tv interval).normal := by
  unfold timeval.normal at h ⊢
  unfold expiration_after
  simp only
  split
  · rename_i hc
    simp only at hc ⊢
    push_cast at hc ⊢
    omega
  · rename_i hc
    simp only at hc ⊢
    push_cast at hc ⊢
    omega

/-- Doing nothing is a quiet step. -/
theorem quiet_step_refl (X : World) : quiet_step X X :=
  ⟨rfl, [], (List.append_nil _).symm, by simp⟩

/-- The difference of two small priorities fits a `gint`. -/
theorem wrap_gint_small (p q : Int) (hp : small_priority p) (hq : small_priority q) :
    wrap_gint (p - q) = p - q := by
  unfold small_priority at hp hq
  unfold wrap_gint
  omega

/-- The macro `watch_list_add` keeps a list of watches with small priorities in ascending priority
order. -/
theorem watch_list_add_sorted (l : List io_watch) (w : io_watch)
    (hs : l.Pairwise (fun a b => a.priority ≤ b.priority))
    (hb : ∀ x ∈ l, small_priority x.priority) (hw : small_priority w.priority) :
    (watch_list_add l w).Pairwise (fun a b => a.priority ≤ b.priority) := by
  obtain ⟨pre, post, h1, h2, h3, h4⟩ := g_slist_insert_sorted_split l w watch_prio_cmp
  unfold watch_list_add
  rw [h2]
  rw [h1] at hs hb
  rw [List.pairwise_append] at hs
  obtain ⟨s1, s2, s3⟩ := hs
  have hpre : ∀ x ∈ pre, x.priority ≤ w.priority := by
    intro x hx
    have := h3 x hx
    unfold watch_prio_cmp at this
    rw [wrap_gint_small _ _ hw (hb x (List.mem_append_left _ hx))] at this
    omega
  have hpost : ∀ x ∈ post, w.priority ≤ x.priority := by
    intro x hx
    cases post with
    | nil => simp at hx
    | cons y ys =>
      have hy := h4 y rfl
      unfold watch_prio_cmp at hy
      rw [wrap_gint_small _ _ hw (hb y (List.mem_append_right _ (List.mem_cons_self _ _)))] at hy
      rcases List.mem_cons.mp hx with rfl | hx
      · omega
      · have := (List.pairwise_cons.mp s2).1 x hx
        omega
  rw [List.pairwise_append]
  refine ⟨s1, List.pairwise_cons.mpr ⟨hpost, s2⟩, ?_⟩
  intro a ha b hb'
  rcases List.mem_cons.mp hb' with rfl | hb'
  · exact hpre a ha
  · exact s3 a ha b hb'

/-- Outside a dispatch cycle `g_io_add_watch_full` adds the new watch to the active list
with `watch_list_add` and leaves the pending list and the guard alone. -/
theorem g_io_add_watch_full_lists (W : World) (a : WatchArgs)
    (hl : W.context.io_lock = false) :
    ∃ new : io_watch, new.priority = a.priority ∧
      (g_io_add_watch_full W a.channel a.priority a.condition a.func a.user_data
        a.notify).2.context.io_watches = watch_list_add W.context.io_watches new ∧
      (g_io_add_watch_full W a.channel a.priority a.condition a.func a.user_data
        a.notify).2.context.proc_io_watches = W.context.proc_io_watches ∧
      (g_io_add_watch_full W a.channel a.priority a.condition a.func a.user_data
        a.notify).2.context.io_lock = false := by
  have hctx := g_io_channel_ref_context { W with brk := W.brk + 1 } a.channel
  refine ⟨(⟨W.brk, W.context.next_id, a.channel, a.priority, a.condition, 0, a.func,
    a.user_data, a.notify⟩ : io_watch), rfl, ?_, ?_, ?_⟩
  · unfold g_io_add_watch_full
    simp only [hctx, hl, Bool.false_eq_true, if_false]
  · unfold g_io_add_watch_full
    simp only [hctx, hl, Bool.false_eq_true, if_false]
  · unfold g_io_add_watch_full
    simp only [hctx, hl, Bool.false_eq_true, if_false]

/-- Registering watches with small priorities outside a dispatch cycle keeps the active
list in ascending priority order. -/
theorem add_watches_sorted (regs : List WatchArgs) :
    ∀ W : World, W.context.io_lock = false →
      W.context.io_watches.Pairwise (fun a b => a.priority ≤ b.priority) →
      (∀ x ∈ W.context.io_watches, small_priority x.priority) →
      (∀ a ∈ regs, small_priority a.priority) →
      (add_watches W regs).context.io_watches.Pairwise (fun a b => a.priority ≤ b.priority) ∧
      (add_watches W regs).context.io_watches.length =
        W.context.io_watches.length + regs.length ∧
      (add_watches W regs).context.proc_io_watches = W.context.proc_io_watches := by
  induction regs with
  | nil => intro W _ hs _ _; exact ⟨hs, rfl, rfl⟩
  | cons a rest ih =>
    intro W hl hs hb hr
    obtain ⟨new, n1, n2, n3, n4⟩ := g_io_add_watch_full_lists W a hl
    have ha := hr a (List.mem_cons_self _ _)
    obtain ⟨i1, i2, i3⟩ := ih
      (g_io_add_watch_full W a.channel a.priority a.condition a.func a.user_data a.notify).2
      n4
      (by rw [n2]; exact watch_list_add_sorted _ _ hs hb (n1 ▸ ha))
      (by
        rw [n2]
        intro x hx
        rcases (mem_watch_list_add _ _ _).mp hx with h | h
        · rw [h, n1]; exact ha
        · exact hb x h)
      (fun b hb' => hr b (List.mem_cons_of_mem _ hb'))
    refine ⟨i1, ?_, ?_⟩
    · simp only [add_watches, i2, n2, length_watch_list_add, List.length_cons]; omega
    · simp only [add_watches, i3, n3]

/-- The calls shown by a concatenation. -/
theorem io_calls_append (a b : List Event) : io_calls (a ++ b) = io_calls a ++ io_calls b := by
  simp [io_calls]

/-- Events that are not about a watch show no call of a watch callback. -/
theorem io_calls_of_no_watch (ext : List Event) (h : ∀ e ∈ ext, e.watch = none) :
    io_calls ext = [] := by
  unfold io_calls
  rw [List.filterMap_eq_nil_iff]
  intro e he
  have := h e he
  cases e <;> simp_all [Event.watch]

/-- A quiet step shows no call of a watch callback. -/
theorem quiet_step_io_calls (X Y : World) (h : quiet_step X Y) :
    io_calls Y.trace = io_calls X.trace := by
  obtain ⟨_, ext, h1, h2⟩ := h
  rw [h1, io_calls_append, io_calls_of_no_watch ext (fun e he => (h2 e he).1), List.append_nil]

/-- The function `g_io_channel_unref` shows no call of a watch callback. -/
theorem g_io_channel_unref_io_calls (W : World) (c : Nat) :
    io_calls (g_io_channel_unref W c).trace = io_calls W.trace := by
  obtain ⟨ext, h1, h2⟩ := g_io_channel_unref_trace W c
  rw [h1, io_calls_append, io_calls_of_no_watch ext (fun e he => (h2 e he).1), List.append_nil]

/-- The function `watch_free` shows no call of a watch callback. -/
theorem watch_free_io_calls (W : World) (w : io_watch) :
    io_calls (watch_free W w).trace = io_calls W.trace := by
  unfold watch_free
  simp only [world_log_trace, io_calls_append, g_io_channel_unref_io_calls]
  cases w.destroy <;> simp [io_calls, World.log]

/-- The dispatch loop over ready watches with quiet callbacks calls the callbacks in the
order of the active list. -/
theorem io_dispatch_loop_call_order (env : Callbacks) (ufds : List pollfd)
    (cur : List io_watch) :
    ∀ (X : World) (k : Nat), X.context.io_watches = cur →
      (∀ v ∈ cur, quiet_io env v.func v.channel v.user_data) →
      (∀ v ∈ cur, ufds_revents ufds v.revents ≠ 0) →
      ∃ X', io_dispatch_loop env ufds (cur.length + 1 + k) X = some X' ∧
        io_calls X'.trace = io_calls X.trace ++ cur.map io_watch.ptr := by
  induction cur with
  | nil =>
    intro X k hl _ _
    refine ⟨X, ?_, by simp⟩
    rw [show ([] : List io_watch).length + 1 + k = k + 1 by simp; omega, io_dispatch_loop]
    simp [hl]
  | cons v rest ih =>
    intro X k hl hq hr
    have hf : (v :: rest).length + 1 + k = (rest.length + 1 + k) + 1 := by
      simp only [List.length_cons]; omega
    have hqr : ∀ u ∈ rest, quiet_io env u.func u.channel u.user_data :=
      fun u hu => hq u (List.mem_cons_of_mem _ hu)
    have hrr : ∀ u ∈ rest, ufds_revents ufds u.revents ≠ 0 :=
      fun u hu => hr u (List.mem_cons_of_mem _ hu)
    have hrv := hr v (List.mem_cons_self _ _)
    have hqv := hq v (List.mem_cons_self _ _) (ufds_revents ufds v.revents)
      (X.log (Event.io_func v.ptr v.func v.channel (ufds_revents ufds v.revents) v.user_data))
    have hk : (env.io_func v.func v.channel (ufds_revents ufds v.revents) v.user_data
        (X.log (Event.io_func v.ptr v.func v.channel (ufds_revents ufds v.revents)
          v.user_data))).2.context.io_watches = v :: rest := by
      rw [hqv.1, world_log_context, hl]
    rw [hf, io_dispatch_loop_ready env ufds _ X v rest hl hrv hk
      (by rw [hqv.1, world_log_context])]
    have ht := quiet_step_io_calls _ _ hqv
    rw [world_log_trace, io_calls_append] at ht
    have hcall : io_calls [Event.io_func v.ptr v.func v.channel
        (ufds_revents ufds v.revents) v.user_data] = [v.ptr] := by
      simp [io_calls]
    rw [hcall] at ht
    clear hqv hk
    generalize env.io_func v.func v.channel (ufds_revents ufds v.revents) v.user_data
        (X.log (Event.io_func v.ptr v.func v.channel (ufds_revents ufds v.revents)
          v.user_data)) = R at ht ⊢
    cases hret : R.1
    · simp only [hret, Bool.false_eq_true, if_false]
      obtain ⟨X', h1, h2⟩ := ih
        (watch_free { R.2 with context := { R.2.context with io_watches := rest } } v) k
        (by rw [watch_free_context]) hqr hrr
      refine ⟨X', h1, ?_⟩
      rw [h2, watch_free_io_calls]
      simp only
      rw [ht]
      simp
    · simp only [hret, if_true]
      obtain ⟨X', h1, h2⟩ := ih
        { R.2 with context := { R.2.context with
             io_watches := rest,
             proc_io_watches := watch_list_add R.2.context.proc_io_watches v } } k rfl hqr hrr
      refine ⟨X', h1, ?_⟩
      rw [h2]
      simp only
      rw [ht]
      simp

/-- Building the poll set keeps the addresses and the priorities of the watches. -/
theorem poll_setup_map_ptr (channels : Nat → Option GIOChannel) (l : List io_watch) :
    ∀ n, (poll_setup channels l n).1.map io_watch.ptr = l.map io_watch.ptr ∧
      (poll_setup channels l n).1.map io_watch.priority = l.map io_watch.priority := by
  induction l with
  | nil => intro n; simp [poll_setup]
  | cons x l ih =>
    intro n
    obtain ⟨h1, h2⟩ := ih (n + 1)
    simp [poll_setup, h1, h2]

/-- The part of C1 that holds: when watches with small priorities (in `[-2^30, 2^30)`) are
registered outside a dispatch cycle in a context without watches, then in one watch
dispatch cycle in which every watch is observed ready and no callback adds or removes a
source the cycle ends and the callbacks are invoked in the order of the active list, which
is in non-decreasing priority order. -/
theorem dispatch_order_small_priorities (env : Callbacks) (W0 : World)
    (regs : List WatchArgs) (p : PollOutcome) (k : Nat)
    (h0 : W0.context.io_watches = []) (hl : W0.context.io_lock = false)
    (hb : ∀ a ∈ regs, small_priority a.priority)
    (hq : ∀ v ∈ (add_watches W0 regs).context.io_watches,
      quiet_io env v.func v.channel v.user_data)
    (hready : ∀ v ∈ (poll_phase p (add_watches W0 regs)).1.context.io_watches,
      ufds_revents (poll_phase p (add_watches W0 regs)).2 v.revents ≠ 0) :
    ∃ W', watch_dispatch_cycle env p (regs.length + 1 + k) (add_watches W0 regs) = some W' ∧
      io_calls W'.trace =
        io_calls (add_watches W0 regs).trace ++
          (add_watches W0 regs).context.io_watches.map io_watch.ptr ∧
      (add_watches W0 regs).context.io_watches.Pairwise
        (fun a b => a.priority ≤ b.priority) := by
  obtain ⟨s1, s2, _⟩ := add_watches_sorted regs W0 hl (by rw [h0]; exact List.Pairwise.nil)
    (by rw [h0]; simp) hb
  rw [h0, List.length_nil, Nat.zero_add] at s2
  obtain ⟨f1, _, f3⟩ := poll_phase_frame p (add_watches W0 regs)
  obtain ⟨g1, g2⟩ := poll_setup_fst (add_watches W0 regs).channels
    (add_watches W0 regs).context.io_watches 0
  have hquiet : ∀ v ∈ (poll_phase p (add_watches W0 regs)).1.context.io_watches,
      quiet_io env v.func v.channel v.user_data := by
    intro v hv
    rw [f1] at hv
    obtain ⟨u, hu, s, hs⟩ := g2 v hv
    rw [hs]
    exact hq u hu
  have hlen : (poll_phase p (add_watches W0 regs)).1.context.io_watches.length =
      regs.length := by
    rw [f1, g1, s2]
  obtain ⟨X, h1, h2⟩ := io_dispatch_loop_call_order env (poll_phase p (add_watches W0 regs)).2
    (poll_phase p (add_watches W0 regs)).1.context.io_watches
    { (poll_phase p (add_watches W0 regs)).1 with context :=
        { (poll_phase p (add_watches W0 regs)).1.context with io_lock := true } }
    k rfl hquiet hready
  rw [hlen] at h1
  have hcyc := io_dispatch_some env _ _ _ X h1
  refine ⟨_, hcyc, ?_, s1⟩
  simp only
  rw [h2]
  simp only
  rw [f3, f1, (poll_setup_map_ptr _ _ 0).1]

/-! ### Child watch dispatch -/

/-- The events about child watches in a concatenation. -/
theorem child_events_append (a b : List Event) :
    child_events (a ++ b) = child_events a ++ child_events b := by
  simp [child_events]

/-- A quiet step adds no event about a child watch. -/
theorem quiet_step_child_events (X Y : World) (h : quiet_step X Y) :
    child_events Y.trace = child_events X.trace := by
  obtain ⟨_, ext, h1, h2⟩ := h
  rw [h1, child_events_append]
  have : child_events ext = [] := by
    unfold child_events
    rw [List.filter_eq_nil_iff]
    intro e he
    simp [(h2 e he).2.2]
  rw [this, List.append_nil]

/-- The macro `watch_list_add` on child watches adds the new entry and keeps the others. -/
theorem child_watch_list_add_perm (l : List child_watch) (w : child_watch) :
    (child_watch_list_add l w).Perm (w :: l) := by
  obtain ⟨pre, post, h1, h2, _, _⟩ := g_slist_insert_sorted_split l w child_watch_prio_cmp
  unfold child_watch_list_add
  rw [h2, h1]
  exact List.perm_middle

/-- The loop of `child_watch` over child watches with quiet callbacks ends when `waitpid`
has been called once for each watch: the active list is empty, the pending list has
received the watches that were not reaped, and the trace shows, in the order of the list,
one call and one release for each watch that was reaped. -/
theorem child_watch_loop_quiet (env : Callbacks) (cur : List child_watch) :
    ∀ (X : World) (waits : List WaitOutcome), X.context.child_watches = cur →
      (∀ w ∈ cur, quiet_child env w.function w.user_data) →
      cur.length ≤ waits.length →
      ∃ X', child_watch_loop env waits X = some X' ∧
        X'.context = { X.context with child_watches := [],
                                      proc_child_watches := X'.context.proc_child_watches } ∧
        X'.context.proc_child_watches.Perm
          (X.context.proc_child_watches ++ not_reaped cur waits) ∧
        child_events X'.trace = child_events X.trace ++
          (cur.zip waits).flatMap (fun x => reaped_events x.1 x.2) := by
  induction cur with
  | nil =>
    intro X waits hl _ _
    refine ⟨X, ?_, ?_, by simp [not_reaped], by simp⟩
    · cases waits <;> simp [child_watch_loop, hl]
    · rw [← hl]
  | cons w rest ih =>
    intro X waits hl hq hlen
    cases waits with
    | nil => simp at hlen
    | cons o ws =>
      have hlen' : rest.length ≤ ws.length := by simpa using hlen
      have hqr : ∀ u ∈ rest, quiet_child env u.function u.user_data :=
        fun u hu => hq u (List.mem_cons_of_mem _ hu)
      rw [child_watch_loop]
      simp only [hl]
      by_cases ho : o.ret ≤ 0
      · simp only [ho, if_true, g_slist_remove_head]
        obtain ⟨X', h1, h2, h3, h4⟩ := ih
          { X with context := { X.context with
              child_watches := rest,
              proc_child_watches := child_watch_list_add X.context.proc_child_watches w } }
          ws rfl hqr hlen'
        refine ⟨X', h1, ?_, ?_, ?_⟩
        · rw [h2]
        · refine h3.trans ?_
          simp only [not_reaped, List.zip_cons_cons, List.filter_cons, ho, decide_True,
            if_true, List.map_cons]
          refine ((child_watch_list_add_perm _ w).append_right _).trans ?_
          simp only [List.cons_append]
          exact List.perm_middle.symm
        · rw [h4]
          simp [reaped_events, ho]
      · simp only [ho, if_false]
        have hqw := hq w (List.mem_cons_self _ _) w.pid o.status
          (X.log (Event.child_func w.ptr w.function w.pid o.status w.user_data))
        have hc := hqw.1
        have ht := quiet_step_child_events _ _ hqw
        rw [world_log_context] at hc
        rw [world_log_trace, child_events_append] at ht
        clear hqw
        generalize env.child_func w.function w.pid o.status w.user_data
          (X.log (Event.child_func w.ptr w.function w.pid o.status w.user_data)) = R at hc ht ⊢
        have hfind : g_slist_find child_watch.ptr R.context.child_watches w.ptr = some w := by
          rw [hc, hl]
          simp [g_slist_find]
        have hrel : context_released X R = false :=
          context_released_of_eq X R (by rw [hc])
        simp only [hrel, Bool.false_eq_true, if_false, hfind]
        obtain ⟨X', h1, h2, h3, h4⟩ := ih
          (World.log { R with context := { R.context with
              child_watches := g_slist_remove child_watch.ptr R.context.child_watches w.ptr } }
            (Event.free_child_watch w.ptr))
          ws (by rw [world_log_context]; simp only; rw [hc, hl, g_slist_remove_head]) hqr hlen'
        refine ⟨X', h1, ?_, ?_, ?_⟩
        · rw [h2, world_log_context]
          simp only [hc]
        · refine h3.trans ?_
          rw [world_log_context]
          simp only [hc, not_reaped, List.zip_cons_cons, List.filter_cons, ho, decide_False]
          exact List.Perm.refl _
        · rw [h4, world_log_trace, child_events_append]
          simp only
          rw [ht]
          simp [reaped_events, ho, child_events, Event.child]

/-- C11: for every list of tracked child watches whose callbacks neither add nor remove a
source and every list of outcomes of `waitpid` (one for each watch, in the order of the
active list), one run of `child_watch` ends and returns TRUE; the trace shows, in the order
of the list, for each watch whose `waitpid` delivered a positive result exactly one call of
its callback, with the pid of the watch (the pid `waitpid` was asked about) and the status
`waitpid` delivered, followed by the release of the watch, and nothing about any other
child watch; the active list afterwards
holds exactly the watches whose `waitpid` delivered a result `<= 0` (together with what the
pending list held before); the pending list is empty, `child_lock` is cleared and the rest
of the context is unchanged. -/
theorem child_watch_reaps_exited (env : Callbacks) (W : World) (waits : List WaitOutcome)
    (channel : Nat) (cond : Int) (user_data : Nat)
    (hq : ∀ w ∈ W.context.child_watches, quiet_child env w.function w.user_data)
    (hw : W.context.child_watches.length ≤ waits.length) :
    ∃ W', child_watch_callback env waits channel cond user_data W = some (true, W') ∧
      child_events W'.trace = child_events W.trace ++
        (W.context.child_watches.zip waits).flatMap (fun x => reaped_events x.1 x.2) ∧
      W'.context.child_watches.Perm
        (W.context.proc_child_watches ++ not_reaped W.context.child_watches waits) ∧
      W'.context.proc_child_watches = [] ∧ W'.context.child_lock = false ∧
      W'.context = { W.context with child_watches := W'.context.child_watches,
                                    proc_child_watches := [], child_lock := false } := by
  obtain ⟨X, h1, h2, h3, h4⟩ := child_watch_loop_quiet env W.context.child_watches
    { W with context := { W.context with child_lock := true } } waits rfl hq hw
  refine ⟨{ X with context := { X.context with
      child_watches := X.context.proc_child_watches, proc_child_watches := [],
      child_lock := false } }, ?_, h4, h3, rfl, rfl, ?_⟩
  · unfold child_watch_callback
    rw [h1]
  · simp only
    rw [h2]

/-- C11 at a concrete input: of three child watches, `waitpid` reports the process 73 as
not yet exited, the process 72 as exited with status 256, and fails for the process 71. -/
theorem child_watch_reaps_exited_witness :
    ∃ W', child_watch_callback idle_callbacks [⟨0, 0⟩, ⟨72, 256⟩, ⟨-1, 0⟩] 2 1 0
        three_children = some (true, W') ∧
      child_events W'.trace =
        [Event.child_func 5 301 72 256 0, Event.free_child_watch 5] ∧
      W'.context.child_watches.map child_watch.pid = [71, 73] ∧
      W'.context.proc_child_watches = [] ∧ W'.context.child_lock = false := by
  obtain ⟨W', h1, h2, _, h4, h5, _⟩ := child_watch_reaps_exited idle_callbacks three_children
    [⟨0, 0⟩, ⟨72, 256⟩, ⟨-1, 0⟩] 2 1 0 (fun _ _ _ _ X => quiet_step_refl X) (by decide)
  refine ⟨W', h1, ?_, ?_, h4, h5⟩
  · rw [h2]
    decide
  · have h6 : (child_watch_callback idle_callbacks [⟨0, 0⟩, ⟨72, 256⟩, ⟨-1, 0⟩] 2 1 0
        three_children).map (fun r => r.2.context.child_watches.map child_watch.pid) =
        some [71, 73] := by decide
    rw [h1] at h6
    simpa using h6

/-! ### Removal by id: what is left -/

/-- Removing the entry found for an id by its address takes away the first entry with the
id and nothing else. -/
theorem g_slist_remove_first {α : Type} (id_of addr : α → Nat) (l : List α) (tag : Nat)
    (w : α) (h : l.find? (fun x => decide (id_of x = tag)) = some w)
    (ha : by_address addr l) :
    removed_one id_of tag l (g_slist_remove addr l (addr w)) := by
  induction l with
  | nil => simp at h
  | cons x l ih =>
    by_cases hx : id_of x = tag
    · simp only [List.find?_cons, hx, decide_True, Option.some.injEq] at h
      subst h
      exact ⟨[], x, l, hx, by simp, rfl, by simp [g_slist_remove]⟩
    · simp only [List.find?_cons, hx, decide_False] at h
      have hw : w ∈ l := List.mem_of_find?_eq_some h
      have hwid : id_of w = tag := by
        have := List.find?_some h
        simpa using this
      have hne : addr x ≠ addr w := by
        intro he
        have := ha x (List.mem_cons_self _ _) w (List.mem_cons_of_mem _ hw) he
        exact hx (this ▸ hwid)
      obtain ⟨pre, y, post, h1, h2, h3, h4⟩ := ih h
        (fun a ha' b hb' => ha a (List.mem_cons_of_mem _ ha') b (List.mem_cons_of_mem _ hb'))
      refine ⟨x :: pre, y, post, h1, ?_, by rw [h3]; rfl, ?_⟩
      · simp only [List.map_cons, List.mem_cons, not_or]
        exact ⟨fun h' => hx h'.symm, h2⟩
      · simp only [g_slist_remove, hne, if_false, h4, List.cons_append]

/-- What a successful `g_io_remove_watch` leaves of the context. -/
theorem g_io_remove_watch_frame (W : World) (tag : Nat)
    (h1 : by_address io_watch.ptr W.context.io_watches)
    (h2 : by_address io_watch.ptr W.context.proc_io_watches)
    (h : (g_io_remove_watch W tag).1 = true) :
    (removed_one io_watch.id tag W.context.io_watches
        (g_io_remove_watch W tag).2.context.io_watches ∧
      (g_io_remove_watch W tag).2.context =
        { W.context with io_watches := (g_io_remove_watch W tag).2.context.io_watches }) ∨
    (tag ∉ W.context.io_watches.map io_watch.id ∧
      removed_one io_watch.id tag W.context.proc_io_watches
        (g_io_remove_watch W tag).2.context.proc_io_watches ∧
      (g_io_remove_watch W tag).2.context =
        { W.context with
          proc_io_watches := (g_io_remove_watch W tag).2.context.proc_io_watches }) := by
  unfold g_io_remove_watch at h ⊢
  cases f1 : W.context.io_watches.find? (fun w => decide (w.id = tag)) with
  | some w =>
    left
    simp only [watch_free_context]
    exact ⟨g_slist_remove_first io_watch.id io_watch.ptr _ _ _ f1 h1, trivial⟩
  | none =>
    have n1 := (find_id_none io_watch.id _ _).mp f1
    cases f2 : W.context.proc_io_watches.find? (fun w => decide (w.id = tag)) with
    | some w =>
      right
      simp only [watch_free_context]
      exact ⟨n1, g_slist_remove_first io_watch.id io_watch.ptr _ _ _ f2 h2, trivial⟩
    | none => simp [f1, f2] at h

/-- What a successful `g_timeout_remove` leaves of the context. -/
theorem g_timeout_remove_frame (W : World) (tag : Nat)
    (h1 : by_address timeout.ptr W.context.timeouts)
    (h2 : by_address timeout.ptr W.context.proc_timeouts)
    (h : (g_timeout_remove W tag).1 = true) :
    (removed_one timeout.id tag W.context.timeouts
        (g_timeout_remove W tag).2.context.timeouts ∧
      (g_timeout_remove W tag).2.context =
        { W.context with timeouts := (g_timeout_remove W tag).2.context.timeouts }) ∨
    (tag ∉ W.context.timeouts.map timeout.id ∧
      removed_one timeout.id tag W.context.proc_timeouts
        (g_timeout_remove W tag).2.context.proc_timeouts ∧
      (g_timeout_remove W tag).2.context =
        { W.context with
          proc_timeouts := (g_timeout_remove W tag).2.context.proc_timeouts }) := by
  unfold g_timeout_remove at h ⊢
  cases f1 : W.context.timeouts.find? (fun w => decide (w.id = tag)) with
  | some w =>
    left
    simp only [world_log_context]
    exact ⟨g_slist_remove_first timeout.id timeout.ptr _ _ _ f1 h1, trivial⟩
  | none =>
    have n1 := (find_id_none timeout.id _ _).mp f1
    cases f2 : W.context.proc_timeouts.find? (fun w => decide (w.id = tag)) with
    | some w =>
      right
      simp only [world_log_context]
      exact ⟨n1, g_slist_remove_first timeout.id timeout.ptr _ _ _ f2 h2, trivial⟩
    | none => simp [f1, f2] at h

/-- What a successful `child_watch_remove` leaves of the context. -/
theorem child_watch_remove_frame (W : World) (tag : Nat)
    (h1 : by_address child_watch.ptr W.context.child_watches)
    (h2 : by_address child_watch.ptr W.context.proc_child_watches)
    (h : (child_watch_remove W tag).1 = true) :
    (removed_one child_watch.id tag W.context.child_watches
        (child_watch_remove W tag).2.context.child_watches ∧
      (child_watch_remove W tag).2.context =
        { W.context with
          child_watches := (child_watch_remove W tag).2.context.child_watches }) ∨
    (tag ∉ W.context.child_watches.map child_watch.id ∧
      removed_one child_watch.id tag W.context.proc_child_watches
        (child_watch_remove W tag).2.context.proc_child_watches ∧
      (child_watch_remove W tag).2.context =
        { W.context with
          proc_child_watches :=
            (child_watch_remove W tag).2.context.proc_child_watches }) := by
  unfold child_watch_remove at h ⊢
  cases f1 : W.context.child_watches.find? (fun w => decide (w.id = tag)) with
  | some w =>
    left
    simp only [world_log_context]
    exact ⟨g_slist_remove_first child_watch.id child_watch.ptr _ _ _ f1 h1, trivial⟩
  | none =>
    have n1 := (find_id_none child_watch.id _ _).mp f1
    cases f2 : W.context.proc_child_watches.find? (fun w => decide (w.id = tag)) with
    | some w =>
      right
      simp only [world_log_context]
      exact ⟨n1, g_slist_remove_first child_watch.id child_watch.ptr _ _ _ f2 h2, trivial⟩
    | none => simp [f1, f2] at h

/-- C12: in every context in which an address stands for one object, whenever
`g_source_remove` returns TRUE it has removed exactly one source: the first entry with the
id of the first list that has one, the lists being tried in the order watches (active,
pending), timers (active, pending), child watches (active, pending); the other entries of
that list are in the order they were in, the other five lists, the three dispatch guards,
`next_id` and `next_timeout` are unchanged; when it returns FALSE the context, and
everything else, is unchanged. -/
theorem g_source_remove_frame (W : World) (tag : Nat) (ha : well_addressed W.context) :
    ((g_source_remove W tag).1 = true →
      removed_source W.context (g_source_remove W tag).2.context tag ∧
      (g_source_remove W tag).2.context.next_id = W.context.next_id ∧
      (g_source_remove W tag).2.context.io_lock = W.context.io_lock ∧
      (g_source_remove W tag).2.context.timeout_lock = W.context.timeout_lock ∧
      (g_source_remove W tag).2.context.child_lock = W.context.child_lock) ∧
    ((g_source_remove W tag).1 = false → (g_source_remove W tag).2 = W) := by
  obtain ⟨a1, a2, a3, a4, a5, a6⟩ := ha
  have s1 := g_io_remove_watch_spec W tag
  have s2 := g_timeout_remove_spec W tag
  have s3 := child_watch_remove_spec W tag
  have key : (g_source_remove W tag).1 = true →
      removed_source W.context (g_source_remove W tag).2.context tag := by
    intro h
    unfold g_source_remove at h ⊢
    cases h1 : (g_io_remove_watch W tag).1 with
    | true =>
      simp only [h1, if_true]
      rcases g_io_remove_watch_frame W tag a1 a2 h1 with f | f
      · exact Or.inl f
      · exact Or.inr (Or.inl f)
    | false =>
      have e1 := s1.2 h1
      have n1 : tag ∉ W.context.io_watches.map io_watch.id ++
          W.context.proc_io_watches.map io_watch.id := by
        intro hm
        have := s1.1.mpr hm
        rw [h1] at this
        exact Bool.noConfusion this
      simp only [e1, h1, Bool.false_eq_true, if_false] at h ⊢
      cases h2 : (g_timeout_remove W tag).1 with
      | true =>
        simp only [h2, if_true]
        rcases g_timeout_remove_frame W tag a3 a4 h2 with f | f
        · exact Or.inr (Or.inr (Or.inl ⟨n1, f⟩))
        · exact Or.inr (Or.inr (Or.inr (Or.inl ⟨n1, f⟩)))
      | false =>
        have e2 := s2.2 h2
        have n2 : tag ∉ W.context.timeouts.map timeout.id ++
            W.context.proc_timeouts.map timeout.id := by
          intro hm
          have := s2.1.mpr hm
          rw [h2] at this
          exact Bool.noConfusion this
        simp only [e2, h2, Bool.false_eq_true, if_false] at h ⊢
        cases h3 : (child_watch_remove W tag).1 with
        | true =>
          simp only [h3, if_true]
          rcases child_watch_remove_frame W tag a5 a6 h3 with f | f
          · exact Or.inr (Or.inr (Or.inr (Or.inr (Or.inl ⟨n1, n2, f⟩))))
          · exact Or.inr (Or.inr (Or.inr (Or.inr (Or.inr ⟨n1, n2, f⟩))))
        | false => simp [h3] at h
  refine ⟨fun h => ?_, fun h => ?_⟩
  · have k := key h
    refine ⟨k, ?_⟩
    rcases k with ⟨_, e⟩ | ⟨_, _, e⟩ | ⟨_, _, e⟩ | ⟨_, _, _, e⟩ | ⟨_, _, _, e⟩ | ⟨_, _, _, _, e⟩ <;>
      (rw [e]; exact ⟨rfl, rfl, rfl, rfl⟩)
  · unfold g_source_remove at h ⊢
    cases h1 : (g_io_remove_watch W tag).1 with
    | true => simp [h1] at h
    | false =>
      have e1 := s1.2 h1
      simp only [e1, h1, Bool.false_eq_true, if_false] at h ⊢
      cases h2 : (g_timeout_remove W tag).1 with
      | true => simp [h2] at h
      | false =>
        have e2 := s2.2 h2
        simp only [e2, h2, Bool.false_eq_true, if_false] at h ⊢
        cases h3 : (child_watch_remove W tag).1 with
        | true => simp [h3] at h
        | false => simp only [h3, Bool.false_eq_true, if_false]; exact s3.2 h3

/-- C12 at a concrete input: among four registered sources (and the watch on the child
pipe) the removal of the id 2 takes the timer with that id out of the active timer list and
leaves the rest of the context as it was; a second removal of the id changes nothing. -/
theorem g_source_remove_frame_witness :
    well_addressed mixed_sources.context ∧
    (mixed_sources.context.timeouts.map timeout.id = [5, 2] ∧
      removed_source mixed_sources.context (g_source_remove mixed_sources 2).2.context 2 ∧
      (g_source_remove mixed_sources 2).2.context =
        { mixed_sources.context with
          timeouts := mixed_sources.context.timeouts.take 1 }) ∧
    (g_source_remove (g_source_remove mixed_sources 2).2 2).2 =
      (g_source_remove mixed_sources 2).2 :=
  ⟨by decide,
   ⟨by decide,
    ((g_source_remove_frame mixed_sources 2 (by decide)).1 (by decide)).1,
    by decide⟩,
   (g_source_remove_frame (g_source_remove mixed_sources 2).2 2 (by decide)).2 (by decide)⟩

/-! ### The poll set -/

/-- C14: for every interval and every current time with `0 <= tv_usec < 1000000`,
`g_timeout_add` puts the new timer, with the returned id and the interval, at the head of
the active timer list (of the pending one during timer dispatch), and the expiration it
stores is the current time plus the interval exactly (in microseconds: now plus 1000 times
the interval), with `tv_usec` in the range `[0, 1000000)`. -/
theorem g_timeout_add_expiration (W : World) (interval function data : Nat)
    (hn : W.now.normal) :
    ∃ t : timeout,
      t.id = (g_timeout_add W interval function data).1 ∧
      t.interval = interval ∧ t.function = function ∧ t.data = data ∧
      (if W.context.timeout_lock = true then
        (g_timeout_add W interval function data).2.context.proc_timeouts =
          t :: W.context.proc_timeouts
      else
        (g_timeout_add W interval function data).2.context.timeouts =
          t :: W.context.timeouts) ∧
      t.expiration.usec = W.now.usec + 1000 * interval ∧
      t.expiration.normal := by
  refine ⟨⟨W.brk, W.context.next_id, interval, expiration_after W.now interval, data,
    function⟩, ?_, rfl, rfl, rfl, ?_, expiration_after_usec W.now interval,
    expiration_after_normal W.now interval hn⟩
  · unfold g_timeout_add
    simp only
    split <;> rfl
  · unfold g_timeout_add
    cases h : W.context.timeout_lock
    · simp [h, g_slist_prepend]
    · simp [h, g_slist_prepend]

/-- C14 at a concrete input: a timer with an interval of 200 ms registered at 12.9997 s
expires at 13.1997 s. -/
theorem g_timeout_add_expiration_witness :
    (World.init ⟨12, 999700⟩).now.normal ∧
    (g_timeout_add (World.init ⟨12, 999700⟩) 200 0 0).2.context.timeouts.map
      timeout.expiration = [⟨13, 199700⟩] ∧
    ∃ t : timeout,
      t.id = (g_timeout_add (World.init ⟨12, 999700⟩) 200 0 0).1 ∧
      t.interval = 200 ∧ t.function = 0 ∧ t.data = 0 ∧
      (if (World.init ⟨12, 999700⟩).context.timeout_lock = true then
        (g_timeout_add (World.init ⟨12, 999700⟩) 200 0 0).2.context.proc_timeouts =
          t :: (World.init ⟨12, 999700⟩).context.proc_timeouts
      else
        (g_timeout_add (World.init ⟨12, 999700⟩) 200 0 0).2.context.timeouts =
          t :: (World.init ⟨12, 999700⟩).context.timeouts) ∧
      t.expiration.usec = (World.init ⟨12, 999700⟩).now.usec + 1000 * 200 ∧
      t.expiration.normal :=
  ⟨by decide, by decide, g_timeout_add_expiration (World.init ⟨12, 999700⟩) 200 0 0 (by decide)⟩

/-! ### Sorted insertion and the range of priorities -/

/-- C15 holds in part. For every list and every new watch, `watch_list_add` returns the old
entries in their old relative order plus the new watch; and when the list is in ascending
priority order and all priorities are small (in `[-2^30, 2^30)`, so that their differences
fit a `gint`), the result is in ascending priority order. For priorities that are further
apart the order is lost: the difference `1 - (-2147483648)` computed by `watch_prio_cmp`
wraps to a negative `gint`, so a watch of priority 1 is linked in front of a watch of
priority -2147483648, and the list that was in ascending order no longer is. -/
theorem watch_list_add_order (l : List io_watch) (w : io_watch) :
    (∃ pre post, l = pre ++ post ∧ watch_list_add l w = pre ++ w :: post) ∧
    (l.Pairwise (fun a b => a.priority ≤ b.priority) →
      (∀ x ∈ l, small_priority x.priority) → small_priority w.priority →
      (watch_list_add l w).Pairwise (fun a b => a.priority ≤ b.priority)) ∧
    ([watch_of_priority 3 (-2147483648)].Pairwise (fun a b => a.priority ≤ b.priority) ∧
      watch_prio_cmp (watch_of_priority 4 1) (watch_of_priority 3 (-2147483648)) =
        -2147483647 ∧
      watch_list_add [watch_of_priority 3 (-2147483648)] (watch_of_priority 4 1) =
        [watch_of_priority 4 1, watch_of_priority 3 (-2147483648)] ∧
      ¬ (watch_list_add [watch_of_priority 3 (-2147483648)]
          (watch_of_priority 4 1)).Pairwise (fun a b => a.priority ≤ b.priority)) := by
  refine ⟨?_, watch_list_add_sorted l w, by decide⟩
  obtain ⟨pre, post, h1, h2, _, _⟩ := g_slist_insert_sorted_split l w watch_prio_cmp
  exact ⟨pre, post, h1, h2⟩

/-- The part of C15 that holds, at a concrete input: a watch of priority 3 is linked between
the watches of priority 1 and 5. -/
theorem watch_list_add_order_witness :
    watch_list_add [watch_of_priority 3 1, watch_of_priority 4 5] (watch_of_priority 5 3) =
      [watch_of_priority 3 1, watch_of_priority 5 3, watch_of_priority 4 5] ∧
    (watch_list_add [watch_of_priority 3 1, watch_of_priority 4 5]
      (watch_of_priority 5 3)).Pairwise (fun a b => a.priority ≤ b.priority) :=
  ⟨by decide,
   (watch_list_add_order [watch_of_priority 3 1, watch_of_priority 4 5]
      (watch_of_priority 5 3)).2.1 (by decide) (by decide) (by decide)⟩

/-! ### The watch dispatch cycle with quiet callbacks -/

/-- C18, amended: `timeout_handlers_check` reads the time once, at its start (`W.now`), and
checks every timer against that time, whatever the clock shows when the timer is scanned.
In a run started with an empty pending list over timers whose callbacks neither add nor
remove a source (and may take any time), the run ends; a timer that the start time is
before the expiration of is not fired in that run and stays registered as it is, also when
its expiration passes while earlier callbacks of the run are running; any other timer is
fired exactly once. -/
theorem timeout_handlers_check_due_at_start (env : Callbacks) (W : World) (k : Nat)
    (hp : W.context.proc_timeouts = [])
    (hn : (W.context.timeouts.map timeout.ptr).Nodup)
    (hq : ∀ t ∈ W.context.timeouts, quiet_source env t.function t.data) :
    ∃ W', timeout_handlers_check env (W.context.timeouts.length + 1 + k) W = some W' ∧
      ∀ t ∈ W.context.timeouts,
        (timercmp_lt W.now t.expiration = true →
          timer_trace t.ptr W'.trace = timer_trace t.ptr W.trace ∧
          t ∈ W'.context.timeouts) ∧
        (timercmp_lt W.now t.expiration = false →
          ∃ fired,
            timer_trace t.ptr W'.trace = timer_trace t.ptr W.trace ++
              [Event.source_func t.ptr t.function t.data fired] ∨
            timer_trace t.ptr W'.trace = timer_trace t.ptr W.trace ++
              [Event.source_func t.ptr t.function t.data fired,
               Event.free_timeout t.ptr]) := by
  obtain ⟨X, tail, h1, _, h3, _, _, _, h7⟩ := timeout_handlers_check_loop_quiet env W.now
    (fun _ => True) W.context.timeouts
    { W with context := { W.context with timeout_lock := true } } k rfl hn hq
    trivial (fun _ _ _ _ => trivial)
  refine ⟨{ X with context := { X.context with
      timeouts := X.context.proc_timeouts, proc_timeouts := [], timeout_lock := false } },
    ?_, ?_⟩
  · unfold timeout_handlers_check
    rw [h1]
  · intro t ht
    have ho := h7 t ht
    simp only [hp, List.nil_append] at h3
    unfold timer_outcome at ho
    constructor
    · intro hd
      rw [if_pos hd] at ho
      simp only [h3]
      exact ho
    · intro hd
      rw [if_neg (by rw [hd]; exact Bool.false_ne_true)] at ho
      obtain ⟨fired, _, h⟩ := ho
      refine ⟨fired, ?_⟩
      rcases h with h | h
      · exact Or.inl h.1
      · exact Or.inr h.1

/-- C18 as stated fails: of two timers the one at the head of the list has expired at
100.1 s, when the run starts, and its callback takes one second; the other expires at
100.5 s and is scanned at 101.1 s, after its expiration, yet it is not fired in that run:
the only call is that of the first timer, and the second keeps its expiration. -/
theorem timeout_handlers_check_misses_timer_due_mid_scan :
    two_timers_staggered.context.timeouts.map
        (fun t => (t.ptr, t.function, t.expiration)) =
      [(3, 200, ⟨100, 100000⟩), (2, 201, ⟨100, 500000⟩)] ∧
    (timeout_handlers_check slow_callbacks 3 two_timers_staggered).map
        (fun X => (X.trace, X.now, X.context.timeouts.map (fun t => (t.ptr, t.expiration)))) =
      some ([Event.source_func 3 200 0 ⟨100, 100000⟩], ⟨101, 100000⟩,
            [(3, ⟨100, 200000⟩), (2, ⟨100, 500000⟩)]) ∧
    timercmp_lt ⟨101, 100000⟩ ⟨100, 500000⟩ = false := by
  decide

/-- C18, amended, at a concrete input: the timers of `two_timers_staggered` with a slow
callback; the timer at address 2 is not fired. -/
theorem timeout_handlers_check_due_at_start_witness :
    ∃ W', timeout_handlers_check slow_callbacks 3 two_timers_staggered = some W' ∧
      ∀ t ∈ two_timers_staggered.context.timeouts,
        (timercmp_lt two_timers_staggered.now t.expiration = true →
          timer_trace t.ptr W'.trace = timer_trace t.ptr two_timers_staggered.trace ∧
          t ∈ W'.context.timeouts) ∧
        (timercmp_lt two_timers_staggered.now t.expiration = false →
          ∃ fired,
            timer_trace t.ptr W'.trace = timer_trace t.ptr two_timers_staggered.trace ++
              [Event.source_func t.ptr t.function t.data fired] ∨
            timer_trace t.ptr W'.trace = timer_trace t.ptr two_timers_staggered.trace ++
              [Event.source_func t.ptr t.function t.data fired,
               Event.free_timeout t.ptr]) :=
  timeout_handlers_check_due_at_start slow_callbacks two_timers_staggered 0 rfl (by decide)
    (by
      intro t _ X
      unfold slow_callbacks
      simp only
      split
      · exact ⟨rfl, [], (List.append_nil _).symm, by simp⟩
      · exact quiet_step_refl X)

/-! ### A cycle in which no watch is ready -/

/-- On small priorities `watch_list_add` is the ordered insertion that puts the new entry in
front of the first entry whose priority is not smaller. -/
theorem watch_list_add_eq_orderedInsert (l : List io_watch) (w : io_watch)
    (hb : ∀ x ∈ l, small_priority x.priority) (hw : small_priority w.priority) :
    watch_list_add l w =
      List.orderedInsert (fun a b : io_watch => a.priority ≤ b.priority) w l := by
  unfold watch_list_add g_slist_insert_sorted
  cases l with
  | nil => rfl
  | cons tmp rest =>
    simp only
    induction rest generalizing tmp with
    | nil =>
      have hc := wrap_gint_small _ _ hw (hb tmp (List.mem_cons_self _ _))
      simp only [g_slist_insert_sorted_loop, watch_prio_cmp, hc, List.orderedInsert]
      by_cases h : w.priority ≤ tmp.priority
      · rw [if_neg (by omega), if_pos h]
      · rw [if_pos (by omega), if_neg h]
    | cons next rest ih =>
      have hc := wrap_gint_small _ _ hw (hb tmp (List.mem_cons_self _ _))
      have := ih next (fun x hx => hb x (List.mem_cons_of_mem _ hx))
      rw [g_slist_insert_sorted_loop, List.orderedInsert]
      simp only [watch_prio_cmp, hc]
      by_cases h : w.priority ≤ tmp.priority
      · rw [if_neg (by omega), if_pos h]
      · rw [if_pos (by omega), if_neg h, this]

/-- The dispatch loop over watches none of which is ready moves them to the pending list,
one after the other, with `watch_list_add`, and does nothing else. -/
theorem io_dispatch_loop_none_ready (env : Callbacks) (ufds : List pollfd)
    (cur : List io_watch) :
    ∀ (X : World) (k : Nat), X.context.io_watches = cur →
      (∀ w ∈ cur, ufds_revents ufds w.revents = 0) →
      io_dispatch_loop env ufds (cur.length + 1 + k) X =
        some { X with context := { X.context with
          io_watches := [],
          proc_io_watches := cur.foldl watch_list_add X.context.proc_io_watches } } := by
  induction cur with
  | nil =>
    intro X k hl _
    rw [show ([] : List io_watch).length + 1 + k = k + 1 by simp; omega, io_dispatch_loop]
    simp only [hl, List.foldl_nil]
    rw [← hl]
  | cons v rest ih =>
    intro X k hl hr
    have hf : (v :: rest).length + 1 + k = (rest.length + 1 + k) + 1 := by
      simp only [List.length_cons]; omega
    rw [hf, io_dispatch_loop_not_ready env ufds _ X v rest hl
      (hr v (List.mem_cons_self _ _)),
      ih _ k rfl (fun w hw => hr w (List.mem_cons_of_mem _ hw))]
    rfl

/-- Adding watches with small priorities one after the other is a chain of ordered
insertions. -/
theorem foldl_watch_list_add_eq (cur : List io_watch) :
    ∀ acc : List io_watch, (∀ x ∈ acc, small_priority x.priority) →
      (∀ x ∈ cur, small_priority x.priority) →
      cur.foldl watch_list_add acc =
        cur.foldl (fun l w =>
          List.orderedInsert (fun a b : io_watch => a.priority ≤ b.priority) w l) acc := by
  induction cur with
  | nil => intro acc _ _; rfl
  | cons w rest ih =>
    intro acc ha hc
    have hw := hc w (List.mem_cons_self _ _)
    simp only [List.foldl_cons]
    rw [ih (watch_list_add acc w)
      (by
        intro x hx
        rcases (mem_watch_list_add _ _ _).mp hx with h | h
        · rw [h]; exact hw
        · exact ha x h)
      (fun x hx => hc x (List.mem_cons_of_mem _ hx)),
      watch_list_add_eq_orderedInsert acc w ha hw]

/-- Insertion sort of the reversed list is the chain of ordered insertions in the order of
the list. -/
theorem insertionSort_reverse_eq_foldl (cur : List io_watch) :
    List.insertionSort (fun a b : io_watch => a.priority ≤ b.priority) cur.reverse =
      cur.foldl (fun l w =>
        List.orderedInsert (fun a b : io_watch => a.priority ≤ b.priority) w l) [] := by
  have h : ∀ l : List io_watch,
      List.insertionSort (fun a b : io_watch => a.priority ≤ b.priority) l =
        l.foldr (fun w acc =>
          List.orderedInsert (fun a b : io_watch => a.priority ≤ b.priority) w acc) [] := by
    intro l
    induction l with
    | nil => rfl
    | cons x l ih => simp only [List.insertionSort, List.foldr_cons, ih]
  rw [h, List.foldr_reverse]

/-- Adding watches with small priorities one after the other keeps the ascending priority
order. -/
theorem foldl_watch_list_add_sorted (cur : List io_watch) :
    ∀ acc : List io_watch, acc.Pairwise (fun a b => a.priority ≤ b.priority) →
      (∀ x ∈ acc, small_priority x.priority) →
      (∀ x ∈ cur, small_priority x.priority) →
      (cur.foldl watch_list_add acc).Pairwise (fun a b => a.priority ≤ b.priority) := by
  induction cur with
  | nil => intro acc hs _ _; exact hs
  | cons w rest ih =>
    intro acc hs ha hc
    have hw := hc w (List.mem_cons_self _ _)
    simp only [List.foldl_cons]
    exact ih (watch_list_add acc w) (watch_list_add_sorted acc w hs ha hw)
      (by
        intro x hx
        rcases (mem_watch_list_add _ _ _).mp hx with h | h
        · rw [h]; exact hw
        · exact ha x h)
      (fun x hx => hc x (List.mem_cons_of_mem _ hx))

/-- A watch whose priority is above all priorities of the list is added at the end. -/
theorem orderedInsert_above (acc : List io_watch) (w : io_watch)
    (h : ∀ x ∈ acc, x.priority < w.priority) :
    List.orderedInsert (fun a b : io_watch => a.priority ≤ b.priority) w acc =
      acc ++ [w] := by
  induction acc with
  | nil => rfl
  | cons x acc ih =>
    have hx := h x (List.mem_cons_self _ _)
    rw [List.orderedInsert, if_neg (by omega),
      ih (fun y hy => h y (List.mem_cons_of_mem _ hy))]
    rfl

/-- Watches in strictly ascending priority order, added one after the other to a list of
watches with smaller priorities, end up behind that list in their order. -/
theorem foldl_orderedInsert_strict (cur : List io_watch) :
    ∀ acc : List io_watch, (∀ x ∈ acc, ∀ y ∈ cur, x.priority < y.priority) →
      cur.Pairwise (fun a b => a.priority < b.priority) →
      cur.foldl (fun l w =>
        List.orderedInsert (fun a b : io_watch => a.priority ≤ b.priority) w l) acc =
        acc ++ cur := by
  induction cur with
  | nil => intro acc _ _; simp
  | cons w rest ih =>
    intro acc ha hs
    obtain ⟨s1, s2⟩ := List.pairwise_cons.mp hs
    simp only [List.foldl_cons]
    rw [orderedInsert_above acc w (fun x hx => ha x hx w (List.mem_cons_self _ _)),
      ih (acc ++ [w])
        (by
          intro x hx y hy
          rcases List.mem_append.mp hx with h | h
          · exact ha x h y (List.mem_cons_of_mem _ hy)
          · rw [List.mem_singleton.mp h]; exact s1 y hy)
        s2]
    simp

/-- C19, amended: a watch dispatch cycle of `g_main_loop_run` that starts with an empty
pending list and in which no watch is observed ready ends without any call and leaves the
context as it was but for the order of the active list: the watches, with priorities in
`[-2^30, 2^30)`, are moved to the pending list one after the other with `watch_list_add`,
which links a watch in front of the watches of equal priority. The active list after the
cycle holds the same watches in ascending priority order (it is the stable sort of the
reversed list), with the relative order of any two watches of equal priority reversed; it
is the list it was when that list was in strictly ascending priority order (with no two
watches of equal priority). -/
theorem io_dispatch_none_ready (env : Callbacks) (ufds : List pollfd) (W : World) (k : Nat)
    (hp : W.context.proc_io_watches = [])
    (hr : ∀ w ∈ W.context.io_watches, ufds_revents ufds w.revents = 0)
    (hs : ∀ w ∈ W.context.io_watches, small_priority w.priority) :
    ∃ W', io_dispatch env ufds (W.context.io_watches.length + 1 + k) W = some W' ∧
      W'.trace = W.trace ∧
      W'.context = { W.context with
        io_watches := W'.context.io_watches, proc_io_watches := [], io_lock := false } ∧
      W'.context.io_watches =
        List.insertionSort (fun a b : io_watch => a.priority ≤ b.priority)
          W.context.io_watches.reverse ∧
      W'.context.io_watches.Perm W.context.io_watches ∧
      W'.context.io_watches.Pairwise (fun a b => a.priority ≤ b.priority) ∧
      (∀ a b : io_watch, [a, b].Sublist W.context.io_watches → a.priority = b.priority →
        [b, a].Sublist W'.context.io_watches) ∧
      (W.context.io_watches.Pairwise (fun a b => a.priority < b.priority) →
        W'.context.io_watches = W.context.io_watches) := by
  have h1 := io_dispatch_loop_none_ready env ufds W.context.io_watches
    { W with context := { W.context with io_lock := true } } k rfl hr
  have hnil : ∀ x ∈ ([] : List io_watch), small_priority x.priority := by simp
  have e1 := foldl_watch_list_add_eq W.context.io_watches [] hnil hs
  have e2 := insertionSort_reverse_eq_foldl W.context.io_watches
  refine ⟨{ W with context := { W.context with
      io_watches := W.context.io_watches.foldl watch_list_add W.context.proc_io_watches,
      proc_io_watches := [], io_lock := false } }, ?_, rfl, rfl, ?_, ?_, ?_, ?_, ?_⟩
  · unfold io_dispatch
    rw [h1]
  · simp only [hp]
    rw [e1, e2]
  · simp only [hp]
    rw [e1, ← e2]
    exact (List.perm_insertionSort _ _).trans (List.reverse_perm _)
  · simp only [hp]
    exact foldl_watch_list_add_sorted W.context.io_watches [] List.Pairwise.nil hnil hs
  · intro a b hab he
    simp only [hp]
    rw [e1, ← e2]
    have hrev : [b, a].Sublist W.context.io_watches.reverse := by
      have := hab.reverse
      simpa using this
    exact List.pair_sublist_insertionSort (r := fun a b : io_watch => a.priority ≤ b.priority)
      (show b.priority ≤ a.priority from le_of_eq he.symm) hrev
  · intro hst
    simp only [hp]
    rw [e1, foldl_orderedInsert_strict W.context.io_watches [] (by simp) hst]
    simp

/-- C19 as stated fails: two watches of priority 0 are in the active list in the order
address 4, address 3; after a cycle in which `poll` reports nothing ready they are in the
order address 3, address 4. -/
theorem io_dispatch_none_ready_reverses_ties :
    two_equal_watches.context.io_watches.map (fun w => (w.ptr, w.priority)) =
      [(4, 0), (3, 0)] ∧
    (watch_dispatch_cycle idle_callbacks ⟨0, [0, 0], ⟨0, 0⟩⟩ 3 two_equal_watches).map
        (fun X => (X.context.io_watches.map (fun w => (w.ptr, w.priority)), X.trace)) =
      some ([(3, 0), (4, 0)], []) := by
  decide

/-- C19, amended, at a concrete input: the watches with the priorities 1, 3 and 5 of
`priorities_5_1_3` are left in their order by a cycle in which none of them is ready. -/
theorem io_dispatch_none_ready_witness :
    ∃ W', io_dispatch idle_callbacks [] 4 priorities_5_1_3 = some W' ∧
      W'.trace = priorities_5_1_3.trace ∧
      W'.context.io_watches = priorities_5_1_3.context.io_watches ∧
      W'.context.io_watches.map io_watch.priority = [1, 3, 5] := by
  obtain ⟨W', h1, h2, _, _, _, _, _, h8⟩ := io_dispatch_none_ready idle_callbacks []
    priorities_5_1_3 0 rfl (by decide) (by decide)
  have h9 := h8 (by decide)
  refine ⟨W', h1, h2, h9, ?_⟩
  rw [h9]
  decide

/-! ### The next deadline and the timers that are due -/

/-- The remaining milliseconds of a timer are not positive exactly when its expiration is
in an earlier second or less than 1000 microseconds ahead in the same second. -/
theorem remaining_msec_nonpos_iff (tv : timeval) (t : timeout) (hn : tv.normal)
    (he : t.expiration.normal) :
    remaining_msec tv t ≤ 0 ↔ within_a_millisecond tv t.expiration := by
  unfold timeval.normal at hn he
  unfold remaining_msec within_a_millisecond
  rcases tdiv_thousand (t.expiration.tv_usec - tv.tv_usec) with ⟨ha, hb⟩
  by_cases hs : 0 ≤ t.expiration.tv_usec - tv.tv_usec
  · rw [ha hs]
    constructor <;> intro h <;> omega
  · rw [hb (by omega)]
    constructor <;> intro h <;> omega

/-- On normal times the test of `timeout_handlers_check` finds a timer due exactly when its
expiration is in an earlier second, or in the same second and not ahead. -/
theorem timercmp_lt_false_iff (tv e : timeval) :
    timercmp_lt tv e = false ↔
      e.tv_sec < tv.tv_sec ∨ (e.tv_sec = tv.tv_sec ∧ e.tv_usec ≤ tv.tv_usec) := by
  unfold timercmp_lt
  split
  · rename_i h
    simp only [decide_eq_false_iff_not, not_lt]
    constructor <;> intro h' <;> omega
  · rename_i h
    simp only [decide_eq_false_iff_not, not_lt]
    constructor <;> intro h' <;> omega

/-- C20, amended: for every active timer list and every current time (all with `tv_usec` in
`[0, 1000000)`), the remaining time `timeout_handlers_prepare` computes for a timer is 0,
and with it `next_timeout` is 0, whenever `timeout_handlers_check`, run at that same time,
treats the timer as due; but it is 0 also for a timer that is not yet due and expires less
than 1000 microseconds later in the same second, because the microseconds are divided by
1000 with truncation. Precisely, the remaining time of a timer is 0 exactly when its
expiration is in an earlier second or less than 1000 microseconds ahead in the same second,
`next_timeout` is 0 exactly when the list has such a timer, and a timer is due exactly when
its expiration is in an earlier second, or in the same second and not ahead. -/
theorem timeout_handlers_prepare_zero (W : World) (hn : W.now.normal)
    (he : ∀ t ∈ W.context.timeouts, t.expiration.normal) :
    (∀ t ∈ W.context.timeouts,
      (max 0 (remaining_msec W.now t) = 0 ↔ within_a_millisecond W.now t.expiration)) ∧
    ((timeout_handlers_prepare W).context.next_timeout = 0 ↔
      ∃ t ∈ W.context.timeouts, within_a_millisecond W.now t.expiration) ∧
    (∀ t ∈ W.context.timeouts,
      (timercmp_lt W.now t.expiration = false ↔
        t.expiration.tv_sec < W.now.tv_sec ∨
          (t.expiration.tv_sec = W.now.tv_sec ∧ t.expiration.tv_usec ≤ W.now.tv_usec))) ∧
    (∀ t ∈ W.context.timeouts, timercmp_lt W.now t.expiration = false →
      max 0 (remaining_msec W.now t) = 0 ∧
      (timeout_handlers_prepare W).context.next_timeout = 0) := by
  have h1 : ∀ t ∈ W.context.timeouts,
      (max 0 (remaining_msec W.now t) = 0 ↔ within_a_millisecond W.now t.expiration) := by
    intro t ht
    rw [← remaining_msec_nonpos_iff W.now t hn (he t ht)]
    constructor
    · intro h
      by_contra hc
      rw [max_eq_right (by omega)] at h
      omega
    · intro h
      exact max_eq_left h
  have h2 : (timeout_handlers_prepare W).context.next_timeout = 0 ↔
      ∃ t ∈ W.context.timeouts, within_a_millisecond W.now t.expiration := by
    obtain ⟨_, m2, m3⟩ := timeout_handlers_prepare_loop_min W.now W.context.timeouts LONG_MAX
    have hpos : (0 : Int) < LONG_MAX := by decide
    have hnext : (timeout_handlers_prepare W).context.next_timeout =
        if timeout_handlers_prepare_loop W.now W.context.timeouts LONG_MAX ≠ LONG_MAX
        then timeout_handlers_prepare_loop W.now W.context.timeouts LONG_MAX else -1 := rfl
    rw [hnext]
    generalize timeout_handlers_prepare_loop W.now W.context.timeouts LONG_MAX = r at m2 m3
    constructor
    · intro h
      have hr : r = 0 := by
        by_cases hc : r ≠ LONG_MAX
        · rw [if_pos hc] at h; exact h
        · rw [if_neg hc] at h; omega
      rcases m3 with m3 | ⟨t, ht, m3⟩
      · omega
      · exact ⟨t, ht, (h1 t ht).mp (by rw [← m3, hr])⟩
    · rintro ⟨t, ht, hw⟩
      have hz := (h1 t ht).mpr hw
      have hle := m2 t ht
      rw [hz] at hle
      have hge : 0 ≤ r := by
        rcases m3 with m3 | ⟨u, _, m3⟩
        · omega
        · rw [m3]; exact le_max_left _ _
      have hr : r = 0 := by omega
      rw [hr, if_pos (by omega)]
  refine ⟨h1, h2, fun t _ => timercmp_lt_false_iff W.now t.expiration, ?_⟩
  intro t ht hd
  have hdue := (timercmp_lt_false_iff W.now t.expiration).mp hd
  have hw : within_a_millisecond W.now t.expiration := by
    unfold within_a_millisecond
    omega
  exact ⟨(h1 t ht).mpr hw, h2.mpr ⟨t, ht, hw⟩⟩

/-- C20 as stated fails: at 0.001 s a timer that expires at 0.0015 s has a remaining time
of 0, so that `next_timeout` is 0, yet `timeout_handlers_check`, run at the same time, does
not treat it as due: it makes no call and leaves the timer as it is. -/
theorem timeout_handlers_prepare_zero_for_timer_not_due :
    one_timer_soon.context.timeouts.map (fun t => (t.ptr, t.expiration)) =
      [(2, ⟨0, 1500⟩)] ∧
    one_timer_soon.now = ⟨0, 1000⟩ ∧
    one_timer_soon.context.timeouts.map (fun t => max 0 (remaining_msec one_timer_soon.now t)) =
      [0] ∧
    (timeout_handlers_prepare one_timer_soon).context.next_timeout = 0 ∧
    one_timer_soon.context.timeouts.map
      (fun t => timercmp_lt one_timer_soon.now t.expiration) = [true] ∧
    (timeout_handlers_check idle_callbacks 2 (timeout_handlers_prepare one_timer_soon)).map
        (fun X => (X.trace, X.context.timeouts.map (fun t => (t.ptr, t.expiration)))) =
      some ([], [(2, ⟨0, 1500⟩)]) := by
  decide

/-- C20, amended, at a concrete input: of the two timers of `two_timers_later` the one at
address 3 has expired, so its remaining time and `next_timeout` are 0. -/
theorem timeout_handlers_prepare_zero_witness :
    two_timers_later.now.normal ∧
    (∀ t ∈ two_timers_later.context.timeouts, t.expiration.normal) ∧
    timercmp_lt two_timers_later.now (⟨13, 49700⟩ : timeval) = false ∧
    (timeout_handlers_prepare two_timers_later).context.next_timeout = 0 :=
  ⟨by decide, by decide, by decide,
   ((timeout_handlers_prepare_zero two_timers_later (by decide) (by decide)).2.2.2
      ⟨3, 2, 50, ⟨13, 49700⟩, 0, 0⟩ (by decide) (by decide)).2⟩

/-! ### Registering a watch and removing it again -/

/-- Outside a watch dispatch cycle `g_io_add_watch_full` returns the value of the counter,
links the new watch into the active list, takes a reference to the channel and leaves the
trace alone. -/
theorem g_io_add_watch_full_unlocked (W : World) (a : WatchArgs)
    (h : W.context.io_lock = false) :
    (g_io_add_watch_full W a.channel a.priority a.condition a.func a.user_data a.notify).1 =
      W.context.next_id ∧
    (g_io_add_watch_full W a.channel a.priority a.condition a.func a.user_data
      a.notify).2.context =
      { W.context with
        next_id := wrap_guint (W.context.next_id + 1),
        io_watches := watch_list_add W.context.io_watches (new_watch W a) } ∧
    (g_io_add_watch_full W a.channel a.priority a.condition a.func a.user_data
      a.notify).2.trace = W.trace ∧
    (g_io_add_watch_full W a.channel a.priority a.condition a.func a.user_data
      a.notify).2.channels = (g_io_channel_ref { W with brk := W.brk + 1 } a.channel).channels := by
  have hctx := g_io_channel_ref_context { W with brk := W.brk + 1 } a.channel
  have htr : (g_io_channel_ref { W with brk := W.brk + 1 } a.channel).trace = W.trace := by
    unfold g_io_channel_ref
    split <;> rfl
  unfold g_io_add_watch_full
  simp only [hctx, h, Bool.false_eq_true, if_false, htr, new_watch, and_self]

/-- Unlinking an address that the front part of a list does not hold unlinks it from the
rest. -/
theorem g_slist_remove_append {α : Type} (addr : α → Nat) (pre : List α) (x : α)
    (post : List α) (h : addr x ∉ pre.map addr) :
    g_slist_remove addr (pre ++ x :: post) (addr x) = pre ++ post := by
  induction pre with
  | nil => simp [g_slist_remove]
  | cons y pre ih =>
    simp only [List.map_cons, List.mem_cons, not_or] at h
    have hne : ¬ addr y = addr x := fun e => h.1 e.symm
    rw [List.cons_append, g_slist_remove, if_neg hne, ih h.2]
    rfl

/-- The search for an id that the front part of a list does not hold finds the first entry
behind it when that has the id. -/
theorem find_id_append {α : Type} (f : α → Nat) (pre : List α) (x : α) (post : List α)
    (h : f x ∉ pre.map f) :
    (pre ++ x :: post).find? (fun y => decide (f y = f x)) = some x := by
  induction pre with
  | nil => simp
  | cons y pre ih =>
    simp only [List.map_cons, List.mem_cons, not_or] at h
    have hne : ¬ f y = f x := fun e => h.1 e.symm
    simp only [List.cons_append, List.find?_cons, hne, decide_False, ih h.2]

/-- Storing twice at an address of a heap keeps the second value; storing the value that
is there changes nothing. -/
theorem heap_set_heap_set {α : Type} (h : Nat → Option α) (p : Nat) (v w : Option α)
    (hw : h p = w) : heap_set (heap_set h p v) p w = h := by
  funext q
  unfold heap_set
  by_cases hq : q = p
  · simp [hq, hw]
  · simp [hq]

/-- The function `g_io_channel_unref` on a channel that keeps a reference only lowers the count. -/
theorem g_io_channel_unref_kept (W : World) (channel : Nat) (ch : GIOChannel)
    (hch : W.channels channel = some ch) (hrc : 1 < ch.ref_count) :
    g_io_channel_unref W channel =
      { W with
        channels := heap_set W.channels channel (some ⟨ch.fd, ch.ref_count - 1, ch.closed,
          ch.close_on_unref⟩) } := by
  have hpos : ch.ref_count - 1 > 0 := by omega
  unfold g_io_channel_unref
  simp only [hch, hpos, if_true]

/-- The function `watch_free` on a watch whose channel keeps a reference: the events of the
destruction are added to the trace, the count of the channel is lowered, and nothing else
changes. -/
theorem watch_free_kept (W : World) (w : io_watch) (ch : GIOChannel)
    (hch : W.channels w.channel = some ch) (hrc : 1 < ch.ref_count) :
    (watch_free W w).trace = W.trace ++ watch_free_events w ∧
    (watch_free W w).channels =
      heap_set W.channels w.channel (some ⟨ch.fd, ch.ref_count - 1, ch.closed,
        ch.close_on_unref⟩) := by
  unfold watch_free watch_free_events
  cases hd : w.destroy with
  | none =>
    simp only
    rw [g_io_channel_unref_kept _ w.channel ch (by exact hch) hrc]
    exact ⟨by simp [World.log], rfl⟩
  | some notify =>
    simp only
    rw [g_io_channel_unref_kept _ w.channel ch (by exact hch) hrc]
    exact ⟨by simp [World.log], rfl⟩

/-- C21, amended: for every context that is not inside a watch dispatch cycle, every channel
that holds at least one reference and every new watch, provided the value of `next_id` is
not the id of a watch of the active list (as it can be once the 32-bit counter has wrapped
around) and the allocator hands out an address no watch of the list is at: registering the
watch with `g_io_add_watch_full` raises the reference count of the channel by one, and
`g_source_remove` of the returned id then returns TRUE, adds to the trace exactly the
destruction of the new watch (its destroy notifier called once if it has one, the release
of its channel reference, the release of the object), and leaves the channels, among them
the reference count of the channel, and the context as they were before the registration,
the active watch list included; of the context only `next_id` differs. -/
theorem g_io_add_watch_full_then_remove (W : World) (a : WatchArgs) (ch : GIOChannel)
    (hl : W.context.io_lock = false)
    (hch : W.channels a.channel = some ch) (hrc : 1 ≤ ch.ref_count)
    (hid : W.context.next_id ∉ W.context.io_watches.map io_watch.id)
    (hfresh : W.brk ∉ W.context.io_watches.map io_watch.ptr) :
    (g_io_add_watch_full W a.channel a.priority a.condition a.func a.user_data
      a.notify).2.channels a.channel = some { ch with ref_count := ch.ref_count + 1 } ∧
    (add_then_remove W a).1 = true ∧
    (add_then_remove W a).2.trace = W.trace ++ watch_free_events (new_watch W a) ∧
    (add_then_remove W a).2.channels = W.channels ∧
    (add_then_remove W a).2.context =
      { W.context with next_id := wrap_guint (W.context.next_id + 1) } ∧
    (add_then_remove W a).2.context.io_watches = W.context.io_watches := by
  obtain ⟨r1, r2, r3, r4⟩ := g_io_add_watch_full_unlocked W a hl
  have hrefch : (g_io_channel_ref { W with brk := W.brk + 1 } a.channel).channels =
      heap_set W.channels a.channel (some { ch with ref_count := ch.ref_count + 1 }) := by
    unfold g_io_channel_ref
    simp only [hch]
  rw [hrefch] at r4
  have hget : (g_io_add_watch_full W a.channel a.priority a.condition a.func a.user_data
      a.notify).2.channels a.channel = some { ch with ref_count := ch.ref_count + 1 } := by
    rw [r4]
    simp [heap_set]
  obtain ⟨pre, post, s1, s2, _, _⟩ :=
    g_slist_insert_sorted_split W.context.io_watches (new_watch W a) watch_prio_cmp
  have hpre_id : (new_watch W a).id ∉ pre.map io_watch.id := by
    intro hm
    apply hid
    rw [s1, List.map_append]
    exact List.mem_append_left _ hm
  have hpre_ptr : (new_watch W a).ptr ∉ pre.map io_watch.ptr := by
    intro hm
    apply hfresh
    rw [s1, List.map_append]
    exact List.mem_append_left _ hm
  have hlist : (g_io_add_watch_full W a.channel a.priority a.condition a.func a.user_data
      a.notify).2.context.io_watches = pre ++ new_watch W a :: post := by
    rw [r2]
    exact s2
  have hrem : g_io_remove_watch
      (g_io_add_watch_full W a.channel a.priority a.condition a.func a.user_data a.notify).2
      W.context.next_id =
      (true, watch_free
        { (g_io_add_watch_full W a.channel a.priority a.condition a.func a.user_data
            a.notify).2 with
          context := { (g_io_add_watch_full W a.channel a.priority a.condition a.func
              a.user_data a.notify).2.context with io_watches := pre ++ post } }
        (new_watch W a)) := by
    unfold g_io_remove_watch
    rw [hlist]
    have hf := find_id_append io_watch.id pre (new_watch W a) post hpre_id
    have hf' : (pre ++ new_watch W a :: post).find?
        (fun w => decide (w.id = W.context.next_id)) = some (new_watch W a) := hf
    simp only [hf']
    rw [g_slist_remove_append io_watch.ptr pre (new_watch W a) post hpre_ptr]
  have hsrc : add_then_remove W a =
      (true, watch_free
        { (g_io_add_watch_full W a.channel a.priority a.condition a.func a.user_data
            a.notify).2 with
          context := { (g_io_add_watch_full W a.channel a.priority a.condition a.func
              a.user_data a.notify).2.context with io_watches := pre ++ post } }
        (new_watch W a)) := by
    unfold add_then_remove g_source_remove
    rw [r1]
    simp only [hrem, if_true]
  obtain ⟨k1, k2⟩ := watch_free_kept
    { (g_io_add_watch_full W a.channel a.priority a.condition a.func a.user_data
        a.notify).2 with
      context := { (g_io_add_watch_full W a.channel a.priority a.condition a.func
          a.user_data a.notify).2.context with io_watches := pre ++ post } }
    (new_watch W a) { ch with ref_count := ch.ref_count + 1 } hget (by simp only; omega)
  refine ⟨hget, by rw [hsrc], ?_, ?_, ?_, ?_⟩
  · rw [hsrc]
    simp only
    rw [k1]
    simp only
    rw [r3]
  · rw [hsrc]
    simp only
    rw [k2]
    simp only
    rw [r4]
    have : ch.ref_count + 1 - 1 = ch.ref_count := by omega
    rw [this]
    exact heap_set_heap_set W.channels a.channel _ (some ch) hch
  · rw [hsrc]
    simp only
    rw [watch_free_context]
    simp only
    rw [r2, ← s1]
  · rw [hsrc]
    simp only
    rw [watch_free_context]
    simp only
    rw [← s1]

/-- What a run of timer registrations outside timer dispatch leaves of the world: the watch
lists, the guards, the channels and the trace are as they were, the counter and the
allocator have advanced by the number of registrations. -/
theorem register_all_timeouts_world (n : Nat) (interval function data : Nat) :
    ∀ W : World, W.context.timeout_lock = false →
      (register_all W (List.replicate n
        (Registration.timeout interval function data))).2.context.io_watches =
        W.context.io_watches ∧
      (register_all W (List.replicate n
        (Registration.timeout interval function data))).2.context.io_lock =
        W.context.io_lock ∧
      (register_all W (List.replicate n
        (Registration.timeout interval function data))).2.context.next_id % 4294967296 =
        (W.context.next_id + n) % 4294967296 ∧
      (n ≠ 0 → (register_all W (List.replicate n
        (Registration.timeout interval function data))).2.context.next_id < 4294967296) ∧
      (register_all W (List.replicate n
        (Registration.timeout interval function data))).2.brk = W.brk + n ∧
      (register_all W (List.replicate n
        (Registration.timeout interval function data))).2.channels = W.channels ∧
      (register_all W (List.replicate n
        (Registration.timeout interval function data))).2.trace = W.trace := by
  induction n with
  | zero => intro W _; simp [register_all]
  | succ n ih =>
    intro W hl
    have hstep : (g_timeout_add W interval function data).2.context.timeout_lock = false ∧
        (g_timeout_add W interval function data).2.context.io_watches =
          W.context.io_watches ∧
        (g_timeout_add W interval function data).2.context.io_lock = W.context.io_lock ∧
        (g_timeout_add W interval function data).2.context.next_id =
          wrap_guint (W.context.next_id + 1) ∧
        (g_timeout_add W interval function data).2.brk = W.brk + 1 ∧
        (g_timeout_add W interval function data).2.channels = W.channels ∧
        (g_timeout_add W interval function data).2.trace = W.trace := by
      unfold g_timeout_add
      simp only [hl, Bool.false_eq_true, if_false, and_self]
    obtain ⟨t1, t2, t3, t4, t5, t6, t7⟩ := hstep
    obtain ⟨i1, i2, i3, i4, i5, i6, i7⟩ := ih (g_timeout_add W interval function data).2 t1
    simp only [List.replicate_succ, register_all, register]
    refine ⟨by rw [i1, t2], by rw [i2, t3], ?_, ?_, by rw [i5, t5]; omega, by rw [i6, t6],
      by rw [i7, t7]⟩
    · rw [i3, t4]
      unfold wrap_guint
      omega
    · intro _
      by_cases hn : n = 0
      · subst hn
        simp only [List.replicate_zero, register_all, t4]
        unfold wrap_guint
        omega
      · exact i4 hn

/-- When the value of `next_id` is the id of a watch of priority 0 that is alone in the
active list, a watch of priority 5 registered now gets the same id and is linked behind the
old watch, and `g_source_remove` of the returned id destroys the old watch and leaves the
new one in the list. -/
theorem add_then_remove_collision (W : World)
    (hio : W.context.io_watches = [⟨3, 1, 2, 0, 1, 0, 100, 0, some 500⟩])
    (hnext : W.context.next_id = 1) (hlock : W.context.io_lock = false)
    (hbrk : W.brk = 4294967299) (htrace : W.trace = []) :
    W.context.io_watches.map (fun w => (w.ptr, w.id, w.priority)) = [(3, 1, 0)] ∧
    W.context.next_id = 1 ∧
    W.context.io_lock = false ∧
    (g_io_add_watch_full W 2 5 1 101 0 (some 501)).1 = 1 ∧
    (add_then_remove W ⟨2, 5, 1, 101, 0, some 501⟩).1 = true ∧
    (add_then_remove W ⟨2, 5, 1, 101, 0, some 501⟩).2.context.io_watches.map
        (fun w => (w.ptr, w.id, w.priority)) = [(4294967299, 1, 5)] ∧
    watch_trace 3 (add_then_remove W ⟨2, 5, 1, 101, 0, some 501⟩).2.trace =
      [Event.destroy 3 500 0, Event.unref 3 2, Event.free_watch 3] ∧
    watch_trace 4294967299 (add_then_remove W ⟨2, 5, 1, 101, 0, some 501⟩).2.trace = [] := by
  obtain ⟨r1, r2, r3, _⟩ := g_io_add_watch_full_unlocked W ⟨2, 5, 1, 101, 0, some 501⟩ hlock
  have hnew : new_watch W ⟨2, 5, 1, 101, 0, some 501⟩ =
      ⟨4294967299, 1, 2, 5, 1, 0, 101, 0, some 501⟩ := by
    unfold new_watch
    rw [hbrk, hnext]
  have hlist : (g_io_add_watch_full W 2 5 1 101 0 (some 501)).2.context.io_watches =
      (⟨3, 1, 2, 0, 1, 0, 100, 0, some 500⟩ : io_watch) ::
        [⟨4294967299, 1, 2, 5, 1, 0, 101, 0, some 501⟩] := by
    rw [r2]
    simp only
    rw [hio, hnew]
    decide
  have hrem := g_source_remove_head (g_io_add_watch_full W 2 5 1 101 0 (some 501)).2
    ⟨3, 1, 2, 0, 1, 0, 100, 0, some 500⟩ [⟨4294967299, 1, 2, 5, 1, 0, 101, 0, some 501⟩] hlist
  have hid : (g_io_add_watch_full W 2 5 1 101 0 (some 501)).1 = 1 := by
    rw [r1, hnext]
  have hatr : add_then_remove W ⟨2, 5, 1, 101, 0, some 501⟩ =
      (true, watch_free
        { (g_io_add_watch_full W 2 5 1 101 0 (some 501)).2 with
          context := { (g_io_add_watch_full W 2 5 1 101 0 (some 501)).2.context with
            io_watches := [⟨4294967299, 1, 2, 5, 1, 0, 101, 0, some 501⟩] } }
        ⟨3, 1, 2, 0, 1, 0, 100, 0, some 500⟩) := by
    unfold add_then_remove
    simp only
    rw [hid]
    exact hrem
  refine ⟨by rw [hio]; rfl, hnext, hlock, hid, by rw [hatr], ?_, ?_, ?_⟩
  · rw [hatr]
    simp only
    rw [watch_free_context]
    rfl
  · rw [hatr]
    simp only
    rw [watch_free_watch_trace]
    simp only
    rw [r3, htrace]
    decide
  · rw [hatr]
    simp only
    rw [watch_free_watch_trace]
    simp only
    rw [r3, htrace]
    decide

/-- C21 as stated fails. In a fresh process a watch of priority 0 with a destroy notifier
is registered (id 1, address 3) and 4294967295 timers after it, so that the 32-bit counter
`next_id` has wrapped around and is 1 again while the watch is still registered; this is
the state `W`, outside any dispatch cycle. A watch of priority 5 that is registered now
gets the id 1 as well and is linked behind the old watch, and `g_source_remove` of the
returned id returns TRUE but finds the old watch first: it destroys the old watch (its
destroy notifier 500 is called), does nothing about the new watch (address 4294967299),
and the active list is not the list it was before the registration. -/
theorem g_io_add_watch_full_then_remove_wrong_watch :
    ∃ W : World,
      W = (register_all (g_io_add_watch_full one_channel 2 0 1 100 0 (some 500)).2
        (List.replicate 4294967295 (Registration.timeout 0 0 0))).2 ∧
      W.context.io_watches.map (fun w => (w.ptr, w.id, w.priority)) = [(3, 1, 0)] ∧
      W.context.next_id = 1 ∧
      W.context.io_lock = false ∧
      (g_io_add_watch_full W 2 5 1 101 0 (some 501)).1 = 1 ∧
      (add_then_remove W ⟨2, 5, 1, 101, 0, some 501⟩).1 = true ∧
      (add_then_remove W ⟨2, 5, 1, 101, 0, some 501⟩).2.context.io_watches.map
          (fun w => (w.ptr, w.id, w.priority)) = [(4294967299, 1, 5)] ∧
      watch_trace 3 (add_then_remove W ⟨2, 5, 1, 101, 0, some 501⟩).2.trace =
        [Event.destroy 3 500 0, Event.unref 3 2, Event.free_watch 3] ∧
      watch_trace 4294967299 (add_then_remove W ⟨2, 5, 1, 101, 0, some 501⟩).2.trace =
        [] := by
  obtain ⟨w1, w2, w3, w4, w5, _, w7⟩ := register_all_timeouts_world 4294967295 0 0 0
    (g_io_add_watch_full one_channel 2 0 1 100 0 (some 500)).2 (by decide)
  refine ⟨_, rfl, add_then_remove_collision _ ?_ ?_ ?_ ?_ ?_⟩
  · rw [w1]
    decide
  · have h4 := w4 (by decide)
    have h3 : ((g_io_add_watch_full one_channel 2 0 1 100 0 (some 500)).2.context.next_id +
        4294967295) % 4294967296 = 1 := by decide
    rw [h3] at w3
    omega
  · rw [w2]
    decide
  · rw [w5]
    decide
  · rw [w7]
    decide

/-- C21, amended, at a concrete input: a second watch, with a destroy notifier, is
registered on the channel of `two_watches_polled` and removed again. -/
theorem g_io_add_watch_full_then_remove_witness :
    (add_then_remove two_watches_polled ⟨2, 1, 1, 102, 12, some 502⟩).1 = true ∧
    (add_then_remove two_watches_polled ⟨2, 1, 1, 102, 12, some 502⟩).2.trace =
      [Event.destroy 5 502 12, Event.unref 5 2, Event.free_watch 5] ∧
    (add_then_remove two_watches_polled ⟨2, 1, 1, 102, 12, some 502⟩).2.channels =
      two_watches_polled.channels ∧
    (add_then_remove two_watches_polled ⟨2, 1, 1, 102, 12, some 502⟩).2.context.io_watches =
      two_watches_polled.context.io_watches ∧
    (add_then_remove two_watches_polled ⟨2, 1, 1, 102, 12, some 502⟩).2.context.next_id =
      4 := by
  obtain ⟨_, h2, h3, h4, h5, h6⟩ := g_io_add_watch_full_then_remove two_watches_polled
    ⟨2, 1, 1, 102, 12, some 502⟩ ⟨7, 3, false, false⟩ (by decide) (by decide) (by decide)
    (by decide) (by decide)
  refine ⟨h2, ?_, h4, h6, ?_⟩
  · rw [h3]
    decide
  · rw [h5]
    decide

/-! ### UTF-8 validation: the bit operations -/

/-- What a mask of `m` ones above `k` zeros keeps of a number. -/
theorem and_shifted_mask (a k m : Nat) :
    a &&& (2 ^ k * (2 ^ m - 1)) = 2 ^ k * ((a / 2 ^ k) % 2 ^ m) := by
  apply Nat.eq_of_testBit_eq
  intro j
  rw [Nat.testBit_and, Nat.testBit_mul_pow_two, Nat.testBit_mul_pow_two,
    Nat.testBit_two_pow_sub_one, Nat.testBit_mod_two_pow, ← Nat.shiftRight_eq_div_pow,
    Nat.testBit_shiftRight]
  by_cases h : j ≥ k
  · have : k + (j - k) = j := by omega
    rw [this]
    cases a.testBit j <;> simp [h]
  · simp [h]

/-- The lead byte of a two-byte sequence: `110xxxxx`. -/
theorem byte_and_e0 (b : Nat) (hb : b < 256) : b &&& 0xe0 = 0xc0 ↔ 192 ≤ b ∧ b < 224 := by
  have h := and_shifted_mask b 5 3
  have e : b &&& 0xe0 = 2 ^ 5 * ((b / 2 ^ 5) % 2 ^ 3) := h
  rw [e]
  omega

/-- The lead bytes `0xC0` and `0xC1` of overlong two-byte sequences. -/
theorem byte_and_1e (b : Nat) (h1 : 192 ≤ b) (h2 : b < 224) : b &&& 0x1e = 0 ↔ b < 194 := by
  have h := and_shifted_mask b 1 4
  have e : b &&& 0x1e = 2 ^ 1 * ((b / 2 ^ 1) % 2 ^ 4) := h
  rw [e]
  omega

/-- The lead byte of a three-byte sequence: `1110xxxx`. -/
theorem byte_and_f0 (b : Nat) (hb : b < 256) : b &&& 0xf0 = 0xe0 ↔ 224 ≤ b ∧ b < 240 := by
  have h := and_shifted_mask b 4 4
  have e : b &&& 0xf0 = 2 ^ 4 * ((b / 2 ^ 4) % 2 ^ 4) := h
  rw [e]
  omega

/-- The lead byte of a four-byte sequence: `11110xxx`. -/
theorem byte_and_f8 (b : Nat) (hb : b < 256) : b &&& 0xf8 = 0xf0 ↔ 240 ≤ b ∧ b < 248 := by
  have h := and_shifted_mask b 3 5
  have e : b &&& 0xf8 = 2 ^ 3 * ((b / 2 ^ 3) % 2 ^ 5) := h
  rw [e]
  omega

/-- A continuation byte: `10xxxxxx`. -/
theorem byte_and_c0 (b : Nat) (hb : b < 256) : b &&& 0xc0 = 0x80 ↔ 128 ≤ b ∧ b < 192 := by
  have h := and_shifted_mask b 6 2
  have e : b &&& 0xc0 = 2 ^ 6 * ((b / 2 ^ 6) % 2 ^ 2) := h
  rw [e]
  omega

/-- The test for a surrogate. -/
theorem and_fffff800 (v : Nat) (hv : v < 4294967296) :
    v &&& 0xFFFFF800 = 0xD800 ↔ 0xD800 ≤ v ∧ v ≤ 0xDFFF := by
  have h := and_shifted_mask v 11 21
  have e : v &&& 0xFFFFF800 = 2 ^ 11 * ((v / 2 ^ 11) % 2 ^ 21) := h
  rw [e]
  omega

/-- The test for low 16 bits `0xFFFE` or `0xFFFF`. -/
theorem and_fffe (v : Nat) :
    v &&& 0xFFFE = 0xFFFE ↔ v % 65536 = 0xFFFE ∨ v % 65536 = 0xFFFF := by
  have h := and_shifted_mask v 1 15
  have e : v &&& 0xFFFE = 2 ^ 1 * ((v / 2 ^ 1) % 2 ^ 15) := h
  rw [e]
  omega

/-- The macro `UNICODE_VALID` accepts the valid code points. -/
theorem UNICODE_VALID_iff (v : Nat) : UNICODE_VALID v = true ↔ valid_code_point v := by
  unfold UNICODE_VALID valid_code_point
  by_cases hv : v < 0x110000
  · have h1 := and_fffff800 v (by omega)
    have h2 := and_fffe v
    simp only [Bool.and_eq_true, Bool.or_eq_true, decide_eq_true_eq, ne_eq, h1, h2]
    constructor
    · rintro ⟨⟨⟨a, b⟩, c⟩, d⟩
      exact ⟨a, b, by omega, by omega, by omega⟩
    · rintro ⟨a, b, c, d, e⟩
      exact ⟨⟨⟨a, b⟩, by omega⟩, by omega⟩
  · constructor
    · intro h
      simp only [Bool.and_eq_true, decide_eq_true_eq] at h
      exact absurd h.1.1.1 hv
    · intro h
      exact absurd h.1 hv

/-- The assignments `val <<= 6; val |= c & 0x3f` by arithmetic. -/
theorem shift_or_eq (v c : Nat) : (v <<< 6) ||| (c &&& 0x3f) = v * 64 + c % 64 := by
  have h1 : c &&& 0x3f = c % 64 := Nat.and_pow_two_sub_one_eq_mod c 6
  have h2 : v <<< 6 = 2 ^ 6 * v := by rw [Nat.shiftLeft_eq, Nat.mul_comm]
  have h3 : c % 64 < 2 ^ 6 := Nat.mod_lt _ (by decide)
  rw [h1, h2, ← Nat.mul_add_lt_is_or h3 v]
  omega

/-- The bits a mask `2^n - 1` keeps. -/
theorem and_low_mask (b n : Nat) : b &&& (2 ^ n - 1) = b % 2 ^ n :=
  Nat.and_pow_two_sub_one_eq_mod b n

/-! ### UTF-8 validation: one sequence -/

/-- With `max_len = -1` the macro `INCREMENT_AND_CHECK_MAX` fails at a NUL only. -/
theorem INCREMENT_AND_CHECK_MAX_neg (c i : Nat) :
    INCREMENT_AND_CHECK_MAX c i (-1) = decide (c = 0) := by
  unfold INCREMENT_AND_CHECK_MAX
  simp

/-- The macro `CONTINUATION_CHAR` by arithmetic. -/
theorem CONTINUATION_CHAR_eq (c val : Nat) (hc : c < 256) :
    CONTINUATION_CHAR c val =
      if 128 ≤ c ∧ c < 192 then some (val * 64 + c % 64) else none := by
  unfold CONTINUATION_CHAR
  have h := byte_and_c0 c hc
  by_cases hr : 128 ≤ c ∧ c < 192
  · rw [if_neg (not_not.mpr (h.mpr hr)), if_pos hr, shift_or_eq]
  · rw [if_pos (fun e => hr (h.mp e)), if_neg hr]

/-- The body of the loop of `g_utf8_validate`, when it does not fail, has advanced `i` by
one, two or three bytes of the string, for every `max_len`. -/
theorem g_utf8_validate_body_advance (max_len : Int) (b : Nat) (rest : List Nat) (i k : Nat)
    (h : g_utf8_validate_body max_len b rest i = some k) :
    (k = 1 ∨ k = 2 ∨ k = 3) ∧ k ≤ rest.length := by
  unfold g_utf8_validate_body at h
  repeat' split at h
  all_goals first
    | exact Option.noConfusion h
    | (simp only [Option.some.injEq] at h
       subst h
       simp)

/-- The loop of `g_utf8_validate` at a byte that is not below 128, for every `max_len`: it
fails when the body fails, and goes on behind the bytes the body has passed over
otherwise. -/
theorem g_utf8_validate_loop_body (max_len : Int) (b : Nat) (rest : List Nat) (i : Nat)
    (h0 : b ≠ 0) (hm : ¬ (max_len ≥ 0 ∧ (i : Int) ≥ max_len)) (h128 : ¬ b < 128) :
    g_utf8_validate_loop max_len (b :: rest) i =
      match g_utf8_validate_body max_len b rest i with
      | some k => g_utf8_validate_loop max_len (rest.drop k) (i + k + 1)
      | none => (false, i) := by
  rw [g_utf8_validate_loop.eq_def]
  simp only [h0, hm, h128, if_false]
  rcases hb : g_utf8_validate_body max_len b rest i with _ | k
  · rfl
  · obtain ⟨hk, hl⟩ := g_utf8_validate_body_advance max_len b rest i k hb
    rcases hk with rfl | rfl | rfl
    · rcases rest with _ | ⟨c1, r⟩
      · simp at hl
      · rfl
    · rcases rest with _ | ⟨c1, _ | ⟨c2, r⟩⟩
      · simp at hl
      · simp at hl
      · rfl
    · rcases rest with _ | ⟨c1, _ | ⟨c2, _ | ⟨c3, r⟩⟩⟩
      · simp at hl
      · simp at hl
      · simp at hl
      · rfl

/-- The loop of `g_utf8_validate` passes over a byte below 128. -/
theorem g_utf8_validate_loop_ascii (b : Nat) (rest : List Nat) (i : Nat)
    (h0 : 0 < b) (h1 : b < 128) :
    g_utf8_validate_loop (-1) (b :: rest) i = g_utf8_validate_loop (-1) rest (i + 1) := by
  rw [g_utf8_validate_loop.eq_def]
  have hne : ¬ b = 0 := by omega
  have hmax : ¬ ((-1 : Int) ≥ 0 ∧ (i : Int) ≥ -1) := by omega
  simp only [hne, hmax, h1, if_true, if_false]

/-- The loop of `g_utf8_validate` at a byte that is not below 128: the body decides. -/
theorem g_utf8_validate_loop_lead (b : Nat) (rest : List Nat) (i : Nat) (h1 : 128 ≤ b) :
    g_utf8_validate_loop (-1) (b :: rest) i =
      match g_utf8_validate_body (-1) b rest i, rest with
      | some 1, _ :: rest1 => g_utf8_validate_loop (-1) rest1 (i + 2)
      | some 2, _ :: _ :: rest2 => g_utf8_validate_loop (-1) rest2 (i + 3)
      | some 3, _ :: _ :: _ :: rest3 => g_utf8_validate_loop (-1) rest3 (i + 4)
      | _, _ => (false, i) := by
  rw [g_utf8_validate_loop.eq_def]
  have hne : ¬ b = 0 := by omega
  have hmax : ¬ ((-1 : Int) ≥ 0 ∧ (i : Int) ≥ -1) := by omega
  have h128 : ¬ b < 128 := by omega
  simp only [hne, hmax, h128, if_false]

/-- The body of the loop fails at a byte that cannot start a sequence. -/
theorem g_utf8_validate_body_no_lead (b : Nat) (rest : List Nat) (i : Nat)
    (hb : b < 256) (h : b < 192 ∨ 248 ≤ b) :
    g_utf8_validate_body (-1) b rest i = none := by
  unfold g_utf8_validate_body
  have he0 : ¬ b &&& 0xe0 = 0xc0 := fun e => by have := (byte_and_e0 b hb).mp e; omega
  have hf0 : ¬ b &&& 0xf0 = 0xe0 := fun e => by have := (byte_and_f0 b hb).mp e; omega
  have hf8 : ¬ b &&& 0xf8 = 0xf0 := fun e => by have := (byte_and_f8 b hb).mp e; omega
  simp only [he0, hf0, hf8, if_false]

/-- The body of the loop at the lead byte of a two-byte sequence. -/
theorem g_utf8_validate_body_two (b : Nat) (rest : List Nat) (i : Nat)
    (h1 : 192 ≤ b) (h2 : b < 224) (hs : ∀ x ∈ rest, x < 256) :
    g_utf8_validate_body (-1) b rest i =
      match rest with
      | c1 :: _ => if 194 ≤ b ∧ 128 ≤ c1 ∧ c1 < 192 then some 1 else none
      | [] => none := by
  unfold g_utf8_validate_body
  have he0 : b &&& 0xe0 = 0xc0 := (byte_and_e0 b (by omega)).mpr ⟨h1, h2⟩
  have h1e := byte_and_1e b h1 h2
  simp only [he0, if_true]
  by_cases h194 : b < 194
  · have hn : ¬ 194 ≤ b := by omega
    simp only [h1e.mpr h194, hn, false_and, if_true, if_false]
    cases rest <;> rfl
  · have hn1e : ¬ b &&& 0x1e = 0 := fun e => h194 (h1e.mp e)
    have hp : 194 ≤ b := by omega
    simp only [hn1e, hp, true_and, if_false]
    cases rest with
    | nil => rfl
    | cons c1 rest1 =>
      have hc := byte_and_c0 c1 (hs c1 (List.mem_cons_self _ _))
      simp only [INCREMENT_AND_CHECK_MAX_neg, decide_eq_true_eq]
      by_cases hr : 128 ≤ c1 ∧ c1 < 192
      · have hc0 : ¬ c1 = 0 := by omega
        have hcc : ¬ c1 &&& 0xc0 ≠ 0x80 := not_not.mpr (hc.mpr hr)
        simp [hc0, hcc, hr]
      · by_cases hc0 : c1 = 0
        · simp only [hc0, if_true]
          simp
        · have hcc : c1 &&& 0xc0 ≠ 0x80 := fun e => hr (hc.mp e)
          simp [hc0, hcc, hr]

/-- The body of the loop at the lead byte of a three-byte sequence. -/
theorem g_utf8_validate_body_three (b : Nat) (rest : List Nat) (i : Nat)
    (h1 : 224 ≤ b) (h2 : b < 240) (hs : ∀ x ∈ rest, x < 256) :
    g_utf8_validate_body (-1) b rest i =
      match rest with
      | c1 :: c2 :: _ =>
        if 128 ≤ c1 ∧ c1 < 192 ∧ 128 ≤ c2 ∧ c2 < 192 ∧
            2048 ≤ (b - 224) * 4096 + (c1 - 128) * 64 + (c2 - 128) ∧
            valid_code_point ((b - 224) * 4096 + (c1 - 128) * 64 + (c2 - 128))
        then some 2 else none
      | _ => none := by
  unfold g_utf8_validate_body
  have he0 : ¬ b &&& 0xe0 = 0xc0 := fun e => by have := (byte_and_e0 b (by omega)).mp e; omega
  have hf0 : b &&& 0xf0 = 0xe0 := (byte_and_f0 b (by omega)).mpr ⟨h1, h2⟩
  have hv0 : b &&& 0x0f = b - 224 := by
    have e : b &&& 0x0f = b % 2 ^ 4 := and_low_mask b 4
    rw [e]; omega
  simp only [he0, hf0, hv0, if_true, if_false, INCREMENT_AND_CHECK_MAX_neg, decide_eq_true_eq]
  rcases rest with _ | ⟨c1, _ | ⟨c2, rest2⟩⟩
  · rfl
  · have hc1 : c1 < 256 := hs c1 (List.mem_cons_self _ _)
    simp only [CONTINUATION_CHAR_eq c1 _ hc1]
    by_cases hz : c1 = 0
    · simp only [hz, if_true]
    · by_cases hr : 128 ≤ c1 ∧ c1 < 192
      · simp only [hz, hr, and_self, if_true, if_false]
      · simp only [hz, hr, if_false]
  · have hc1 : c1 < 256 := hs c1 (List.mem_cons_self _ _)
    have hc2 : c2 < 256 := hs c2 (List.mem_cons_of_mem _ (List.mem_cons_self _ _))
    simp only [CONTINUATION_CHAR_eq c1 _ hc1]
    by_cases hr1 : 128 ≤ c1 ∧ c1 < 192
    · have hz1 : ¬ c1 = 0 := by omega
      simp only [hz1, hr1, and_self, if_true, if_false, CONTINUATION_CHAR_eq c2 _ hc2]
      by_cases hr2 : 128 ≤ c2 ∧ c2 < 192
      · have hz2 : ¬ c2 = 0 := by omega
        have hv : ((b - 224) * 64 + c1 % 64) * 64 + c2 % 64 =
            (b - 224) * 4096 + (c1 - 128) * 64 + (c2 - 128) := by omega
        have hsh : (1 <<< 11 : Nat) = 2048 := rfl
        simp only [hz2, hr2, hr1, and_self, true_and, if_true, if_false, hv, hsh]
        by_cases hlo : 2048 ≤ (b - 224) * 4096 + (c1 - 128) * 64 + (c2 - 128)
        · by_cases hval : valid_code_point ((b - 224) * 4096 + (c1 - 128) * 64 + (c2 - 128))
          · have hu := (UNICODE_VALID_iff _).mpr hval
            have hnl : ¬ (b - 224) * 4096 + (c1 - 128) * 64 + (c2 - 128) < 2048 := by omega
            simp only [hu, hnl, hlo, hval, and_self, or_self, if_true, if_false]
            simp
          · have hu : UNICODE_VALID ((b - 224) * 4096 + (c1 - 128) * 64 + (c2 - 128)) = false := by
              cases h : UNICODE_VALID ((b - 224) * 4096 + (c1 - 128) * 64 + (c2 - 128))
              · rfl
              · exact absurd ((UNICODE_VALID_iff _).mp h) hval
            simp only [hu, hval, and_false, or_true, if_true, if_false]
        · have hl : (b - 224) * 4096 + (c1 - 128) * 64 + (c2 - 128) < 2048 := by omega
          simp only [hl, hlo, false_and, true_or, if_true, if_false]
      · by_cases hz2 : c2 = 0
        · simp only [hz2, if_true]
          simp
        · simp only [hz2, hr2, if_false]
          rw [if_neg]
          intro h
          exact hr2 ⟨h.2.2.1, h.2.2.2.1⟩
    · by_cases hz1 : c1 = 0
      · simp only [hz1, if_true]
        simp
      · simp only [hz1, hr1, false_and, if_false]
        have hr1a : ¬ (128 ≤ c1 ∧ c1 < 192 ∧ 128 ≤ c2 ∧ c2 < 192 ∧
            2048 ≤ (b - 224) * 4096 + (c1 - 128) * 64 + (c2 - 128) ∧
            valid_code_point ((b - 224) * 4096 + (c1 - 128) * 64 + (c2 - 128))) :=
          fun h => hr1 ⟨h.1, h.2.1⟩
        simp only [hr1a, if_false]

/-- The body of the loop at the lead byte of a four-byte sequence. -/
theorem g_utf8_validate_body_four (b : Nat) (rest : List Nat) (i : Nat)
    (h1 : 240 ≤ b) (h2 : b < 248) (hs : ∀ x ∈ rest, x < 256) :
    g_utf8_validate_body (-1) b rest i =
      match rest with
      | c1 :: c2 :: c3 :: _ =>
        if 128 ≤ c1 ∧ c1 < 192 ∧ 128 ≤ c2 ∧ c2 < 192 ∧ 128 ≤ c3 ∧ c3 < 192 ∧
            65536 ≤ (b - 240) * 262144 + (c1 - 128) * 4096 + (c2 - 128) * 64 + (c3 - 128) ∧
            valid_code_point ((b - 240) * 262144 + (c1 - 128) * 4096 + (c2 - 128) * 64 + (c3 - 128))
        then some 3 else none
      | _ => none := by
  unfold g_utf8_validate_body
  have he0 : ¬ b &&& 0xe0 = 0xc0 := fun e => by have := (byte_and_e0 b (by omega)).mp e; omega
  have hf0 : ¬ b &&& 0xf0 = 0xe0 := fun e => by have := (byte_and_f0 b (by omega)).mp e; omega
  have hf8 : b &&& 0xf8 = 0xf0 := (byte_and_f8 b (by omega)).mpr ⟨h1, h2⟩
  have hv0 : b &&& 0x07 = b - 240 := by
    have e : b &&& 0x07 = b % 2 ^ 3 := and_low_mask b 3
    rw [e]; omega
  simp only [he0, hf0, hf8, hv0, if_true, if_false, INCREMENT_AND_CHECK_MAX_neg,
    decide_eq_true_eq]
  rcases rest with _ | ⟨c1, _ | ⟨c2, _ | ⟨c3, rest3⟩⟩⟩
  · rfl
  · have hc1 : c1 < 256 := hs c1 (List.mem_cons_self _ _)
    simp only [CONTINUATION_CHAR_eq c1 _ hc1]
    by_cases hz : c1 = 0
    · simp only [hz, if_true]
    · by_cases hr : 128 ≤ c1 ∧ c1 < 192
      · simp only [hz, hr, and_self, if_true, if_false]
      · simp only [hz, hr, if_false]
  · have hc1 : c1 < 256 := hs c1 (List.mem_cons_self _ _)
    have hc2 : c2 < 256 := hs c2 (List.mem_cons_of_mem _ (List.mem_cons_self _ _))
    simp only [CONTINUATION_CHAR_eq c1 _ hc1]
    by_cases hz1 : c1 = 0
    · simp only [hz1, if_true]
    · by_cases hr1 : 128 ≤ c1 ∧ c1 < 192
      · simp only [hz1, hr1, and_self, if_true, if_false, CONTINUATION_CHAR_eq c2 _ hc2]
        by_cases hz2 : c2 = 0
        · simp only [hz2, if_true]
        · by_cases hr2 : 128 ≤ c2 ∧ c2 < 192
          · simp only [hz2, hr2, and_self, if_true, if_false]
          · simp only [hz2, hr2, if_false]
      · simp only [hz1, hr1, if_false]
  · have hc1 : c1 < 256 := hs c1 (List.mem_cons_self _ _)
    have hc2 : c2 < 256 := hs c2 (List.mem_cons_of_mem _ (List.mem_cons_self _ _))
    have hc3 : c3 < 256 :=
      hs c3 (List.mem_cons_of_mem _ (List.mem_cons_of_mem _ (List.mem_cons_self _ _)))
    simp only [CONTINUATION_CHAR_eq c1 _ hc1]
    by_cases hz1 : c1 = 0
    · simp only [hz1, if_true]
      simp
    by_cases hr1 : 128 ≤ c1 ∧ c1 < 192
    swap
    · simp only [hz1, hr1, if_false]
      rw [if_neg]
      intro h
      exact hr1 ⟨h.1, h.2.1⟩
    simp only [hz1, hr1, and_self, if_true, if_false, CONTINUATION_CHAR_eq c2 _ hc2]
    by_cases hz2 : c2 = 0
    · simp only [hz2, if_true]
      simp
    by_cases hr2 : 128 ≤ c2 ∧ c2 < 192
    swap
    · simp only [hz2, hr2, if_false]
      rw [if_neg]
      intro h
      exact hr2 ⟨h.2.2.1, h.2.2.2.1⟩
    simp only [hz2, hr2, and_self, if_true, if_false, CONTINUATION_CHAR_eq c3 _ hc3]
    by_cases hz3 : c3 = 0
    · simp only [hz3, if_true]
      simp
    by_cases hr3 : 128 ≤ c3 ∧ c3 < 192
    swap
    · simp only [hz3, hr3, if_false]
      rw [if_neg]
      intro h
      exact hr3 ⟨h.2.2.2.2.1, h.2.2.2.2.2.1⟩
    have hv : (((b - 240) * 64 + c1 % 64) * 64 + c2 % 64) * 64 + c3 % 64 = (b - 240) * 262144 + (c1 - 128) * 4096 + (c2 - 128) * 64 + (c3 - 128) := by omega
    have hsh : (1 <<< 16 : Nat) = 65536 := rfl
    simp only [hz3, hr3, and_self, if_true, if_false, hv, hsh]
    by_cases hlo : 65536 ≤ (b - 240) * 262144 + (c1 - 128) * 4096 + (c2 - 128) * 64 + (c3 - 128)
    swap
    · have hl : (b - 240) * 262144 + (c1 - 128) * 4096 + (c2 - 128) * 64 + (c3 - 128) < 65536 := by omega
      simp only [hl, true_or, if_true]
      rw [if_neg]
      intro h
      exact hlo h.2.2.2.2.2.2.1
    by_cases hval : valid_code_point ((b - 240) * 262144 + (c1 - 128) * 4096 + (c2 - 128) * 64 + (c3 - 128))
    · have hu := (UNICODE_VALID_iff _).mpr hval
      have hnl : ¬ (b - 240) * 262144 + (c1 - 128) * 4096 + (c2 - 128) * 64 + (c3 - 128) < 65536 := by omega
      have hc : ¬ ((b - 240) * 262144 + (c1 - 128) * 4096 + (c2 - 128) * 64 + (c3 - 128) < 65536 ∨
          UNICODE_VALID ((b - 240) * 262144 + (c1 - 128) * 4096 + (c2 - 128) * 64 + (c3 - 128)) = false) := by
        rw [hu]
        intro h
        rcases h with h | h
        · exact hnl h
        · exact Bool.noConfusion h
      rw [if_neg hc, if_pos ⟨trivial, trivial, trivial, trivial, trivial, trivial, hlo, hval⟩]
    · have hu : UNICODE_VALID ((b - 240) * 262144 + (c1 - 128) * 4096 + (c2 - 128) * 64 + (c3 - 128)) = false := by
        cases h : UNICODE_VALID ((b - 240) * 262144 + (c1 - 128) * 4096 + (c2 - 128) * 64 + (c3 - 128))
        · rfl
        · exact absurd ((UNICODE_VALID_iff _).mp h) hval
      simp only [hu, or_true, if_true]
      rw [if_neg]
      intro h
      exact hval h.2.2.2.2.2.2.2

/-- The decoder at a list that is not empty. -/
theorem utf8_decode_cons (b : Nat) (rest : List Nat) :
    utf8_decode (b :: rest) =
      if b < 128 then some (b, 1, rest)
      else if b < 194 then none
      else if b < 224 then
        match rest with
        | c1 :: rest1 =>
          if 128 ≤ c1 ∧ c1 < 192 then some ((b - 192) * 64 + (c1 - 128), 2, rest1) else none
        | _ => none
      else if b < 240 then
        match rest with
        | c1 :: c2 :: rest2 =>
          if 128 ≤ c1 ∧ c1 < 192 ∧ 128 ≤ c2 ∧ c2 < 192 ∧
              2048 ≤ (b - 224) * 4096 + (c1 - 128) * 64 + (c2 - 128) ∧
              valid_code_point ((b - 224) * 4096 + (c1 - 128) * 64 + (c2 - 128))
          then some ((b - 224) * 4096 + (c1 - 128) * 64 + (c2 - 128), 3, rest2) else none
        | _ => none
      else if b < 248 then
        match rest with
        | c1 :: c2 :: c3 :: rest3 =>
          if 128 ≤ c1 ∧ c1 < 192 ∧ 128 ≤ c2 ∧ c2 < 192 ∧ 128 ≤ c3 ∧ c3 < 192 ∧
              65536 ≤ (b - 240) * 262144 + (c1 - 128) * 4096 + (c2 - 128) * 64 + (c3 - 128) ∧
              valid_code_point
                ((b - 240) * 262144 + (c1 - 128) * 4096 + (c2 - 128) * 64 + (c3 - 128))
          then some ((b - 240) * 262144 + (c1 - 128) * 4096 + (c2 - 128) * 64 + (c3 - 128), 4,
            rest3)
          else none
        | _ => none
      else none := rfl

/-- One pass of the loop of `g_utf8_validate` with `max_len = -1`, at a byte that is not
NUL: it passes over the sequence the arithmetic decoder finds, and fails where the decoder
finds none. -/
theorem g_utf8_validate_loop_step (b : Nat) (rest : List Nat) (i : Nat)
    (h0 : 0 < b) (hb : b < 256) (hs : ∀ x ∈ rest, x < 256) :
    g_utf8_validate_loop (-1) (b :: rest) i =
      match utf8_decode (b :: rest) with
      | some (_, n, tail) => g_utf8_validate_loop (-1) tail (i + n)
      | none => (false, i) := by
  by_cases h128 : b < 128
  · rw [g_utf8_validate_loop_ascii b rest i h0 h128, utf8_decode_cons]
    simp only [h128, if_true]
  rw [g_utf8_validate_loop_lead b rest i (by omega), utf8_decode_cons]
  simp only [h128, if_false]
  by_cases h192 : b < 192
  · have h194 : b < 194 := by omega
    rw [g_utf8_validate_body_no_lead b rest i hb (Or.inl h192)]
    simp only [h194, if_true]
  by_cases h224 : b < 224
  · rw [g_utf8_validate_body_two b rest i (by omega) h224 hs]
    by_cases h194 : b < 194
    · have hn : ¬ 194 ≤ b := by omega
      simp only [h194, hn, false_and, if_true, if_false]
      cases rest <;> rfl
    · have hp : 194 ≤ b := by omega
      simp only [h194, h224, hp, true_and, if_true, if_false]
      rcases rest with _ | ⟨c1, rest1⟩
      · rfl
      · by_cases hr : 128 ≤ c1 ∧ c1 < 192
        · simp only [hr, and_self, if_true]
        · simp only [hr, if_false]
  have hn194 : ¬ b < 194 := by omega
  by_cases h240 : b < 240
  · rw [g_utf8_validate_body_three b rest i (by omega) h240 hs]
    simp only [hn194, h224, h240, if_true, if_false]
    rcases rest with _ | ⟨c1, _ | ⟨c2, rest2⟩⟩
    · rfl
    · rfl
    · simp only []
      split_ifs <;> rfl
  by_cases h248 : b < 248
  · rw [g_utf8_validate_body_four b rest i (by omega) h248 hs]
    simp only [hn194, h224, h240, h248, if_true, if_false]
    rcases rest with _ | ⟨c1, _ | ⟨c2, _ | ⟨c3, rest3⟩⟩⟩
    · rfl
    · rfl
    · rfl
    · simp only []
      split_ifs <;> rfl
  · rw [g_utf8_validate_body_no_lead b rest i hb (Or.inr (by omega))]
    simp only [hn194, h224, h240, h248, if_false]

/-! ### UTF-8 validation: the decoder and the encoder -/

/-- What the decoder finds is the shortest encoding of a valid code point. -/
theorem utf8_decode_sound (s : List Nat) (c n : Nat) (tail : List Nat)
    (h : utf8_decode s = some (c, n, tail)) :
    valid_code_point c ∧ s = utf8_encode c ++ tail ∧ n = (utf8_encode c).length := by
  rcases s with _ | ⟨b, rest⟩
  · simp [utf8_decode] at h
  rw [utf8_decode_cons] at h
  by_cases h128 : b < 128
  · simp only [h128, if_true, Option.some.injEq, Prod.mk.injEq] at h
    obtain ⟨rfl, rfl, rfl⟩ := h
    refine ⟨?_, ?_, ?_⟩
    · unfold valid_code_point; omega
    · simp [utf8_encode, h128]
    · simp [utf8_encode, h128]
  simp only [h128, if_false] at h
  by_cases h194 : b < 194
  · simp [h194] at h
  simp only [h194, if_false] at h
  by_cases h224 : b < 224
  · simp only [h224, if_true] at h
    rcases rest with _ | ⟨c1, rest1⟩
    · simp at h
    simp only [] at h
    by_cases hr : 128 ≤ c1 ∧ c1 < 192
    · simp only [hr, and_self, if_true, Option.some.injEq, Prod.mk.injEq] at h
      obtain ⟨rfl, rfl, rfl⟩ := h
      have k1 : ¬ (b - 192) * 64 + (c1 - 128) < 128 := by omega
      have k2 : (b - 192) * 64 + (c1 - 128) < 2048 := by omega
      refine ⟨?_, ?_, ?_⟩
      · unfold valid_code_point; omega
      · simp only [utf8_encode, k1, k2, if_true, if_false, List.cons_append, List.nil_append,
          List.cons.injEq, and_true]
        omega
      · simp [utf8_encode, k1, k2]
    · simp [hr] at h
  simp only [h224, if_false] at h
  by_cases h240 : b < 240
  · simp only [h240, if_true] at h
    rcases rest with _ | ⟨c1, _ | ⟨c2, rest2⟩⟩
    · simp at h
    · simp at h
    simp only [] at h
    split_ifs at h with hc
    simp only [Option.some.injEq, Prod.mk.injEq] at h
    obtain ⟨rfl, rfl, rfl⟩ := h
    obtain ⟨a1, a2, a3, a4, a5, a6⟩ := hc
    have k1 : ¬ (b - 224) * 4096 + (c1 - 128) * 64 + (c2 - 128) < 128 := by omega
    have k2 : ¬ (b - 224) * 4096 + (c1 - 128) * 64 + (c2 - 128) < 2048 := by omega
    have k3 : (b - 224) * 4096 + (c1 - 128) * 64 + (c2 - 128) < 65536 := by omega
    refine ⟨a6, ?_, ?_⟩
    · simp only [utf8_encode, k1, k2, k3, if_true, if_false, List.cons_append,
        List.nil_append, List.cons.injEq, and_true]
      omega
    · simp [utf8_encode, k1, k2, k3]
  simp only [h240, if_false] at h
  by_cases h248 : b < 248
  · simp only [h248, if_true] at h
    rcases rest with _ | ⟨c1, _ | ⟨c2, _ | ⟨c3, rest3⟩⟩⟩
    · simp at h
    · simp at h
    · simp at h
    simp only [] at h
    split_ifs at h with hc
    simp only [Option.some.injEq, Prod.mk.injEq] at h
    obtain ⟨rfl, rfl, rfl⟩ := h
    obtain ⟨a1, a2, a3, a4, a5, a6, a7, a8⟩ := hc
    have k1 : ¬ (b - 240) * 262144 + (c1 - 128) * 4096 + (c2 - 128) * 64 + (c3 - 128) < 128 := by
      omega
    have k2 : ¬ (b - 240) * 262144 + (c1 - 128) * 4096 + (c2 - 128) * 64 + (c3 - 128) < 2048 := by
      omega
    have k3 : ¬ (b - 240) * 262144 + (c1 - 128) * 4096 + (c2 - 128) * 64 + (c3 - 128) < 65536 := by
      omega
    refine ⟨a8, ?_, ?_⟩
    · simp only [utf8_encode, k1, k2, k3, if_false, List.cons_append,
        List.nil_append, List.cons.injEq, and_true]
      omega
    · simp [utf8_encode, k1, k2, k3]
  · simp [h248] at h

/-- The decoder finds the shortest encoding of a valid code point at the start of a list. -/
theorem utf8_decode_encode (c : Nat) (tail : List Nat) (hc : valid_code_point c) :
    utf8_decode (utf8_encode c ++ tail) = some (c, (utf8_encode c).length, tail) := by
  obtain ⟨v1, v2, v3, v4, v5⟩ := id hc
  unfold utf8_encode
  by_cases k1 : c < 0x80
  · have k1a : c < 128 := k1
    simp only [k1, if_true, List.cons_append, List.nil_append, utf8_decode_cons, k1a,
      List.length_singleton]
  simp only [k1, if_false]
  by_cases k2 : c < 0x800
  · simp only [k2, if_true, List.cons_append, List.nil_append, utf8_decode_cons]
    have e1 : ¬ 0xC0 + c / 64 < 128 := by omega
    have e2 : ¬ 0xC0 + c / 64 < 194 := by omega
    have e3 : 0xC0 + c / 64 < 224 := by omega
    have e4 : 128 ≤ 0x80 + c % 64 ∧ 0x80 + c % 64 < 192 := by omega
    have e5 : (0xC0 + c / 64 - 192) * 64 + (0x80 + c % 64 - 128) = c := by omega
    simp only [e1, e2, e3, e4, e5, and_self, if_true, if_false, List.length_cons,
      List.length_nil]
  simp only [k2, if_false]
  by_cases k3 : c < 0x10000
  · simp only [k3, if_true, List.cons_append, List.nil_append, utf8_decode_cons]
    have e1 : ¬ 0xE0 + c / 4096 < 128 := by omega
    have e2 : ¬ 0xE0 + c / 4096 < 194 := by omega
    have e3 : ¬ 0xE0 + c / 4096 < 224 := by omega
    have e4 : 0xE0 + c / 4096 < 240 := by omega
    have e5 : (0xE0 + c / 4096 - 224) * 4096 + (0x80 + c / 64 % 64 - 128) * 64 +
        (0x80 + c % 64 - 128) = c := by omega
    have e6 : 128 ≤ 0x80 + c / 64 % 64 ∧ 0x80 + c / 64 % 64 < 192 ∧
        128 ≤ 0x80 + c % 64 ∧ 0x80 + c % 64 < 192 ∧ 2048 ≤ c ∧ valid_code_point c :=
      ⟨by omega, by omega, by omega, by omega, by omega, hc⟩
    simp only [e1, e2, e3, e4, e5, e6, and_self, if_true, if_false, List.length_cons,
      List.length_nil]
  · simp only [k3, if_false, List.cons_append, List.nil_append, utf8_decode_cons]
    have e1 : ¬ 0xF0 + c / 262144 < 128 := by omega
    have e2 : ¬ 0xF0 + c / 262144 < 194 := by omega
    have e3 : ¬ 0xF0 + c / 262144 < 224 := by omega
    have e4 : ¬ 0xF0 + c / 262144 < 240 := by omega
    have e4a : 0xF0 + c / 262144 < 248 := by omega
    have e5 : (0xF0 + c / 262144 - 240) * 262144 + (0x80 + c / 4096 % 64 - 128) * 4096 +
        (0x80 + c / 64 % 64 - 128) * 64 + (0x80 + c % 64 - 128) = c := by omega
    have e6 : 128 ≤ 0x80 + c / 4096 % 64 ∧ 0x80 + c / 4096 % 64 < 192 ∧
        128 ≤ 0x80 + c / 64 % 64 ∧ 0x80 + c / 64 % 64 < 192 ∧
        128 ≤ 0x80 + c % 64 ∧ 0x80 + c % 64 < 192 ∧ 65536 ≤ c ∧ valid_code_point c :=
      ⟨by omega, by omega, by omega, by omega, by omega, by omega, by omega, hc⟩
    simp only [e1, e2, e3, e4, e4a, e5, e6, and_self, if_true, if_false, List.length_cons,
      List.length_nil]

/-- An encoding has a byte. -/
theorem utf8_encode_length_pos (c : Nat) : 1 ≤ (utf8_encode c).length := by
  unfold utf8_encode
  split_ifs <;> simp

/-- No valid encoding starts where the decoder finds none. -/
theorem utf8_decode_none (rest : List Nat) (h : utf8_decode rest = none) (c : Nat)
    (hc : valid_code_point c) : ¬ utf8_encode c <+: rest := by
  rintro ⟨t, rfl⟩
  rw [utf8_decode_encode c t hc] at h
  exact Option.noConfusion h

/-! ### UTF-8 validation: the whole string -/

/-- The loop of `g_utf8_validate` at the end of the string. -/
theorem g_utf8_validate_loop_nil (max_len : Int) (i : Nat) :
    g_utf8_validate_loop max_len [] i = (true, i) := by
  rw [g_utf8_validate_loop.eq_def]

/-- The loop of `g_utf8_validate` with `max_len = -1` passes over the encoding of a valid
code point. -/
theorem g_utf8_validate_loop_encode (c : Nat) (tail : List Nat) (i : Nat)
    (hc : valid_code_point c) (hs : string_bytes (utf8_encode c ++ tail)) :
    g_utf8_validate_loop (-1) (utf8_encode c ++ tail) i =
      g_utf8_validate_loop (-1) tail (i + (utf8_encode c).length) := by
  have hd := utf8_decode_encode c tail hc
  have hl := utf8_encode_length_pos c
  rcases hst : utf8_encode c ++ tail with _ | ⟨b, rest⟩
  · have := congrArg List.length hst
    simp only [List.length_append, List.length_nil] at this
    omega
  · rw [hst] at hs hd
    have hb := hs b (List.mem_cons_self _ _)
    rw [g_utf8_validate_loop_step b rest i hb.1 hb.2
      (fun x hx => (hs x (List.mem_cons_of_mem _ hx)).2), hd]

/-- The loop of `g_utf8_validate` with `max_len = -1` accepts a concatenation of encodings
of valid code points. -/
theorem g_utf8_validate_loop_accepts (cs : List Nat) :
    ∀ i : Nat, (∀ c ∈ cs, valid_code_point c) → string_bytes (cs.flatMap utf8_encode) →
      g_utf8_validate_loop (-1) (cs.flatMap utf8_encode) i =
        (true, i + (cs.flatMap utf8_encode).length) := by
  induction cs with
  | nil =>
    intro i _ _
    simp only [List.flatMap_nil, List.length_nil, Nat.add_zero]
    exact g_utf8_validate_loop_nil _ _
  | cons c cs ih =>
    intro i hv hs
    rw [List.flatMap_cons] at hs ⊢
    rw [g_utf8_validate_loop_encode c _ i (hv c (List.mem_cons_self _ _)) hs,
      ih _ (fun x hx => hv x (List.mem_cons_of_mem _ hx))
        (fun x hx => hs x (List.mem_append_right _ hx)),
      List.length_append, Nat.add_assoc]

/-- The loop of `g_utf8_validate` with `max_len = -1` splits the string into encodings of
valid code points and a remainder: it succeeds at the end of the string when the remainder
is empty, and fails at the start of the remainder otherwise. -/
theorem g_utf8_validate_loop_parse (n : Nat) :
    ∀ (s : List Nat) (i : Nat), s.length ≤ n → string_bytes s →
      ∃ (cs rest : List Nat), (∀ c ∈ cs, valid_code_point c) ∧ s = cs.flatMap utf8_encode ++ rest ∧
        ((rest = [] ∧ g_utf8_validate_loop (-1) s i = (true, i + s.length)) ∨
          (rest ≠ [] ∧ utf8_decode rest = none ∧
            g_utf8_validate_loop (-1) s i = (false, i + (cs.flatMap utf8_encode).length))) := by
  induction n with
  | zero =>
    intro s i hl _
    have : s = [] := List.length_eq_zero.mp (by omega)
    subst this
    exact ⟨[], [], by simp, by simp, Or.inl ⟨rfl, g_utf8_validate_loop_nil _ _⟩⟩
  | succ n ih =>
    intro s i hl hs
    rcases s with _ | ⟨b, t⟩
    · exact ⟨[], [], by simp, by simp, Or.inl ⟨rfl, g_utf8_validate_loop_nil _ _⟩⟩
    have hb := hs b (List.mem_cons_self _ _)
    have hstep := g_utf8_validate_loop_step b t i hb.1 hb.2
      (fun x hx => (hs x (List.mem_cons_of_mem _ hx)).2)
    rcases hd : utf8_decode (b :: t) with _ | ⟨c, m, tail⟩
    · rw [hd] at hstep
      refine ⟨[], b :: t, by simp, by simp, Or.inr ⟨by simp, hd, ?_⟩⟩
      simp only [List.flatMap_nil, List.length_nil, Nat.add_zero]
      exact hstep
    · rw [hd] at hstep
      obtain ⟨hc, hst, hm⟩ := utf8_decode_sound _ _ _ _ hd
      have hpos := utf8_encode_length_pos c
      have hlen := congrArg List.length hst
      simp only [List.length_append, List.length_cons] at hlen hl
      have htail : string_bytes tail := by
        intro x hx
        apply hs x
        rw [hst]
        exact List.mem_append_right _ hx
      obtain ⟨cs, rest, hv, hsplit, hres⟩ := ih tail (i + m) (by omega) htail
      refine ⟨c :: cs, rest, ?_, ?_, ?_⟩
      · intro x hx
        rcases List.mem_cons.mp hx with rfl | hx
        · exact hc
        · exact hv x hx
      · rw [List.flatMap_cons, List.append_assoc, ← hsplit]
        exact hst
      · simp only [] at hstep
        rw [hstep]
        rcases hres with ⟨hr, he⟩ | ⟨hr, hn, he⟩
        · refine Or.inl ⟨hr, ?_⟩
          rw [he, List.length_cons]
          congr 1
          omega
        · refine Or.inr ⟨hr, hn, ?_⟩
          rw [he, List.flatMap_cons, List.length_append]
          congr 1
          omega

/-- C22: with `max_len = -1`, on a string whose bytes before the terminating NUL are `s`,
`g_utf8_validate` returns TRUE exactly when `s` is a concatenation of shortest encodings of
code points below `0x110000` that are not surrogates, not in `0xFDD0..0xFDEF` and do not
have `0xFFFE` or `0xFFFF` as their low 16 bits, and then `*end` is at the NUL; when it
returns FALSE, `*end` is at the first byte of `s` behind whole such encodings at which no
such encoding starts. -/
theorem g_utf8_validate_unbounded (s : List Nat) (hs : string_bytes s) :
    ((g_utf8_validate s (-1)).1 = true ↔
        ∃ cs : List Nat, (∀ c ∈ cs, valid_code_point c) ∧ s = cs.flatMap utf8_encode) ∧
    ((g_utf8_validate s (-1)).1 = true → (g_utf8_validate s (-1)).2 = s.length) ∧
    ((g_utf8_validate s (-1)).1 = false →
        ∃ (cs rest : List Nat), (∀ c ∈ cs, valid_code_point c) ∧ s = cs.flatMap utf8_encode ++ rest ∧
          rest ≠ [] ∧ (∀ c, valid_code_point c → ¬ utf8_encode c <+: rest) ∧
          (g_utf8_validate s (-1)).2 = (cs.flatMap utf8_encode).length) := by
  unfold g_utf8_validate
  obtain ⟨cs, rest, hv, hsplit, hres⟩ := g_utf8_validate_loop_parse s.length s 0 le_rfl hs
  rcases hres with ⟨hr, he⟩ | ⟨hr, hn, he⟩
  · rw [he]
    subst hr
    rw [List.append_nil] at hsplit
    refine ⟨⟨fun _ => ⟨cs, hv, hsplit⟩, fun _ => rfl⟩, fun _ => by simp, ?_⟩
    intro h
    exact Bool.noConfusion h
  · rw [he]
    refine ⟨⟨fun h => Bool.noConfusion h, ?_⟩, fun h => Bool.noConfusion h, ?_⟩
    · rintro ⟨cs2, hv2, hs2⟩
      have h2 := g_utf8_validate_loop_accepts cs2 0 hv2 (hs2 ▸ hs)
      rw [← hs2, he] at h2
      exact Bool.noConfusion (congrArg Prod.fst h2)
    · intro _
      exact ⟨cs, rest, hv, hsplit, hr, utf8_decode_none rest hn, by simp⟩

/-- The string "Aé€" followed by U+1F600 is accepted, with `*end` at its NUL. -/
theorem g_utf8_validate_accepts_text :
    g_utf8_validate [0x41, 0xC3, 0xA9, 0xE2, 0x82, 0xAC, 0xF0, 0x9F, 0x98, 0x80] (-1) =
      (true, 10) := by
  decide

/-- An overlong two-byte sequence is refused, with `*end` at its lead byte. -/
theorem g_utf8_validate_refuses_overlong :
    g_utf8_validate [0x41, 0xC0, 0x80] (-1) = (false, 1) := by
  decide

/-- An overlong three-byte sequence (U+007F in three bytes) is refused. -/
theorem g_utf8_validate_refuses_overlong_three :
    g_utf8_validate [0x41, 0x42, 0xE0, 0x81, 0xBF] (-1) = (false, 2) := by
  decide

/-- The encoding of the surrogate U+D800 is refused. -/
theorem g_utf8_validate_refuses_surrogate :
    g_utf8_validate [0xED, 0xA0, 0x80] (-1) = (false, 0) := by
  decide

/-- The encodings of U+FDD0, of U+FFFE and of U+1FFFF are refused. -/
theorem g_utf8_validate_refuses_noncharacters :
    g_utf8_validate [0x41, 0xEF, 0xB7, 0x90] (-1) = (false, 1) ∧
    g_utf8_validate [0x41, 0xEF, 0xBF, 0xBE] (-1) = (false, 1) ∧
    g_utf8_validate [0x41, 0xF0, 0x9F, 0xBF, 0xBF] (-1) = (false, 1) := by
  decide

/-- The encoding of `0x110000` is refused, that of U+10FFFD accepted. -/
theorem g_utf8_validate_range_end :
    g_utf8_validate [0xF4, 0x90, 0x80, 0x80] (-1) = (false, 0) ∧
    g_utf8_validate [0xF4, 0x8F, 0xBF, 0xBD] (-1) = (true, 4) := by
  decide

/-- A sequence cut short by the end of the string is refused, with `*end` at its lead
byte. -/
theorem g_utf8_validate_refuses_truncated :
    g_utf8_validate [0x41, 0xC3, 0xA9, 0xE2, 0x82] (-1) = (false, 3) := by
  decide

/-- C22 at a concrete input: the string "Aé€" followed by U+1F600 is the concatenation of
the encodings of its four code points, so it is accepted with `*end` at index 10. -/
theorem g_utf8_validate_unbounded_witness :
    string_bytes [0x41, 0xC3, 0xA9, 0xE2, 0x82, 0xAC, 0xF0, 0x9F, 0x98, 0x80] ∧
    (g_utf8_validate [0x41, 0xC3, 0xA9, 0xE2, 0x82, 0xAC, 0xF0, 0x9F, 0x98, 0x80] (-1)).1 =
      true ∧
    (g_utf8_validate [0x41, 0xC3, 0xA9, 0xE2, 0x82, 0xAC, 0xF0, 0x9F, 0x98, 0x80] (-1)).2 =
      10 := by
  have h := g_utf8_validate_unbounded
    [0x41, 0xC3, 0xA9, 0xE2, 0x82, 0xAC, 0xF0, 0x9F, 0x98, 0x80] (by decide)
  have ht := h.1.mpr ⟨[0x41, 0xE9, 0x20AC, 0x1F600], by decide, by decide⟩
  exact ⟨by decide, ht, h.2.1 ht⟩

/-! ### Self-removal next to a watch `2^32` bytes away -/

/-- C3 at the failing input: two watches stand at the addresses 3 and 4294967299, which
differ by `2^32`, both are ready, and the callback of the first one (id 1) calls
`g_source_remove(1)`, which destroys the watch and leaves the second watch alone in the
active list. When the callback returns, the test with `ptr_cmp` takes the second watch for
the first (the difference of the addresses, converted to `int`, is 0) and finds an entry, so
the loop goes on with the watch that is released. When the callback returned TRUE the
released watch is linked into the pending list: it is in the active list after the cycle,
and in the next cycle its callback is called and it is destroyed once more. When the
callback returned FALSE the loop calls `watch_free` for the watch a second time in the same
cycle. -/
theorem io_dispatch_self_removal_aliased :
    far_apart.context.io_watches.map (fun w => (w.ptr, w.id)) = [(3, 1), (4294967299, 2)] ∧
    far_apart.context.proc_io_watches = [] ∧
    (g_source_remove far_apart 1).2.context.io_watches.map io_watch.ptr = [4294967299] ∧
    ptr_cmp 4294967299 3 = 0 ∧
    (g_slist_find_custom io_watch.ptr (g_source_remove far_apart 1).2.context.io_watches 3
      ptr_cmp).map io_watch.ptr = some 4294967299 ∧
    (io_dispatch self_removing_callbacks [⟨7, 1, 1⟩, ⟨7, 1, 1⟩] 3 far_apart).map
        (fun W' => (watch_trace 3 W'.trace, W'.context.io_watches.map io_watch.ptr)) =
      some ([Event.io_func 3 100 2 1 10, Event.destroy 3 500 10, Event.unref 3 2,
        Event.free_watch 3], [3, 4294967299]) ∧
    ((io_dispatch self_removing_callbacks [⟨7, 1, 1⟩, ⟨7, 1, 1⟩] 3 far_apart).bind
        (watch_dispatch_cycle self_removing_callbacks ⟨2, [1, 1], ⟨0, 0⟩⟩ 3)).map
        (fun W' => watch_trace 3 W'.trace) =
      some [Event.io_func 3 100 2 1 10, Event.destroy 3 500 10, Event.unref 3 2,
        Event.free_watch 3, Event.io_func 3 100 2 1 10, Event.destroy 3 500 10,
        Event.unref 3 2, Event.free_watch 3] ∧
    (io_dispatch self_removing_stop_callbacks [⟨7, 1, 1⟩, ⟨7, 1, 1⟩] 3 far_apart).map
        (fun W' => watch_trace 3 W'.trace) =
      some [Event.io_func 3 100 2 1 10, Event.destroy 3 500 10, Event.unref 3 2,
        Event.free_watch 3, Event.destroy 3 500 10, Event.unref 3 2, Event.free_watch 3] := by
  decide

/-! ### A context released under the dispatch loop -/

/-- The dispatch cycle in which the callback of a watch calls `g_main_loop_unref` has no
result, whatever the fuel: after the callback the loop of the source goes on to read the
context that has been released. -/
theorem io_dispatch_after_unref (fuel : Nat) :
    io_dispatch unref_callbacks [⟨7, 1, 0⟩, ⟨7, 1, 1⟩] fuel before_dispatch = none := by
  rcases fuel with _ | _ | n
  · rfl
  · rfl
  · rfl

/-! ### Removal of an id that two watches share -/

/-- When the value of `next_id` is the id of a watch of priority 0 that is alone in the
active list, a watch of priority 5 registered now gets the same id, and `g_source_remove` of
that id succeeds twice in a row: the first call removes the old watch, the second one the
new watch. -/
theorem remove_twice_collision (W : World)
    (hio : W.context.io_watches = [⟨3, 1, 2, 0, 1, 0, 100, 0, some 500⟩])
    (hnext : W.context.next_id = 1) (hlock : W.context.io_lock = false)
    (hbrk : W.brk = 4294967299) :
    (g_io_add_watch_full W 2 5 1 101 0 (some 501)).1 = 1 ∧
    (g_io_add_watch_full W 2 5 1 101 0 (some 501)).2.context.io_watches.map
        (fun w => (w.ptr, w.id, w.priority)) = [(3, 1, 0), (4294967299, 1, 5)] ∧
    (g_source_remove (g_io_add_watch_full W 2 5 1 101 0 (some 501)).2 1).1 = true ∧
    (g_source_remove (g_io_add_watch_full W 2 5 1 101 0 (some 501)).2 1).2.context.io_watches.map
        (fun w => (w.ptr, w.id, w.priority)) = [(4294967299, 1, 5)] ∧
    registered (g_source_remove (g_io_add_watch_full W 2 5 1 101 0 (some 501)).2 1).2.context
      1 ∧
    (g_source_remove
      (g_source_remove (g_io_add_watch_full W 2 5 1 101 0 (some 501)).2 1).2 1).1 = true := by
  obtain ⟨r1, r2, _, _⟩ := g_io_add_watch_full_unlocked W ⟨2, 5, 1, 101, 0, some 501⟩ hlock
  have hnew : new_watch W ⟨2, 5, 1, 101, 0, some 501⟩ =
      ⟨4294967299, 1, 2, 5, 1, 0, 101, 0, some 501⟩ := by
    unfold new_watch
    rw [hbrk, hnext]
  have hlist : (g_io_add_watch_full W 2 5 1 101 0 (some 501)).2.context.io_watches =
      (⟨3, 1, 2, 0, 1, 0, 100, 0, some 500⟩ : io_watch) ::
        [⟨4294967299, 1, 2, 5, 1, 0, 101, 0, some 501⟩] := by
    rw [r2]
    simp only
    rw [hio, hnew]
    decide
  have hrem := g_source_remove_head (g_io_add_watch_full W 2 5 1 101 0 (some 501)).2
    ⟨3, 1, 2, 0, 1, 0, 100, 0, some 500⟩ [⟨4294967299, 1, 2, 5, 1, 0, 101, 0, some 501⟩] hlist
  have hrem1 : g_source_remove (g_io_add_watch_full W 2 5 1 101 0 (some 501)).2 1 =
      (true, watch_free
        { (g_io_add_watch_full W 2 5 1 101 0 (some 501)).2 with
          context := { (g_io_add_watch_full W 2 5 1 101 0 (some 501)).2.context with
            io_watches := [⟨4294967299, 1, 2, 5, 1, 0, 101, 0, some 501⟩] } }
        ⟨3, 1, 2, 0, 1, 0, 100, 0, some 500⟩) := hrem
  have hlist2 : (g_source_remove (g_io_add_watch_full W 2 5 1 101 0
      (some 501)).2 1).2.context.io_watches =
        [⟨4294967299, 1, 2, 5, 1, 0, 101, 0, some 501⟩] := by
    rw [hrem1]
    simp only
    rw [watch_free_context]
  have hrem2 := g_source_remove_head
    (g_source_remove (g_io_add_watch_full W 2 5 1 101 0 (some 501)).2 1).2
    ⟨4294967299, 1, 2, 5, 1, 0, 101, 0, some 501⟩ [] hlist2
  have hrem2a : g_source_remove
      (g_source_remove (g_io_add_watch_full W 2 5 1 101 0 (some 501)).2 1).2 1 = _ := hrem2
  refine ⟨by rw [r1, hnext], by rw [hlist]; rfl, by rw [hrem1], by rw [hlist2]; rfl, ?_,
    by rw [hrem2a]⟩
  unfold registered source_ids
  rw [hlist2]
  simp

/-- C4 as stated fails. In a fresh process a watch with a destroy notifier is registered (id
1, address 3) and 4294967295 timers after it, so that the 32-bit counter `next_id` has
wrapped around and is 1 again while the watch is still registered; this is the state `W`.
A watch registered now gets the id 1 as well. The first call `g_source_remove(1)` returns
TRUE and removes the old watch; the id 1 has then been removed, but the second call
`g_source_remove(1)` returns TRUE again, since the new watch is registered with that id. -/
theorem g_source_remove_twice_found :
    ∃ W : World,
      W = (register_all (g_io_add_watch_full one_channel 2 0 1 100 0 (some 500)).2
        (List.replicate 4294967295 (Registration.timeout 0 0 0))).2 ∧
      (g_io_add_watch_full W 2 5 1 101 0 (some 501)).1 = 1 ∧
      (g_io_add_watch_full W 2 5 1 101 0 (some 501)).2.context.io_watches.map
          (fun w => (w.ptr, w.id, w.priority)) = [(3, 1, 0), (4294967299, 1, 5)] ∧
      (g_source_remove (g_io_add_watch_full W 2 5 1 101 0 (some 501)).2 1).1 = true ∧
      (g_source_remove (g_io_add_watch_full W 2 5 1 101 0
          (some 501)).2 1).2.context.io_watches.map
          (fun w => (w.ptr, w.id, w.priority)) = [(4294967299, 1, 5)] ∧
      registered (g_source_remove (g_io_add_watch_full W 2 5 1 101 0
          (some 501)).2 1).2.context 1 ∧
      (g_source_remove
        (g_source_remove (g_io_add_watch_full W 2 5 1 101 0 (some 501)).2 1).2 1).1 =
          true := by
  obtain ⟨w1, w2, w3, w4, w5, _, _⟩ := register_all_timeouts_world 4294967295 0 0 0
    (g_io_add_watch_full one_channel 2 0 1 100 0 (some 500)).2 (by decide)
  refine ⟨_, rfl, remove_twice_collision _ ?_ ?_ ?_ ?_⟩
  · rw [w1]
    decide
  · have h4 := w4 (by decide)
    have h3 : ((g_io_add_watch_full one_channel 2 0 1 100 0 (some 500)).2.context.next_id +
        4294967295) % 4294967296 = 1 := by decide
    rw [h3] at w3
    omega
  · rw [w2]
    decide
  · rw [w5]
    decide

end Eglib
